import Mathlib

/-!
Connection manager of the xrootd client (`src/XrdClient/XrdConnMgr.cc`) and
decoder of monitoring packets (`src/XrdMon/XrdMonDecPacketDecoder.cc`, in the
namespace `XrdMonDec` further down).

A shallow embedding of `XrdConnectionMgr`: the registry of physical and logical
connections, `Connect`, `Disconnect`, `GarbageCollect`, the raw read/write entry
points, `ReadMsg`, `GetPhyConnectionRefCount` and `ProcessUnsolicitedMsg`.

Conventions of the embedding.

* A `XrdPhyConnection*` is a natural number, the address of the object.  The
  allocator is monotone (`nextAddr`): an address is never handed out twice, so
  a pointer to a destroyed object stays recognisable.
* `fPhyVec` and `fLogVec` are lists of slots; a null slot is `none`.  The
  vector owns the object, so the object is stored in its slot.
* Loops whose counter is an `unsigned short int` are run by `forUShort`, which
  increments modulo `65536` and takes fuel; `none` means the fuel ran out.
* `short int` and `int` results are integers wrapped by `toShort`/`toInt`.
* The clock (`time(0)`) and the outcome of the network connect are inputs of
  the call that consults them.
* Undefined behaviour (reading outside a vector, dereferencing a null or a
  dangling pointer) is a `Fault`.
-/

namespace XrdConnMgr

/-! ## Machine integers -/

/-- Conversion to `short int`: reduction modulo `2^16` into `[-32768, 32767]`
(16 bit, two's complement). -/
def toShort (n : Int) : Int := (n + 32768) % 65536 - 32768

/-- Conversion to `int`: reduction modulo `2^32` into `[-2^31, 2^31 - 1]`
(32 bit, two's complement). -/
def toInt (n : Int) : Int := (n + 2147483648) % 4294967296 - 2147483648

/-- The loop `for (unsigned short int i = i0; i < size; i++) body`.
The counter is incremented modulo `65536`; `size` is read again at every
iteration.  The body returns the new loop state and whether it executed
`break`; it returns `none` when a call inside it does not return.  The first
argument is the fuel: `none` means that the loop had not finished when it ran
out. -/
def forUShort {σ : Type} (size : σ → Nat) (body : Nat → σ → Option (σ × Bool)) :
    Nat → Nat → σ → Option σ
  | 0, _, _ => none
  | fuel + 1, i, s =>
    if i < size s then
      match body i s with
      | none => none
      | some (s', true) => some s'
      | some (s', false) => forUShort size body fuel ((i + 1) % 65536) s'
    else some s

/-! ## Data model -/

/-- The endpoint handed to `Connect` (`XrdUrlInfo`): host name, resolved
address and port. -/
structure XrdUrlInfo where
  Host : String
  HostAddr : String
  Port : Int
  deriving DecidableEq

/-- Modelled from the spec: class `XrdPhyConnection` is not among the sources.
The spec gives it an endpoint, a connectivity state, the time of the last touch
and a TTL.  `addr` is the address of the object. -/
structure XrdPhyConnection where
  addr : Nat
  fServer : XrdUrlInfo
  fConnected : Bool
  fLastUseTimestamp : Int
  fTTLsec : Int
  deriving DecidableEq

namespace XrdPhyConnection

/-- Modelled from the spec: `IsValid()`, the connection is currently
connected. -/
def IsValid (p : XrdPhyConnection) : Bool := p.fConnected

/-- Modelled from the spec: `IsAddress(host)`, the argument names the server of
this connection, by host name or by resolved address. -/
def IsAddress (p : XrdPhyConnection) (a : String) : Bool :=
  p.fServer.Host == a || p.fServer.HostAddr == a

/-- Modelled from the spec: `IsPort(port)`. -/
def IsPort (p : XrdPhyConnection) (port : Int) : Bool := p.fServer.Port == port

/-- Modelled from the spec: `Touch()` resets the idle clock to the current
time. -/
def Touch (p : XrdPhyConnection) (now : Int) : XrdPhyConnection :=
  { p with fLastUseTimestamp := now }

/-- Modelled from the spec: `ExpiredTTL()` is `now − lastTouched > ttl`. -/
def ExpiredTTL (p : XrdPhyConnection) (now : Int) : Bool :=
  decide (now - p.fLastUseTimestamp > p.fTTLsec)

/-- Modelled from the spec: `SetTTL(ttl)`. -/
def SetTTL (p : XrdPhyConnection) (ttl : Int) : XrdPhyConnection :=
  { p with fTTLsec := ttl }

/-- Modelled from the spec: `Disconnect()` shuts the socket down; the
connection is no longer valid. -/
def Disconnect (p : XrdPhyConnection) : XrdPhyConnection :=
  { p with fConnected := false }

end XrdPhyConnection

/-- Modelled from the spec: class `XrdLogConnection` is not among the sources.
A logical connection references the physical connection it is bound to
(`GetPhyConnection()`); it never owns it. -/
structure XrdLogConnection where
  fPhyConnection : Nat
  deriving DecidableEq

/-- The connection manager: the two vectors, the allocator of
`XrdPhyConnection` addresses, and the number of `XrdLogConnection` and
`XrdPhyConnection` objects obtained from `new` and not yet deleted. -/
structure XrdConnectionMgr where
  fPhyVec : List (Option XrdPhyConnection)
  fLogVec : List (Option XrdLogConnection)
  nextAddr : Nat
  heapLog : Nat
  heapPhy : Nat
  deriving DecidableEq

/-- The manager right after construction. -/
def empty : XrdConnectionMgr := ⟨[], [], 0, 0, 0⟩

/-- Undefined behaviour the code can run into. -/
inductive Fault where
  | outOfRange
  | nullPointer
  | danglingPointer
  deriving DecidableEq

/-- The message handed around by `ReadMsg` and `ProcessUnsolicitedMsg`. -/
structure XrdMessage where
  tag : Nat
  deriving DecidableEq

/-- Slot `i` of a vector that is read at an index below its size. -/
def slot {α : Type} (v : List (Option α)) (i : Nat) : Option α := (v.getD i none)

/-- The expression `fLogVec[i] && (fLogVec[i]->GetPhyConnection() == PhyConn)`. -/
def boundTo (PhyConn : Nat) (s : Option XrdLogConnection) : Bool :=
  match s with
  | none => false
  | some lc => lc.fPhyConnection == PhyConn

/-- The object a `XrdPhyConnection*` points to, when it has not been
destroyed. -/
def derefPhy (st : XrdConnectionMgr) (a : Nat) : Option XrdPhyConnection :=
  (st.fPhyVec.find? (fun s => match s with
    | some p => p.addr == a
    | none => false)).join

/-- A method that changes the object a `XrdPhyConnection*` points to. -/
def updatePhy (st : XrdConnectionMgr) (a : Nat) (f : XrdPhyConnection → XrdPhyConnection) :
    XrdConnectionMgr :=
  { st with fPhyVec := st.fPhyVec.map (fun s => match s with
      | some p => if p.addr = a then some (f p) else some p
      | none => none) }

/-! ## Operations -/

/-- The function `short int GetPhyConnectionRefCount(XrdPhyConnection *PhyConn)`: counts the
logical connections bound to `PhyConn` in an `int` and returns it as a
`short int`. -/
def GetPhyConnectionRefCount (fuel : Nat) (st : XrdConnectionMgr) (PhyConn : Nat) :
    Option Int :=
  (forUShort (fun _ => st.fLogVec.length)
    (fun i (cnt : Int) =>
      some (if boundTo PhyConn (slot st.fLogVec i) then cnt + 1 else cnt, false))
    fuel 0 0).map toShort

/-- The body of the loop of `GarbageCollect` (lines 171-187) at index `i`. -/
def GarbageCollect.body (fuel : Nat) (now : Int) (i : Nat) (s : XrdConnectionMgr) :
    Option (XrdConnectionMgr × Bool) :=
  match slot s.fPhyVec i with
  | none => some (s, false)
  | some p =>
    match GetPhyConnectionRefCount fuel s p.addr with
    | none => none
    | some rc =>
      if rc ≤ 0 ∧ p.ExpiredTTL now = true then
        -- fPhyVec[i]->Disconnect(); SafeDelete(fPhyVec[i]); fPhyVec[i] = 0;
        some ({ s with fPhyVec := s.fPhyVec.set i none, heapPhy := s.heapPhy - 1 }, false)
      else some (s, false)

/-- The function `void GarbageCollect()`: purges the physical connections without a linked
logical connection whose TTL has expired.  `now` is the clock consulted by
`ExpiredTTL()`. -/
def GarbageCollect (fuel : Nat) (now : Int) (st : XrdConnectionMgr) :
    Option XrdConnectionMgr :=
  forUShort (fun s => s.fPhyVec.length) (GarbageCollect.body fuel now) fuel 0 st

/-- What the environment supplies to one call of `Connect`: the clock, the
result of `phyconn->Connect(RemoteServ)`, the TTL the new physical connection
gets, and whether `DebugLevel() >= XrdDebug::kHIDEBUG`. -/
structure ConnectEnv where
  now : Int
  netOk : Bool
  ttl : Int
  hiDebug : Bool
  deriving DecidableEq

/-- The condition of the lookup loop of `Connect`. -/
def reusable (RemoteServ : XrdUrlInfo) (s : Option XrdPhyConnection) : Bool :=
  match s with
  | none => false
  | some p => p.IsValid && p.IsPort RemoteServ.Port &&
      (p.IsAddress RemoteServ.Host || p.IsAddress RemoteServ.HostAddr)

/-- The body of the lookup loop of `Connect` (lines 231-241) at index `i`.
The loop state is the manager and the physical connection `logconn` has been
bound to, if any (`phyfound`). -/
def Connect.lookupBody (RemoteServ : XrdUrlInfo) (now : Int) (i : Nat)
    (s : XrdConnectionMgr × Option Nat) : Option ((XrdConnectionMgr × Option Nat) × Bool) :=
  match slot s.1.fPhyVec i with
  | none => some (s, false)
  | some p =>
    if reusable RemoteServ (some p) then
      -- fPhyVec[i]->Touch(); logconn->SetPhyConnection(fPhyVec[i]); break
      some (({ s.1 with fPhyVec := s.1.fPhyVec.set i (some (p.Touch now)) }, some p.addr), true)
    else some (s, false)

/-- The lookup loop of `Connect` (lines 230-242). -/
def Connect.lookup (fuel : Nat) (RemoteServ : XrdUrlInfo) (now : Int)
    (st : XrdConnectionMgr) : Option (XrdConnectionMgr × Option Nat) :=
  forUShort (fun s => s.1.fPhyVec.length) (Connect.lookupBody RemoteServ now) fuel 0 (st, none)

/-- The two counting loops of the debug log of `Connect` (lines 298-303);
only their termination matters. -/
def Connect.debugLog (fuel : Nat) (st : XrdConnectionMgr) : Option Unit :=
  match forUShort (fun _ => st.fPhyVec.length)
      (fun i (c : Int) => some (if (slot st.fPhyVec i).isSome then c + 1 else c, false))
      fuel 0 0 with
  | none => none
  | some _ =>
    match forUShort (fun _ => st.fLogVec.length)
        (fun i (c : Int) => some (if (slot st.fLogVec i).isSome then c + 1 else c, false))
        fuel 0 0 with
    | none => none
    | some _ => some ()

/-- The second locked block of `Connect` (lines 281-312), once `logconn` is
bound to the physical connection at address `a`: pushes `logconn`, computes
`newid = fLogVec.size()-1` as a `short int` and writes the debug log. -/
def Connect.push (fuel : Nat) (st : XrdConnectionMgr) (a : Nat) (hiDebug : Bool) :
    Option (Int × XrdConnectionMgr) :=
  let st' := { st with fLogVec := st.fLogVec ++ [some ⟨a⟩] }
  let newid := toShort ((st'.fLogVec.length : Int) - 1)
  if hiDebug then
    match Connect.debugLog fuel st' with
    | none => none
    | some _ => some (newid, st')
  else some (newid, st')

/-- The function `short int Connect(XrdUrlInfo RemoteServ)`.  Returns the id (`-1` when the
network connect fails) and the new state of the manager. -/
def Connect (fuel : Nat) (st : XrdConnectionMgr) (RemoteServ : XrdUrlInfo)
    (env : ConnectEnv) : Option (Int × XrdConnectionMgr) :=
  -- logconn = new XrdLogConnection()
  let st0 := { st with heapLog := st.heapLog + 1 }
  match Connect.lookup fuel RemoteServ env.now st0 with
  | none => none
  | some (st1, some a) => Connect.push fuel st1 a env.hiDebug
  | some (st1, none) =>
    -- phyconn = new XrdPhyConnection(this)
    let phyconn : XrdPhyConnection := ⟨st1.nextAddr, RemoteServ, true, env.now, env.ttl⟩
    let st2 := { st1 with nextAddr := st1.nextAddr + 1, heapPhy := st1.heapPhy + 1 }
    if env.netOk then
      Connect.push fuel { st2 with fPhyVec := st2.fPhyVec ++ [some phyconn] } phyconn.addr
        env.hiDebug
    else some (-1, st2)

/-- How a call of `Disconnect` ended: the silent return of line 324, the
return after `Error("Disconnect", "Destroying nonexistent logconn ...")`, or
the removal of the logical connection. -/
inductive DisconnectOutcome where
  | ignored
  | nonexistent
  | removed
  deriving DecidableEq

/-- The function `void Disconnect(short int LogConnectionID, bool ForcePhysicalDisc)`.
The parameter is a `short int`: the argument of a call is converted to it
(`toShort`), so the body only ever sees a value between -32768 and 32767.
`now` is the clock consulted by `Touch()`. -/
def Disconnect (st : XrdConnectionMgr) (LogConnectionID : Int) (ForcePhysicalDisc : Bool)
    (now : Int) : Except Fault (DisconnectOutcome × XrdConnectionMgr) :=
  if toShort LogConnectionID < 0 then .ok (.ignored, st)
  else if toShort LogConnectionID < 0 ∨
      toShort LogConnectionID ≥ toInt st.fLogVec.length then
    .ok (.nonexistent, st)
  else
    match slot st.fLogVec (toShort LogConnectionID).toNat with
    | none => .ok (.nonexistent, st)
    | some logconn =>
      match derefPhy st logconn.fPhyConnection with
      | none => .error .danglingPointer
      | some _ =>
        let st1 :=
          if ForcePhysicalDisc then
            updatePhy (updatePhy st logconn.fPhyConnection (fun p => p.SetTTL 0))
              logconn.fPhyConnection (fun p => p.Disconnect)
          else st
        let st2 := updatePhy st1 logconn.fPhyConnection (fun p => p.Touch now)
        .ok (.removed,
          { st2 with fLogVec := st2.fLogVec.set (toShort LogConnectionID).toNat none,
                     heapLog := st2.heapLog - 1 })

/-- The function `XrdLogConnection *GetConnection(short int LogConnectionID)`: returns
`fLogVec[LogConnectionID]` without a range check; the index is converted to an
unsigned size. -/
def GetConnection (st : XrdConnectionMgr) (LogConnectionID : Int) :
    Except Fault (Option XrdLogConnection) :=
  if 0 ≤ LogConnectionID ∧ LogConnectionID < st.fLogVec.length then
    .ok (slot st.fLogVec LogConnectionID.toNat)
  else .error .outOfRange

/-- The value of `ReadRaw` and `WriteRaw`: the constant `TXSOCK_ERR`, or what
the logical connection the call was handed to returns. -/
inductive RawResult where
  | TXSOCK_ERR
  | delegated (logconn : XrdLogConnection)
  deriving DecidableEq

/-- The function `int ReadRaw(short int LogConnectionID, void *buffer, int BufferLength)`. -/
def ReadRaw (st : XrdConnectionMgr) (LogConnectionID : Int) : Except Fault RawResult :=
  match GetConnection st LogConnectionID with
  | .error f => .error f
  | .ok (some logconn) => .ok (.delegated logconn)
  | .ok none => .ok .TXSOCK_ERR

/-- The function `int WriteRaw(short int LogConnectionID, const void *buffer, int BufferLength)`. -/
def WriteRaw (st : XrdConnectionMgr) (LogConnectionID : Int) : Except Fault RawResult :=
  match GetConnection st LogConnectionID with
  | .error f => .error f
  | .ok (some logconn) => .ok (.delegated logconn)
  | .ok none => .ok .TXSOCK_ERR

/-- The value of `ReadMsg`: the message the physical connection at `phy` builds
from the socket (`BuildMessage(FALSE, FALSE)`), or the one it takes from the
queue of the logical connection (`ReadMessage(LogConnectionID)`). -/
inductive MsgResult where
  | built (phy : Nat)
  | queued (phy : Nat) (LogConnectionID : Int)
  deriving DecidableEq

/-- The function `XrdMessage *ReadMsg(short int LogConnectionID)`; `goAsync` is the constant
`DFLT_GOASYNC`.  `logconn` is dereferenced without a null check. -/
def ReadMsg (st : XrdConnectionMgr) (LogConnectionID : Int) (goAsync : Bool) :
    Except Fault MsgResult :=
  match GetConnection st LogConnectionID with
  | .error f => .error f
  | .ok none => .error .nullPointer
  | .ok (some logconn) =>
    match derefPhy st logconn.fPhyConnection with
    | none => .error .danglingPointer
    | some p =>
      if !goAsync then .ok (.built p.addr) else .ok (.queued p.addr LogConnectionID)

/-- One call `fLogVec[i]->ProcessUnsolicitedMsg(sender, unsolmsg)`. -/
structure HandlerCall where
  index : Nat
  sender : Nat
  unsolmsg : XrdMessage
  deriving DecidableEq

/-- The function `bool ProcessUnsolicitedMsg(XrdUnsolicitedMsgSender *sender, XrdMessage *unsolmsg)`.
Returns the value of the function, the manager afterwards and the handler
calls made, in order. -/
def ProcessUnsolicitedMsg (fuel : Nat) (st : XrdConnectionMgr) (sender : Nat)
    (unsolmsg : XrdMessage) : Option (Bool × XrdConnectionMgr × List HandlerCall) :=
  match forUShort (fun s => s.1.fLogVec.length)
      (fun i (s : XrdConnectionMgr × List HandlerCall) =>
        if boundTo sender (slot s.1.fLogVec i) then
          some ((s.1, s.2 ++ [⟨i, sender, unsolmsg⟩]), false)
        else some (s, false))
      fuel 0 (st, []) with
  | none => none
  | some (st', calls) => some (true, st', calls)

/-! ## Executions -/

/-- One call of `Connect`, `Disconnect` or `GarbageCollect` that returns. -/
inductive Step : XrdConnectionMgr → XrdConnectionMgr → Prop where
  | connect {st st' : XrdConnectionMgr} (fuel : Nat) (RemoteServ : XrdUrlInfo)
      (env : ConnectEnv) (id : Int) :
      Connect fuel st RemoteServ env = some (id, st') → Step st st'
  | disconnect {st st' : XrdConnectionMgr} (id : Int) (force : Bool) (now : Int)
      (o : DisconnectOutcome) :
      Disconnect st id force now = .ok (o, st') → Step st st'
  | collect {st st' : XrdConnectionMgr} (fuel : Nat) (now : Int) :
      GarbageCollect fuel now st = some st' → Step st st'

/-- The states of the manager after any sequence of calls from the empty
manager. -/
inductive Reachable : XrdConnectionMgr → Prop where
  | init : Reachable empty
  | step {st st' : XrdConnectionMgr} : Reachable st → Step st st' → Reachable st'

/-! ## Derived notions used in the statements -/

/-- The number of occupied logical slots bound to `PhyConn`. -/
def boundCount (v : List (Option XrdLogConnection)) (PhyConn : Nat) : Nat :=
  v.countP (boundTo PhyConn)

/-- The test `GarbageCollect` applies to a physical slot, with the reference
count as `GetPhyConnectionRefCount` returns it. -/
def purgeable (logs : List (Option XrdLogConnection)) (now : Int)
    (s : Option XrdPhyConnection) : Bool :=
  match s with
  | none => false
  | some p => decide (toShort (boundCount logs p.addr) ≤ 0) && p.ExpiredTTL now

/-- What a sweep leaves in one physical slot. -/
def sweepSlot (logs : List (Option XrdLogConnection)) (now : Int)
    (s : Option XrdPhyConnection) : Option XrdPhyConnection :=
  if purgeable logs now s then none else s

/-- The manager after a sweep that has finished. -/
def sweep (now : Int) (st : XrdConnectionMgr) : XrdConnectionMgr :=
  { st with
    fPhyVec := st.fPhyVec.map (sweepSlot st.fLogVec now)
    heapPhy := st.heapPhy - st.fPhyVec.countP (purgeable st.fLogVec now) }

/-- What one iteration of the sweep does to the manager. -/
def sweepStep (now : Int) (i : Nat) (s : XrdConnectionMgr) : XrdConnectionMgr :=
  if purgeable s.fLogVec now (slot s.fPhyVec i) then
    { s with fPhyVec := s.fPhyVec.set i none, heapPhy := s.heapPhy - 1 }
  else s

/-- The state of a sweep of `st` that has dealt with the slots below `i`. -/
def sweepInv (now : Int) (st : XrdConnectionMgr) (i : Nat) (s : XrdConnectionMgr) : Prop :=
  s.fLogVec = st.fLogVec ∧ s.nextAddr = st.nextAddr ∧ s.heapLog = st.heapLog ∧
  s.heapPhy = st.heapPhy - (st.fPhyVec.take i).countP (purgeable st.fLogVec now) ∧
  s.fPhyVec.length = st.fPhyVec.length ∧
  ∀ j, s.fPhyVec[j]? =
    if j < i then (st.fPhyVec[j]?).map (sweepSlot st.fLogVec now) else st.fPhyVec[j]?

/-- The manager after a `Connect` that reused the physical connection `p` of
slot `i`. -/
def afterReuse (st : XrdConnectionMgr) (i : Nat) (p : XrdPhyConnection) (now : Int) :
    XrdConnectionMgr :=
  ⟨st.fPhyVec.set i (some (p.Touch now)), st.fLogVec ++ [some ⟨p.addr⟩], st.nextAddr,
    st.heapLog + 1, st.heapPhy⟩

/-- The physical connection a successful network connect creates. -/
def newPhy (st : XrdConnectionMgr) (A : XrdUrlInfo) (env : ConnectEnv) : XrdPhyConnection :=
  ⟨st.nextAddr, A, true, env.now, env.ttl⟩

/-- The manager after a `Connect` that created a physical connection. -/
def afterNew (st : XrdConnectionMgr) (A : XrdUrlInfo) (env : ConnectEnv) : XrdConnectionMgr :=
  ⟨st.fPhyVec ++ [some (newPhy st A env)], st.fLogVec ++ [some ⟨st.nextAddr⟩],
    st.nextAddr + 1, st.heapLog + 1, st.heapPhy + 1⟩

/-- The manager after a `Connect` whose network connect failed. -/
def afterFail (st : XrdConnectionMgr) : XrdConnectionMgr :=
  ⟨st.fPhyVec, st.fLogVec, st.nextAddr + 1, st.heapLog + 1, st.heapPhy + 1⟩

/-- What a `Disconnect` of a logical connection bound to address `a` does to a
physical slot. -/
def touchSlot (a : Nat) (force : Bool) (now : Int) (s : Option XrdPhyConnection) :
    Option XrdPhyConnection :=
  match s with
  | none => none
  | some p =>
    if p.addr = a then
      some (if force then ((p.SetTTL 0).Disconnect).Touch now else p.Touch now)
    else some p

/-- The manager after `Disconnect` has removed the logical connection `lc` of
slot `id`. -/
def afterDisconnect (st : XrdConnectionMgr) (id : Nat) (lc : XrdLogConnection) (force : Bool)
    (now : Int) : XrdConnectionMgr :=
  ⟨st.fPhyVec.map (touchSlot lc.fPhyConnection force now), st.fLogVec.set id none,
    st.nextAddr, st.heapLog - 1, st.heapPhy⟩

/-! ## Concrete inputs -/

/-- The endpoint `serverA:1094`. -/
def serverA : XrdUrlInfo := ⟨"serverA", "10.0.0.1", 1094⟩

/-- A call of `Connect` at time `now` whose network connect succeeds, with TTL
`ttl` for a new physical connection and the debug log switched off. -/
def quiet (now ttl : Int) : ConnectEnv := ⟨now, true, ttl, false⟩

/-- A manager without physical slots whose `n` logical slots have all been
vacated. -/
def vacatedLogs (n : Nat) : XrdConnectionMgr := ⟨[], List.replicate n none, 0, 0, 0⟩

/-- The physical connection to `serverA:1094` at address 0, connected, last
touched at time 0, with TTL 0. -/
def phyA : XrdPhyConnection := ⟨0, serverA, true, 0, 0⟩

/-- A manager with the physical connection `phyA` and `n` logical connections
bound to it: the state after `n` calls `Connect(serverA:1094)` on the empty
manager. -/
def crowded (n : Nat) : XrdConnectionMgr :=
  ⟨[some phyA], List.replicate n (some ⟨0⟩), 1, n, 1⟩

/-- The manager `crowded n` with the physical slot vacated. -/
def orphaned (n : Nat) : XrdConnectionMgr :=
  ⟨[none], List.replicate n (some ⟨0⟩), 1, n, 0⟩

/-- The manager after `Connect(serverA:1094)` at time 0 on the empty manager,
the new physical connection having TTL 100. -/
def single : XrdConnectionMgr :=
  ⟨[some ⟨0, serverA, true, 0, 100⟩], [some ⟨0⟩], 1, 1, 1⟩

/-- A manager whose `n` physical slots have all been vacated. -/
def vacatedPhys (n : Nat) : XrdConnectionMgr := ⟨List.replicate n none, [], 0, 0, 0⟩

/-- The handler calls `ProcessUnsolicitedMsg` makes over the logical slots
`logs`. -/
def fanOut (logs : List (Option XrdLogConnection)) (sender : Nat) (unsolmsg : XrdMessage)
    (n : Nat) : List HandlerCall :=
  ((List.range n).filter (fun i => boundTo sender (slot logs i))).map
    (fun i => ⟨i, sender, unsolmsg⟩)

/-- The manager after `Connect(serverA)`, `Disconnect(0, true)` and
`Connect(serverA)` again, all at time 0 and before any sweep. -/
def doubled : XrdConnectionMgr :=
  ⟨[some ⟨0, serverA, false, 0, 0⟩, some ⟨1, serverA, true, 0, 100⟩], [none, some ⟨1⟩], 2, 1, 2⟩

/-- The states of the manager after any sequence of calls `Connect(A)` from
the empty manager. -/
inductive OnlyConnects (A : XrdUrlInfo) : XrdConnectionMgr → Prop where
  | init : OnlyConnects A empty
  | step {st st' : XrdConnectionMgr} (fuel : Nat) (env : ConnectEnv) (id : Int) :
      OnlyConnects A st → Connect fuel st A env = some (id, st') → OnlyConnects A st'

/-- At most one valid physical connection per host and port. -/
def OneValidPerEndpoint (v : List (Option XrdPhyConnection)) : Prop :=
  ∀ (i j : Nat) (p q : XrdPhyConnection), v[i]? = some (some p) → v[j]? = some (some q) →
    p.IsValid = true → q.IsValid = true → p.fServer.Host = q.fServer.Host →
    p.fServer.Port = q.fServer.Port → i = j

/-- Every slot of `w` is vacated or holds the connection of the same slot of
`v`, to the same server and valid only if that one is. -/
def Refines (w v : List (Option XrdPhyConnection)) : Prop :=
  ∀ (i : Nat) (p' : XrdPhyConnection), w[i]? = some (some p') →
    ∃ p : XrdPhyConnection, v[i]? = some (some p) ∧ p.fServer = p'.fServer ∧
      (p'.IsValid = true → p.IsValid = true)

/-- The value of `phyfound` after the lookup loop of `Connect` (lines 223-244),
when the loop has finished. -/
def Connect.phyfound (fuel : Nat) (st : XrdConnectionMgr) (RemoteServ : XrdUrlInfo)
    (now : Int) : Option Bool :=
  (Connect.lookup fuel RemoteServ now { st with heapLog := st.heapLog + 1 }).map
    (fun r => r.2.isSome)

/-- A call of `Connect` at time `now` whose network connect fails, with the
debug log switched off. -/
def unreachable (now : Int) : ConnectEnv := ⟨now, false, 0, false⟩

/-- Any sequence of calls of `Connect`, `Disconnect` and `GarbageCollect` that
return, from one state of the manager to another. -/
inductive Steps : XrdConnectionMgr → XrdConnectionMgr → Prop where
  | refl (st : XrdConnectionMgr) : Steps st st
  | tail {st st' st'' : XrdConnectionMgr} : Steps st st' → Step st' st'' → Steps st st''

/-- A manager whose first `n` physical slots have been vacated and whose slot
`n` holds the connection `phyA` to `serverA:1094`. -/
def hidden (n : Nat) : XrdConnectionMgr :=
  ⟨List.replicate n none ++ [some phyA], [], 1, 0, 1⟩

/-- The call `Connect` when the garbage collector runs one sweep, at clock
`gcNow`, between the first locked block of `Connect` (lines 223-244) and the
second one (lines 281-312): each locked block and the sweep are atomic. -/
def Connect.interleaved (fuel : Nat) (st : XrdConnectionMgr) (RemoteServ : XrdUrlInfo)
    (env : ConnectEnv) (gcNow : Int) : Option (Int × XrdConnectionMgr) :=
  let st0 := { st with heapLog := st.heapLog + 1 }
  match Connect.lookup fuel RemoteServ env.now st0 with
  | none => none
  | some (st1, some a) =>
    match GarbageCollect fuel gcNow st1 with
    | none => none
    | some st2 => Connect.push fuel st2 a env.hiDebug
  | some (st1, none) =>
    let phyconn : XrdPhyConnection := ⟨st1.nextAddr, RemoteServ, true, env.now, env.ttl⟩
    let st2 := { st1 with nextAddr := st1.nextAddr + 1, heapPhy := st1.heapPhy + 1 }
    match GarbageCollect fuel gcNow st2 with
    | none => none
    | some st3 =>
      if env.netOk then
        Connect.push fuel { st3 with fPhyVec := st3.fPhyVec ++ [some phyconn] } phyconn.addr
          env.hiDebug
      else some (-1, st3)

/-- The manager after `Connect(serverA:1094)` and `Disconnect(0, false)`, both
at time 0: the physical connection, with TTL 100, has no logical connection
left. -/
def idle : XrdConnectionMgr :=
  ⟨[some ⟨0, serverA, true, 0, 100⟩], [none], 1, 0, 1⟩

/-- The loop `for (unsigned int i = i0; i < size; i++) body`: as `forUShort`,
with a counter of 32 bits, incremented modulo `4294967296`. -/
def forUInt {σ : Type} (size : σ → Nat) (body : Nat → σ → Option (σ × Bool)) :
    Nat → Nat → σ → Option σ
  | 0, _, _ => none
  | fuel + 1, i, s =>
    if i < size s then
      match body i s with
      | none => none
      | some (s', true) => some s'
      | some (s', false) => forUInt size body fuel ((i + 1) % 4294967296) s'
    else some s

/-- The size the loop of the destructor compares its counter with; after
undefined behaviour there is no next iteration. -/
def Destroy.size (s : Except Fault XrdConnectionMgr) : Nat :=
  match s with
  | .ok m => m.fLogVec.length
  | .error _ => 0

/-- The body of the loop of the destructor (line 140),
`if (fLogVec[i]) Disconnect(i, FALSE)`: the `unsigned int` counter is the
argument of `Disconnect`, which converts it to its `short int` parameter.
`clock i` is the time at iteration `i`. -/
def Destroy.body (clock : Nat → Int) (i : Nat) (s : Except Fault XrdConnectionMgr) :
    Option (Except Fault XrdConnectionMgr × Bool) :=
  match s with
  | .error f => some (.error f, true)
  | .ok m =>
    match slot m.fLogVec i with
    | none => some (.ok m, false)
    | some _ =>
      match Disconnect m i false (clock i) with
      | .error f => some (.error f, true)
      | .ok (_, m') => some (.ok m', false)

/-- The destructor `~XrdConnectionMgr()` (lines 130-152): closes every
occupied logical connection, then, the collector thread having been cancelled
and joined, runs `GarbageCollect()` once, at time `now`, and ends with
`delete(fgInstance)` (line 151).  The flag `isInstance` says whether
`fgInstance` points to this manager, the one `Instance()` created; otherwise
`fgInstance` is null and the `delete` does nothing.  When it points to this
manager the `delete` runs this destructor on the same object once more: the
model runs it again, on one unit of fuel less, and `none` means that the fuel
ran out.  The destruction of the mutex is not part of the model. -/
def Destroy (fuel : Nat) (st : XrdConnectionMgr) (clock : Nat → Int) (now : Int)
    (isInstance : Bool) : Option (Except Fault XrdConnectionMgr) :=
  match fuel with
  | 0 => none
  | f + 1 =>
    match forUInt Destroy.size (Destroy.body clock) (f + 1) 0 (.ok st) with
    | none => none
    | some (.error e) => some (.error e)
    | some (.ok st1) =>
      match GarbageCollect (f + 1) now st1 with
      | none => none
      | some st2 => if isInstance then Destroy f st2 clock now isInstance else some (.ok st2)

/-- The state of the loop of the destructor of `st` that has dealt with the
logical slots below `i`: those slots are vacated, and a physical connection
differs from what it was only by its idle clock, which is the time of the
closing of a logical connection bound to it when there was one below `i`. -/
def closeInv (clock : Nat → Int) (st : XrdConnectionMgr) (i : Nat)
    (s : Except Fault XrdConnectionMgr) : Prop :=
  ∃ m : XrdConnectionMgr, s = .ok m ∧
    m.fLogVec.length = st.fLogVec.length ∧
    (∀ j : Nat, m.fLogVec[j]? =
      if j < i then (st.fLogVec[j]?).map (fun _ => none) else st.fLogVec[j]?) ∧
    m.fPhyVec.length = st.fPhyVec.length ∧
    (∀ k : Nat, (st.fPhyVec[k]? = some none → m.fPhyVec[k]? = some none) ∧
      ∀ p : XrdPhyConnection, st.fPhyVec[k]? = some (some p) →
        ∃ t : Int, m.fPhyVec[k]? =
            some (some (XrdPhyConnection.mk p.addr p.fServer p.fConnected t p.fTTLsec)) ∧
          ((∀ (j : Nat) (lc : XrdLogConnection), j < i → st.fLogVec[j]? = some (some lc) →
              lc.fPhyConnection ≠ p.addr) → t = p.fLastUseTimestamp) ∧
          ((∃ (j : Nat) (lc : XrdLogConnection), j < i ∧ st.fLogVec[j]? = some (some lc) ∧
              lc.fPhyConnection = p.addr) →
            ∃ (j : Nat) (lc : XrdLogConnection), j < i ∧ st.fLogVec[j]? = some (some lc) ∧
              lc.fPhyConnection = p.addr ∧ t = clock j))

/-- The endpoint `serverB:1095`. -/
def serverB : XrdUrlInfo := ⟨"serverB", "10.0.0.2", 1095⟩

/-- The physical connection to `serverB:1095` at address 1, connected, last
touched at time 0, with TTL 0. -/
def phyB : XrdPhyConnection := ⟨1, serverB, true, 0, 0⟩

/-- A manager with the physical connections `phyA` and `phyB`, `a` logical
connections bound to `phyA` followed by `b` bound to `phyB`: the state after
`a` calls `Connect(serverA:1094)` and then `b` calls `Connect(serverB:1095)`
on the empty manager. -/
def twin (a b : Nat) : XrdConnectionMgr :=
  ⟨[some phyA, some phyB], List.replicate a (some ⟨0⟩) ++ List.replicate b (some ⟨1⟩), 2,
    a + b, 2⟩

/-- The endpoint `farm:i`. -/
def farmServer (i : Nat) : XrdUrlInfo := ⟨"farm", "10.0.1.1", i⟩

/-- A manager with `n` physical connections, the one of slot `i` to the
endpoint `farm:i`, each with one logical connection: the state after the calls
`Connect(farm:0)`, ..., `Connect(farm:n-1)` on the empty manager. -/
def farm (n : Nat) : XrdConnectionMgr :=
  ⟨(List.range n).map (fun i => some ⟨i, farmServer i, true, 0, 0⟩),
    (List.range n).map (fun i => some ⟨i⟩), n, n, n⟩

/-- The manager after `Connect(serverA:1094)`, `Disconnect(0, false)` and `n`
more calls `Connect(serverA:1094)`, all at time 0: logical slot 0 is vacated
and `n` logical connections follow it. -/
def reopened (n : Nat) : XrdConnectionMgr :=
  ⟨[some phyA], none :: List.replicate n (some ⟨0⟩), 1, n, 1⟩

/-- The manager `orphaned n`, whose only physical connection, at address 0,
has been destroyed while `n` logical connections are bound to it, at the moment
`new` hands out the freed address 0 again. -/
def recycled (n : Nat) : XrdConnectionMgr :=
  ⟨[none], List.replicate n (some ⟨0⟩), 0, n, 0⟩

end XrdConnMgr

/-! # The monitoring packet decoder (`XrdMon/XrdMonDecPacketDecoder.cc`)

A packet is a header followed by a body.  The body is memory the decoder reads
through a `const char*`: the model takes the byte at every offset from the
start of the body, also at offsets at or beyond the length `len` the header
announces, and records which byte ranges are read.  An exception is a value
`some e` next to the state of the decoder at the `throw`; calls on the sink are
recorded in the order they are made.  The loops take fuel, `none` means that
the fuel ran out.  Offsets are `int` in the source; they stay below `len` plus
two records, and the model does not wrap them. -/

namespace XrdMonDec

/-- The constants and the record layout the decoder takes from
`XrdMonCommon.hh` and `XrdXrootdMonData.hh`.  Neither header is among the
sources, so they are parameters: the lengths `HDRLEN` and `TRACELEN`, the
sender id `INV_SENDERID`, the packet types, the record types and the mask, the
size of `XrdXrootdMonTrace` and the offsets of its members `arg0` (64 bits),
`arg1` and `arg2` (32 bits each). -/
structure MonConst where
  HDRLEN : Nat
  TRACELEN : Nat
  INV_SENDERID : Nat
  PACKET_TYPE_TRACE : Nat
  PACKET_TYPE_DICT : Nat
  PACKET_TYPE_USER : Nat
  XROOTD_MON_WINDOW : Nat
  XROOTD_MON_RWREQUESTMASK : Nat
  XROOTD_MON_OPEN : Nat
  XROOTD_MON_CLOSE : Nat
  XROOTD_MON_DISC : Nat
  sizeofTrace : Nat
  arg0 : Nat
  arg1 : Nat
  arg2 : Nat
  deriving DecidableEq

/-- The error codes of `XrdMonErrors.hh` the decoder throws. -/
inductive ErrCode where
  | ERR_NOTATIMEWINDOW
  | ERR_INVALIDINFOTYPE
  | ERR_NEGATIVEOFFSET
  deriving DecidableEq

/-- The memory behind a `const char*`: the byte at each offset. -/
abbrev Mem := Nat → Nat

/-- The byte `static_cast<kXR_char>(*(packet+i))`. -/
def byte (m : Mem) (i : Nat) : Nat := m i % 256

/-- The value `ntohl` gives for the four bytes at offset `o`. -/
def be32 (m : Mem) (o : Nat) : Nat :=
  ((byte m o * 256 + byte m (o + 1)) * 256 + byte m (o + 2)) * 256 + byte m (o + 3)

/-- The value `ntohll` gives for the eight bytes at offset `o`. -/
def be64 (m : Mem) (o : Nat) : Nat := be32 m o * 4294967296 + be32 m (o + 4)

/-- Conversion to `kXR_int32`, two's complement. -/
def toInt32 (n : Int) : Int := (n + 2147483648) % 4294967296 - 2147483648

/-- Conversion to `kXR_int64`, two's complement. -/
def toInt64 (n : Int) : Int :=
  (n + 9223372036854775808) % 18446744073709551616 - 9223372036854775808

/-- A call the decoder makes on its sink `_sink`, with the arguments it
passes.  A `const char*` argument is the offset it points to in the packet
body; the trace handed to `add` is given by the four arguments of its
constructor. -/
inductive SinkCall where
  | setSenderId (senderId : Nat)
  | setLastSeq (seqNo : Nat)
  | addDictId (dictId : Int) (theString : Nat) (len : Int)
  | addUserId (dictId : Int) (theString : Nat) (len : Int)
  | add (dictId : Nat) (tOffset : Int) (tLen : Int) (rwReq : Char) (timestamp : Int)
  | openFile (dictId : Nat) (timestamp : Int)
  | closeFile (dictId : Nat) (realR : Int) (realW : Int) (timestamp : Int)
  | addUserDisconnect (dictId : Nat) (sec : Int) (timestamp : Int)
  deriving DecidableEq

/-- The decoder: the calls made on `_sink` so far, the members `_stopNow` and
`_upToTime`, and (not a member of the class) the ranges of the packet body read
so far, each as the offset of the first byte and the number of bytes. -/
structure XrdMonDecPacketDecoder where
  sink : List SinkCall
  stopNow : Bool
  upToTime : Int
  reads : List (Nat × Nat)
  deriving DecidableEq

/-- The call `_sink.f(...)`. -/
def XrdMonDecPacketDecoder.call (d : XrdMonDecPacketDecoder) (s : SinkCall) :
    XrdMonDecPacketDecoder :=
  { d with sink := d.sink ++ [s] }

/-- A read of `n` bytes at offset `o` of the packet body. -/
def XrdMonDecPacketDecoder.read (d : XrdMonDecPacketDecoder) (o n : Nat) :
    XrdMonDecPacketDecoder :=
  { d with reads := d.reads ++ [(o, n)] }

/-- The values the accessors of `XrdMonHeader` return. -/
structure XrdMonHeader where
  packetLen : Int
  packetType : Nat
  seqNo : Nat
  deriving DecidableEq

/-- The pair `TimePair` of two `kXR_int32`. -/
structure TimePair where
  first : Int
  second : Int
  deriving DecidableEq

/-- The function `decodeTime` (lines 171-181): the end and the begin time of
the window record at `packet`, read after the first `sizeof(kXR_int64)`
bytes. -/
def decodeTime (m : Mem) (packet : Nat) : TimePair :=
  ⟨toInt32 (be32 m (packet + 8)), toInt32 (be32 m (packet + 8 + 4))⟩

/-- The function `decodeRWRequest` (lines 183-203): the call on the sink, or
the exception.  The product `tLen *= -1` is a `kXR_int32`. -/
def decodeRWRequest (c : MonConst) (m : Mem) (packet : Nat) (timestamp : Int) :
    Except ErrCode SinkCall :=
  let tOffset := toInt64 (be64 m (packet + c.arg0))
  let tLen := toInt32 (be32 m (packet + c.arg1))
  let dictId := be32 m (packet + c.arg2)
  if tOffset < 0 then .error .ERR_NEGATIVEOFFSET
  else if tLen < 0 then .ok (.add dictId tOffset (toInt32 (tLen * -1)) 'w' timestamp)
  else .ok (.add dictId tOffset tLen 'r' timestamp)

/-- The function `decodeOpen` (lines 205-214). -/
def decodeOpen (c : MonConst) (m : Mem) (packet : Nat) (timestamp : Int) : SinkCall :=
  .openFile (be32 m (packet + c.arg2)) timestamp

/-- The function `decodeClose` (lines 216-235).  The totals are shifted as
`kXR_int64`; the shift count is taken modulo 64, as the shift instruction does
(a count of 64 or more has no defined result in the source). -/
def decodeClose (c : MonConst) (m : Mem) (packet : Nat) (timestamp : Int) : SinkCall :=
  let dictId := be32 m (packet + c.arg2)
  let tR := be32 m (packet + c.arg0 + 4)
  let tW := be32 m (packet + c.arg1)
  let rShift := byte m (packet + c.arg0 + 1)
  let wShift := byte m (packet + c.arg0 + 2)
  .closeFile dictId (toInt64 (tR * 2 ^ (rShift % 64))) (toInt64 (tW * 2 ^ (wShift % 64)))
    timestamp

/-- The function `decodeDisconnect` (lines 237-248). -/
def decodeDisconnect (c : MonConst) (m : Mem) (packet : Nat) (timestamp : Int) : SinkCall :=
  .addUserDisconnect (be32 m (packet + c.arg2)) (toInt32 (be32 m (packet + c.arg1))) timestamp

/-- The dispatch of `decodeTracePacket` on one trace record (lines 124-139):
the call on the sink, or the exception. -/
def decodeTracePacket.dispatch (c : MonConst) (m : Mem) (offset : Nat) (timestamp : Int) :
    Except ErrCode SinkCall :=
  let infoType := byte m offset
  if infoType &&& c.XROOTD_MON_RWREQUESTMASK = 0 then decodeRWRequest c m offset timestamp
  else if infoType = c.XROOTD_MON_OPEN then .ok (decodeOpen c m offset timestamp)
  else if infoType = c.XROOTD_MON_CLOSE then .ok (decodeClose c m offset timestamp)
  else if infoType = c.XROOTD_MON_DISC then .ok (decodeDisconnect c m offset timestamp)
  else .error .ERR_INVALIDINFOTYPE

/-- The bytes the dispatch reads of one trace record: its first byte, and the
whole record when one of the four decoding functions is called. -/
def decodeTracePacket.dispatchReads (c : MonConst) (m : Mem) (offset : Nat) :
    List (Nat × Nat) :=
  let infoType := byte m offset
  if infoType &&& c.XROOTD_MON_RWREQUESTMASK = 0 ∨ infoType = c.XROOTD_MON_OPEN ∨
      infoType = c.XROOTD_MON_CLOSE ∨ infoType = c.XROOTD_MON_DISC then
    [(offset, 1), (offset, c.sizeofTrace)]
  else [(offset, 1)]

/-- The value `CalcTime`.  The member `timePerTrace` is the `float` quotient of
`span` by `noElems`; the model keeps the two numbers. -/
structure CalcTime where
  span : Int
  noElems : Nat
  begTimeNextWindow : Int
  endOffset : Nat
  deriving DecidableEq

/-- The loop of `prepareTimestamp` (lines 258-265): the offset of the window
record and the number of records stepped over, or the exception.  The byte at
`x` is read before `x` is compared with `len`. -/
def prepareTimestamp.scan (c : MonConst) (m : Mem) (len : Int) :
    Nat → Nat → Nat → XrdMonDecPacketDecoder →
      Option (XrdMonDecPacketDecoder × Except ErrCode (Nat × Nat))
  | 0, _, _, _ => none
  | fuel + 1, x, noElems, d =>
    if byte m x ≠ c.XROOTD_MON_WINDOW then
      if (x : Int) ≥ len then some (d.read x 1, .error .ERR_NOTATIMEWINDOW)
      else prepareTimestamp.scan c m len fuel (x + c.TRACELEN) (noElems + 1) (d.read x 1)
    else some (d.read x 1, .ok (x, noElems))

/-- The function `prepareTimestamp` (lines 250-289): the `CalcTime` and the
value left in `begTime`, or the exception. -/
def prepareTimestamp (c : MonConst) (fuel : Nat) (d : XrdMonDecPacketDecoder) (m : Mem)
    (offset : Nat) (len : Int) (begTime : Int) :
    Option (XrdMonDecPacketDecoder × Except ErrCode (CalcTime × Int)) :=
  match prepareTimestamp.scan c m len fuel offset 0 d with
  | none => none
  | some (d1, .error e) => some (d1, .error e)
  | some (d1, .ok (x, noElems)) =>
    let t := decodeTime m x
    let begTime1 := if begTime > t.first then t.first else begTime
    some (d1.read (x + 8) 8, .ok (⟨toInt32 (t.first - begTime1), noElems, t.second, x⟩, begTime1))

/-- The inner loop of `decodeTracePacket` (lines 123-141) over the records up
to `ct.endOffset`: the offset it stops at, or the exception.  The function
`tick` is the `float` arithmetic of line 125: `tick span noElems elemNo` is
`(kXR_int32) (elemNo * timePerTrace)`. -/
def decodeTracePacket.records (c : MonConst) (tick : Int → Nat → Nat → Int) (m : Mem)
    (ct : CalcTime) (begTime : Int) :
    Nat → Nat → Nat → XrdMonDecPacketDecoder →
      Option (XrdMonDecPacketDecoder × Except ErrCode Nat)
  | 0, _, _, _ => none
  | fuel + 1, offset, elemNo, d =>
    if offset < ct.endOffset then
      let timestamp := toInt32 (begTime + tick ct.span ct.noElems elemNo)
      let d1 : XrdMonDecPacketDecoder :=
        { d with reads := d.reads ++ decodeTracePacket.dispatchReads c m offset }
      match decodeTracePacket.dispatch c m offset timestamp with
      | .error e => some (d1, .error e)
      | .ok s =>
        decodeTracePacket.records c tick m ct begTime fuel (offset + c.TRACELEN) (elemNo + 1)
          (d1.call s)
    else some (d, .ok offset)

/-- The outer loop of `decodeTracePacket` (lines 119-144). -/
def decodeTracePacket.windows (c : MonConst) (tick : Int → Nat → Nat → Int) (m : Mem)
    (len : Int) :
    Nat → Nat → Int → XrdMonDecPacketDecoder → Option (XrdMonDecPacketDecoder × Option ErrCode)
  | 0, _, _, _ => none
  | fuel + 1, offset, begTime, d =>
    if (offset : Int) < len then
      match prepareTimestamp c fuel d m offset len begTime with
      | none => none
      | some (d1, .error e) => some (d1, some e)
      | some (d1, .ok (ct, begTime1)) =>
        match decodeTracePacket.records c tick m ct begTime1 fuel offset 0 d1 with
        | none => none
        | some (d2, .error e) => some (d2, some e)
        | some (d2, .ok offset2) =>
          decodeTracePacket.windows c tick m len fuel (offset2 + c.TRACELEN)
            ct.begTimeNextWindow d2
    else some (d, none)

/-- The function `decodeTracePacket` (lines 100-145) on the body `m` of length
`len`: the decoder afterwards and the exception thrown, if any. -/
def decodeTracePacket (c : MonConst) (tick : Int → Nat → Nat → Int) (fuel : Nat)
    (d : XrdMonDecPacketDecoder) (m : Mem) (len : Int) :
    Option (XrdMonDecPacketDecoder × Option ErrCode) :=
  if byte m 0 ≠ c.XROOTD_MON_WINDOW then some (d.read 0 1, some .ERR_NOTATIMEWINDOW)
  else
    let t := decodeTime m 0
    let d1 := (d.read 0 1).read 8 8
    if d.upToTime ≠ 0 ∧ d.upToTime ≤ t.first then some ({ d1 with stopNow := true }, none)
    else decodeTracePacket.windows c tick m len fuel c.TRACELEN t.second d1

/-- The function `decodeDictPacket` (lines 147-156).  The id is a `dictid_t`
(`kXR_int32`); the difference `len-sizeof(kXR_int32)` is computed in `size_t`
(64 bits).  The declaration of the sink is not among the sources: its length
parameter is taken to be an `int`, as `len` is. -/
def decodeDictPacket (d : XrdMonDecPacketDecoder) (m : Mem) (len : Int) :
    XrdMonDecPacketDecoder :=
  (d.read 0 4).call (.addDictId (toInt32 (be32 m 0)) 4
    (toInt32 ((len - 4) % 18446744073709551616)))

/-- The function `decodeUserPacket` (lines 158-167). -/
def decodeUserPacket (d : XrdMonDecPacketDecoder) (m : Mem) (len : Int) :
    XrdMonDecPacketDecoder :=
  (d.read 0 4).call (.addUserId (toInt32 (be32 m 0)) 4
    (toInt32 ((len - 4) % 18446744073709551616)))

/-- The function `operator()` (lines 55-91) on a header and the memory
`packet` the packet is in: the decoder afterwards and the exception thrown, if
any.  Reads are recorded by their offset in the body, `packet+HDRLEN`. -/
def operatorCall (c : MonConst) (tick : Int → Nat → Nat → Int) (fuel : Nat)
    (d : XrdMonDecPacketDecoder) (header : XrdMonHeader) (packet : Mem) (senderId : Nat) :
    Option (XrdMonDecPacketDecoder × Option ErrCode) :=
  let d1 := if senderId ≠ c.INV_SENDERID then d.call (.setSenderId senderId) else d
  let len := toInt32 (header.packetLen - c.HDRLEN)
  let body : Mem := fun i => packet (c.HDRLEN + i)
  if len < 1 then some (d1, none)
  else if header.packetType = c.PACKET_TYPE_TRACE then
    match decodeTracePacket c tick fuel d1 body len with
    | none => none
    | some (d2, some e) => some (d2, some e)
    | some (d2, none) => some (d2.call (.setLastSeq header.seqNo), none)
  else if header.packetType = c.PACKET_TYPE_DICT then
    some ((decodeDictPacket d1 body len).call (.setLastSeq header.seqNo), none)
  else if header.packetType = c.PACKET_TYPE_USER then
    some ((decodeUserPacket d1 body len).call (.setLastSeq header.seqNo), none)
  else some (d1.call (.setLastSeq header.seqNo), none)

/-! ## Derived notions used in the statements -/

/-- The offsets of `n` consecutive records from offset `o` on. -/
def recordOffsets (T o n : Nat) : List Nat := (List.range n).map (fun i => o + i * T)

/-- The trace records of one group, `n` records from offset `o` on, each with
the timestamp line 125 computes for it: record `j` of the group is element
`elemNo + j` of a window that begins at `begTime` and whose `timePerTrace` is
the quotient of `span` by `noElems`. -/
def recordPlan (tick : Int → Nat → Nat → Int) (T o : Nat) (begTime span : Int)
    (noElems elemNo n : Nat) : List (Nat × Int) :=
  (List.range n).map
    (fun j => (o + j * T, toInt32 (begTime + tick span noElems (elemNo + j))))

/-- The trace records of a body that holds, from offset `o` on, groups of
`groups[0]`, `groups[1]`, ... trace records, each group followed by one window
record, in the order of their offsets and each with its timestamp.  A window
begins at `begTime`, the begin time the window record before the group
announces, or at the end time of the window record after the group when that
is earlier; it spans the time from there to that end time. -/
def tracePlan (c : MonConst) (tick : Int → Nat → Nat → Int) (m : Mem) :
    Nat → Int → List Nat → List (Nat × Int)
  | _, _, [] => []
  | o, begTime, n :: gs =>
    let t := decodeTime m (o + n * c.TRACELEN)
    let begTime1 := if begTime > t.first then t.first else begTime
    recordPlan tick c.TRACELEN o begTime1 (toInt32 (t.first - begTime1)) n 0 n ++
      tracePlan c tick m (o + (n + 1) * c.TRACELEN) t.second gs

/-- The offset at which such a body ends. -/
def bodyEnd (T : Nat) : Nat → List Nat → Nat
  | o, [] => o
  | o, n :: gs => bodyEnd T (o + (n + 1) * T) gs

/-- The body `m` holds, from offset `o` on, groups of `groups[0]`,
`groups[1]`, ... records whose first byte is not `XROOTD_MON_WINDOW`, each
group followed by a record whose first byte is. -/
def grouped (c : MonConst) (m : Mem) : Nat → List Nat → Bool
  | _, [] => true
  | o, n :: gs =>
    (recordOffsets c.TRACELEN o n).all (fun x => decide (byte m x ≠ c.XROOTD_MON_WINDOW)) &&
      decide (byte m (o + n * c.TRACELEN) = c.XROOTD_MON_WINDOW) &&
      grouped c m (o + (n + 1) * c.TRACELEN) gs

/-- The records of `plan`, each given by its offset and its timestamp, are
dispatched one after the other, each once, until one raises: `calls` are the
calls made on the sink, in order, and `e` is the exception of the record that
stopped the decoding, if any. -/
inductive Passed (c : MonConst) (m : Mem) :
    List (Nat × Int) → List SinkCall → Option ErrCode → Prop where
  | done : Passed c m [] [] none
  | next {o : Nat} {timestamp : Int} {plan : List (Nat × Int)} {s : SinkCall}
      {calls : List SinkCall} {e : Option ErrCode} :
      decodeTracePacket.dispatch c m o timestamp = .ok s → Passed c m plan calls e →
      Passed c m ((o, timestamp) :: plan) (s :: calls) e
  | raised {o : Nat} {timestamp : Int} {plan : List (Nat × Int)} {e : ErrCode} :
      decodeTracePacket.dispatch c m o timestamp = .error e →
      Passed c m ((o, timestamp) :: plan) [] (some e)

/-! ## Concrete inputs -/

/-- A choice of the constants: the values of the xrootd distribution. -/
def xrootd : MonConst :=
  { HDRLEN := 8, TRACELEN := 16, INV_SENDERID := 65500,
    PACKET_TYPE_TRACE := 116, PACKET_TYPE_DICT := 100, PACKET_TYPE_USER := 117,
    XROOTD_MON_WINDOW := 224, XROOTD_MON_RWREQUESTMASK := 128, XROOTD_MON_OPEN := 128,
    XROOTD_MON_CLOSE := 192, XROOTD_MON_DISC := 208,
    sizeofTrace := 16, arg0 := 0, arg1 := 8, arg2 := 12 }

/-- The memory that holds the bytes `l` from offset 0 on, and zeros after
them. -/
def bytesOf (l : List Nat) : Mem := fun i => l.getD i 0

/-- A decoder that has made no call, with up-to-time `upTo`. -/
def fresh (upTo : Int) : XrdMonDecPacketDecoder := ⟨[], false, upTo, []⟩

/-- Timestamps that do not advance inside a window. -/
def still : Int → Nat → Nat → Int := fun _ _ _ => 0

/-- The arithmetic of line 125 where it is exact in `float`: the product of
`elemNo` and the quotient of `span` by `noElems`, as for a span of 100 over
two records, whose quotient is 50. -/
def evenly : Int → Nat → Nat → Int :=
  fun span noElems elemNo => (elemNo : Int) * (span / (noElems : Int))

/-- A window record with end time 200 and begin time 100. -/
def windowRecord : List Nat := [224, 0, 0, 0, 0, 0, 0, 0, 0, 0, 0, 200, 0, 0, 0, 100]

/-- A read record: offset 5, length 9, dictionary id 7. -/
def readRecord : List Nat := [0, 0, 0, 0, 0, 0, 0, 5, 0, 0, 0, 9, 0, 0, 0, 7]

/-- An open record with dictionary id 7. -/
def openRecord : List Nat := [128, 0, 0, 0, 0, 0, 0, 0, 0, 0, 0, 0, 0, 0, 0, 7]

/-- A request record with offset 5, the length bytes `80 00 00 00` and
dictionary id 7. -/
def overflowRecord : List Nat := [0, 0, 0, 0, 0, 0, 0, 5, 128, 0, 0, 0, 0, 0, 0, 7]

end XrdMonDec

namespace XrdConnMgr

/-! ## The loop with a 16-bit counter -/

/-- A loop that never executes `break` and whose size stays `n < 65536`
finishes: from counter `i` it needs `n - i` iterations, and an invariant that
every iteration carries one index further holds at `n` in the end. -/
theorem forUShort_total {σ : Type} (size : σ → Nat) (body : Nat → σ → Option (σ × Bool))
    (n : Nat) (hn : n < 65536) (Inv : Nat → σ → Prop)
    (hsize : ∀ i s, Inv i s → size s = n)
    (hstep : ∀ i s, i < n → Inv i s → ∃ s', body i s = some (s', false) ∧ Inv (i + 1) s') :
    ∀ k i s, i + k = n → Inv i s →
      ∃ s', Inv n s' ∧ ∀ fuel, k < fuel → forUShort size body fuel i s = some s' := by
  intro k
  induction k with
  | zero =>
    intro i s hik hI
    have hin : i = n := by omega
    subst hin
    refine ⟨s, hI, ?_⟩
    intro fuel hf
    obtain ⟨f, rfl⟩ : ∃ f, fuel = f + 1 := ⟨fuel - 1, by omega⟩
    simp [forUShort, hsize i s hI]
  | succ k ih =>
    intro i s hik hI
    have hin : i < n := by omega
    obtain ⟨s1, hb, hI1⟩ := hstep i s hin hI
    obtain ⟨s', hI', hrun⟩ := ih (i + 1) s1 (by omega) hI1
    refine ⟨s', hI', ?_⟩
    intro fuel hf
    obtain ⟨f, rfl⟩ : ∃ f, fuel = f + 1 := ⟨fuel - 1, by omega⟩
    have hmod : (i + 1) % 65536 = i + 1 := Nat.mod_eq_of_lt (by omega)
    simp [forUShort, hsize i s hI, hin, hb, hmod, hrun f (by omega)]

/-- A loop that never executes `break` and whose size stays at `65536` or more
never finishes: the counter wraps around before it reaches the size. -/
theorem forUShort_diverges {σ : Type} {size : σ → Nat}
    {body : Nat → σ → Option (σ × Bool)} (J : σ → Prop)
    (hsize : ∀ s, J s → 65536 ≤ size s)
    (hJ : ∀ i s s' b, J s → body i s = some (s', b) → b = false ∧ J s') :
    ∀ fuel i s, i < 65536 → J s → forUShort size body fuel i s = none := by
  intro fuel
  induction fuel with
  | zero => intro i s _ _; rfl
  | succ f ih =>
    intro i s hi hs
    have hlt : i < size s := lt_of_lt_of_le hi (hsize s hs)
    rw [forUShort, if_pos hlt]
    cases hb : body i s with
    | none => rfl
    | some r =>
      obtain ⟨s1, b⟩ := r
      obtain ⟨hbf, hJ1⟩ := hJ i s s1 b hs hb
      subst hbf
      exact ih _ s1 (Nat.mod_lt _ (by norm_num)) hJ1

/-- When a loop that never executes `break` and whose size stays `n` has
finished, `n` is below `65536` and an invariant carried from index to index
holds at `n`. -/
theorem forUShort_result {σ : Type} (size : σ → Nat) (body : Nat → σ → Option (σ × Bool))
    (n : Nat) (J : σ → Prop) (Inv : Nat → σ → Prop)
    (hsize : ∀ s, J s → size s = n)
    (hJ : ∀ i s s' b, J s → body i s = some (s', b) → b = false ∧ J s')
    (hstep : ∀ i s s', i < n → J s → Inv i s → body i s = some (s', false) → Inv (i + 1) s') :
    ∀ fuel i s s', i ≤ n → i < 65536 → J s → Inv i s →
      forUShort size body fuel i s = some s' → n < 65536 ∧ J s' ∧ Inv n s' := by
  by_cases hn : n < 65536
  · intro fuel
    induction fuel with
    | zero => intro i s s' _ _ _ _ h; simp [forUShort] at h
    | succ f ih =>
      intro i s s' hi _ hs hI h
      rw [forUShort, hsize s hs] at h
      by_cases hin : i < n
      · rw [if_pos hin] at h
        cases hb : body i s with
        | none => simp [hb] at h
        | some r =>
          obtain ⟨s1, b⟩ := r
          obtain ⟨hbf, hJ1⟩ := hJ i s s1 b hs hb
          subst hbf
          have hmod : (i + 1) % 65536 = i + 1 := Nat.mod_eq_of_lt (by omega)
          simp only [hb, hmod] at h
          exact ih (i + 1) s1 s' (by omega) (by omega) hJ1 (hstep i s s1 hin hs hI hb) h
      · rw [if_neg hin] at h
        have : i = n := by omega
        subst this
        cases h
        exact ⟨hn, hs, hI⟩
  · intro fuel i s s' _ hi2 hs _ h
    rw [forUShort_diverges J (fun s hs => by rw [hsize s hs]; omega) hJ fuel i s hi2 hs] at h
    cases h

/-! ## Lists of slots -/

theorem slot_eq_getElem {α : Type} (v : List (Option α)) (i : Nat) (h : i < v.length) :
    slot v i = v[i] := by
  simp [slot, List.getD, List.getElem?_eq_getElem h]

theorem slot_eq_join {α : Type} (v : List (Option α)) (i : Nat) :
    slot v i = (v[i]?).join := by
  unfold slot
  rw [List.getD_eq_getElem?_getD]
  cases v[i]? <;> rfl

theorem countP_take_succ {α : Type} (p : Option α → Bool) (v : List (Option α)) (i : Nat)
    (h : i < v.length) :
    (v.take (i + 1)).countP p = (v.take i).countP p + if p (slot v i) then 1 else 0 := by
  rw [List.take_succ, List.countP_append, List.getElem?_eq_getElem h, slot_eq_getElem v i h]
  by_cases hp : p v[i] <;> simp [hp]

/-! ## GetPhyConnectionRefCount -/

/-- With fewer than `65536` logical slots the count finishes and is the number
of bound slots, converted to `short int`. -/
theorem refCount_total (st : XrdConnectionMgr) (P : Nat) (h : st.fLogVec.length < 65536)
    (fuel : Nat) (hf : st.fLogVec.length < fuel) :
    GetPhyConnectionRefCount fuel st P = some (toShort (boundCount st.fLogVec P)) := by
  obtain ⟨c, hc, hrun⟩ := forUShort_total (fun _ => st.fLogVec.length)
    (fun i (cnt : Int) =>
      some (if boundTo P (slot st.fLogVec i) then cnt + 1 else cnt, false))
    st.fLogVec.length h
    (fun i cnt => cnt = (((st.fLogVec.take i).countP (boundTo P) : Nat) : Int))
    (fun _ _ _ => rfl)
    (fun i cnt hi hI => by
      refine ⟨_, rfl, ?_⟩
      simp only at hI ⊢
      rw [countP_take_succ _ _ _ hi, hI]
      by_cases hb : boundTo P (slot st.fLogVec i) <;> simp [hb])
    st.fLogVec.length 0 0 (by simp) (by simp)
  unfold GetPhyConnectionRefCount
  rw [hrun fuel hf, hc]
  simp [boundCount]

/-- With `65536` logical slots or more the count never finishes. -/
theorem refCount_diverges (st : XrdConnectionMgr) (P : Nat) (h : 65536 ≤ st.fLogVec.length)
    (fuel : Nat) : GetPhyConnectionRefCount fuel st P = none := by
  unfold GetPhyConnectionRefCount
  rw [forUShort_diverges (fun _ => True) (fun _ _ => h)
    (fun i s s' b _ hb => by simp at hb; exact ⟨hb.2, trivial⟩) fuel 0 0 (by norm_num)
    trivial]
  rfl

/-- A count that has finished ran over fewer than `65536` slots and is the
number of bound slots, converted to `short int`. -/
theorem refCount_result (st : XrdConnectionMgr) (P : Nat) (fuel : Nat) (r : Int)
    (h : GetPhyConnectionRefCount fuel st P = some r) :
    st.fLogVec.length < 65536 ∧ r = toShort (boundCount st.fLogVec P) := by
  by_cases hl : st.fLogVec.length < 65536
  · refine ⟨hl, ?_⟩
    by_cases hf : st.fLogVec.length < fuel
    · rw [refCount_total st P hl fuel hf] at h
      exact (Option.some.inj h).symm
    · -- too little fuel: the loop has not finished
      exfalso
      unfold GetPhyConnectionRefCount at h
      have key : ∀ f i (c : Int), i + f ≤ st.fLogVec.length →
          forUShort (fun _ => st.fLogVec.length)
            (fun i (cnt : Int) =>
              some (if boundTo P (slot st.fLogVec i) then cnt + 1 else cnt, false))
            f i c = none := by
        intro f
        induction f with
        | zero => intro i c _; rfl
        | succ f ih =>
          intro i c hi
          have hmod : (i + 1) % 65536 = i + 1 := Nat.mod_eq_of_lt (by omega)
          rw [forUShort, if_pos (by omega)]
          simp only [hmod]
          exact ih (i + 1) _ (by omega)
      rw [key fuel 0 0 (by omega)] at h
      simp at h
  · rw [refCount_diverges st P (by omega) fuel] at h
    cases h

/-! ## GarbageCollect -/

theorem gc_body_some (fuel : Nat) (now : Int) (i : Nat) (s : XrdConnectionMgr)
    (r : XrdConnectionMgr × Bool) (h : GarbageCollect.body fuel now i s = some r) :
    r = (sweepStep now i s, false) := by
  unfold GarbageCollect.body at h
  unfold sweepStep
  cases hs : slot s.fPhyVec i with
  | none => simp [hs] at h; simp [purgeable, ← h]
  | some p =>
    simp only [hs] at h
    cases hr : GetPhyConnectionRefCount fuel s p.addr with
    | none => simp [hr] at h
    | some rc =>
      simp only [hr] at h
      obtain ⟨_, hrc⟩ := refCount_result s p.addr fuel rc hr
      rw [hrc] at h
      by_cases hc : toShort (boundCount s.fLogVec p.addr) ≤ 0 ∧ p.ExpiredTTL now = true
      · rw [if_pos hc] at h
        simp only [purgeable, hc.1, hc.2, decide_True, Bool.and_self, if_true]
        exact (Option.some.inj h).symm
      · rw [if_neg hc] at h
        have : ¬ ((decide (toShort (boundCount s.fLogVec p.addr) ≤ 0) &&
            p.ExpiredTTL now) = true) := by
          simpa using hc
        simp only [purgeable, this, ← Option.some.inj h]
        simp

theorem gc_body_total (fuel : Nat) (now : Int) (i : Nat) (s : XrdConnectionMgr)
    (hl : s.fLogVec.length < 65536) (hf : s.fLogVec.length < fuel) :
    GarbageCollect.body fuel now i s = some (sweepStep now i s, false) := by
  cases hb : GarbageCollect.body fuel now i s with
  | some r => rw [gc_body_some fuel now i s r hb]
  | none =>
    exfalso
    unfold GarbageCollect.body at hb
    cases hs : slot s.fPhyVec i with
    | none => simp [hs] at hb
    | some p =>
      simp only [hs, refCount_total s p.addr hl fuel hf] at hb
      split at hb <;> cases hb

theorem sweepInv_step (now : Int) (st : XrdConnectionMgr) (i : Nat) (s : XrdConnectionMgr)
    (hi : i < st.fPhyVec.length) (h : sweepInv now st i s) :
    sweepInv now st (i + 1) (sweepStep now i s) := by
  obtain ⟨h1, h2, h3, h4, h5, h6⟩ := h
  have hslot : slot s.fPhyVec i = slot st.fPhyVec i := by
    rw [slot_eq_join, slot_eq_join, h6 i]; simp
  have hcnt := countP_take_succ (purgeable st.fLogVec now) st.fPhyVec i hi
  have hcond : purgeable s.fLogVec now (slot s.fPhyVec i) =
      purgeable st.fLogVec now (slot st.fPhyVec i) := by rw [h1, hslot]
  unfold sweepStep
  rw [hcond]
  by_cases hp : purgeable st.fLogVec now (slot st.fPhyVec i) = true
  · rw [if_pos hp]
    refine ⟨h1, h2, h3, ?_, ?_, ?_⟩
    · simp only [hcnt, hp, if_true, h4]; omega
    · simp [h5]
    · intro j
      simp only [List.getElem?_set, h5, h6 j]
      by_cases hji : i = j
      · subst hji
        rw [slot_eq_getElem _ _ hi] at hp
        simp [hi, List.getElem?_eq_getElem hi, sweepSlot, hp]
      · by_cases hlt : j < i
        · simp [hji, hlt, Nat.lt_succ_of_lt hlt]
        · have : ¬ j < i + 1 := by omega
          simp [hji, hlt, this]
  · rw [if_neg hp]
    refine ⟨h1, h2, h3, ?_, h5, ?_⟩
    · simp only [hcnt, hp, h4]; simp
    · intro j
      rw [h6 j]
      by_cases hji : i = j
      · subst hji
        rw [slot_eq_getElem _ _ hi] at hp
        simp [List.getElem?_eq_getElem hi, sweepSlot, hp]
      · by_cases hlt : j < i
        · simp [hlt, Nat.lt_succ_of_lt hlt]
        · have : ¬ j < i + 1 := by omega
          simp [hlt, this]

theorem sweepInv_zero (now : Int) (st : XrdConnectionMgr) : sweepInv now st 0 st := by
  simp [sweepInv]

theorem sweepInv_final (now : Int) (st s : XrdConnectionMgr)
    (h : sweepInv now st st.fPhyVec.length s) : s = sweep now st := by
  obtain ⟨h1, h2, h3, h4, h5, h6⟩ := h
  obtain ⟨pv, lv, na, hl, hp⟩ := s
  simp only at h1 h2 h3 h4 h5 h6
  simp only [sweep, List.take_length] at h4 ⊢
  have hpv : pv = st.fPhyVec.map (sweepSlot st.fLogVec now) := by
    apply List.ext_getElem?
    intro j
    rw [h6 j, List.getElem?_map]
    by_cases hj : j < st.fPhyVec.length
    · simp [hj]
    · simp [hj, List.getElem?_eq_none (Nat.le_of_not_lt hj)]
  rw [hpv, h1, h2, h3, h4]

/-- With fewer than `65536` slots in both vectors the sweep finishes, in the
state `sweep now st`. -/
theorem GarbageCollect_total (now : Int) (st : XrdConnectionMgr)
    (hp : st.fPhyVec.length < 65536) (hl : st.fLogVec.length < 65536) (fuel : Nat)
    (hfp : st.fPhyVec.length < fuel) (hfl : st.fLogVec.length < fuel) :
    GarbageCollect fuel now st = some (sweep now st) := by
  obtain ⟨s', hI, hrun⟩ := forUShort_total (fun s => s.fPhyVec.length)
    (GarbageCollect.body fuel now) st.fPhyVec.length hp (sweepInv now st)
    (fun i s hI => hI.2.2.2.2.1)
    (fun i s hi hI => ⟨sweepStep now i s,
      gc_body_total fuel now i s (by rw [hI.1]; exact hl) (by rw [hI.1]; exact hfl),
      sweepInv_step now st i s hi hI⟩)
    st.fPhyVec.length 0 st (by simp) (sweepInv_zero now st)
  unfold GarbageCollect
  rw [hrun fuel hfp, sweepInv_final now st s' hI]

/-- A sweep that has finished ran over fewer than `65536` physical slots and
ended in the state `sweep now st`. -/
theorem GarbageCollect_result (fuel : Nat) (now : Int) (st st' : XrdConnectionMgr)
    (h : GarbageCollect fuel now st = some st') :
    st.fPhyVec.length < 65536 ∧ st' = sweep now st := by
  unfold GarbageCollect at h
  obtain ⟨hn, _, hI⟩ := forUShort_result (fun s => s.fPhyVec.length)
    (GarbageCollect.body fuel now) st.fPhyVec.length
    (fun s => s.fPhyVec.length = st.fPhyVec.length) (sweepInv now st)
    (fun s hs => hs)
    (fun i s s' b hs hb => by
      have := gc_body_some fuel now i s _ hb
      simp only [Prod.mk.injEq] at this
      refine ⟨this.2, ?_⟩
      rw [this.1]
      unfold sweepStep
      split <;> simp [hs])
    (fun i s s' hi _ hI hb => by
      have := gc_body_some fuel now i s _ hb
      simp only [Prod.mk.injEq, and_true] at this
      rw [this]
      exact sweepInv_step now st i s hi hI)
    fuel 0 st st' (Nat.zero_le _) (by norm_num) rfl (sweepInv_zero now st) h
  exact ⟨hn, sweepInv_final now st st' hI⟩

/-! ## Connect -/

theorem lookupBody_skip (A : XrdUrlInfo) (now : Int) (i : Nat)
    (s : XrdConnectionMgr × Option Nat) (h : reusable A (slot s.1.fPhyVec i) = false) :
    Connect.lookupBody A now i s = some (s, false) := by
  unfold Connect.lookupBody
  cases hs : slot s.1.fPhyVec i with
  | none => rfl
  | some p => rw [hs] at h; simp [h]

theorem lookupBody_hit (A : XrdUrlInfo) (now : Int) (i : Nat)
    (s : XrdConnectionMgr × Option Nat) (p : XrdPhyConnection)
    (hs : slot s.1.fPhyVec i = some p) (h : reusable A (some p) = true) :
    Connect.lookupBody A now i s =
      some (({ s.1 with fPhyVec := s.1.fPhyVec.set i (some (p.Touch now)) }, some p.addr),
        true) := by
  unfold Connect.lookupBody
  simp [hs, h]

/-- A lookup that has finished either found no reusable slot at all, or
stopped at the first reusable slot, touched it and bound `logconn` to it. -/
theorem lookup_result (A : XrdUrlInfo) (now : Int) (st : XrdConnectionMgr) :
    ∀ fuel k (r : XrdConnectionMgr × Option Nat), k < 65536 →
      (∀ j, j < k → j < st.fPhyVec.length → reusable A (slot st.fPhyVec j) = false) →
      forUShort (fun s => s.1.fPhyVec.length) (Connect.lookupBody A now) fuel k (st, none)
        = some r →
      (r = (st, none) ∧ ∀ j, j < st.fPhyVec.length → reusable A (slot st.fPhyVec j) = false) ∨
      (∃ i p, i < 65536 ∧ i < st.fPhyVec.length ∧ slot st.fPhyVec i = some p ∧
        reusable A (some p) = true ∧ (∀ j, j < i → reusable A (slot st.fPhyVec j) = false) ∧
        r = ({ st with fPhyVec := st.fPhyVec.set i (some (p.Touch now)) }, some p.addr)) := by
  intro fuel
  induction fuel with
  | zero => intro k r _ _ h; simp [forUShort] at h
  | succ f ih =>
    intro k r hk hbelow h
    rw [forUShort] at h
    by_cases hlt : k < st.fPhyVec.length
    · simp only [hlt, if_true] at h
      by_cases hr : reusable A (slot st.fPhyVec k) = true
      · cases hs : slot st.fPhyVec k with
        | none => rw [hs] at hr; simp [reusable] at hr
        | some p =>
          rw [hs] at hr
          rw [lookupBody_hit A now k (st, none) p hs hr] at h
          simp only [Option.some.injEq] at h
          refine Or.inr ⟨k, p, hk, hlt, hs, hr, ?_, h.symm⟩
          intro j hj
          by_cases hjl : j < st.fPhyVec.length
          · exact hbelow j hj hjl
          · omega
      · have hr' : reusable A (slot st.fPhyVec k) = false := by simpa using hr
        rw [lookupBody_skip A now k (st, none) hr'] at h
        simp only at h
        by_cases hw : k + 1 < 65536
        · rw [Nat.mod_eq_of_lt hw] at h
          refine ih (k + 1) r hw ?_ h
          intro j hj hjl
          by_cases hjk : j = k
          · subst hjk; exact hr'
          · exact hbelow j (by omega) hjl
        · have hz : (k + 1) % 65536 = 0 := by
            have : k + 1 = 65536 := by omega
            rw [this]
          rw [hz] at h
          exact ih 0 r (by norm_num) (fun j hj _ => absurd hj (Nat.not_lt_zero j)) h
    · simp only [hlt, if_false, Option.some.injEq] at h
      exact Or.inl ⟨h.symm, fun j hj => hbelow j (by omega) hj⟩

/-- With fewer than `65536` physical slots, none of them reusable, the lookup
finishes without a binding. -/
theorem lookup_total_none (A : XrdUrlInfo) (now : Int) (st : XrdConnectionMgr)
    (hn : st.fPhyVec.length < 65536)
    (hno : ∀ j, j < st.fPhyVec.length → reusable A (slot st.fPhyVec j) = false)
    (fuel : Nat) (hf : st.fPhyVec.length < fuel) :
    Connect.lookup fuel A now st = some (st, none) := by
  obtain ⟨s', hI, hrun⟩ := forUShort_total (fun s => s.1.fPhyVec.length)
    (Connect.lookupBody A now) st.fPhyVec.length hn
    (fun _ s => s = (st, none))
    (fun i s hI => by simp only at hI; rw [hI])
    (fun i s hi hI => by
      simp only at hI
      subst hI
      exact ⟨(st, none), lookupBody_skip A now i (st, none) (hno i hi), rfl⟩)
    st.fPhyVec.length 0 (st, none) (by simp) rfl
  unfold Connect.lookup
  rw [hrun fuel hf, hI]

/-- When slot `i` is the first reusable one, the lookup finishes there. -/
theorem lookup_total_found (A : XrdUrlInfo) (now : Int) (st : XrdConnectionMgr)
    (i : Nat) (p : XrdPhyConnection) (hi : i < 65536) (hlen : i < st.fPhyVec.length)
    (hs : slot st.fPhyVec i = some p) (hr : reusable A (some p) = true)
    (hno : ∀ j, j < i → reusable A (slot st.fPhyVec j) = false)
    (fuel : Nat) (hf : i < fuel) :
    Connect.lookup fuel A now st =
      some ({ st with fPhyVec := st.fPhyVec.set i (some (p.Touch now)) }, some p.addr) := by
  have key : ∀ d k fuel, k + d = i → d < fuel →
      forUShort (fun s => s.1.fPhyVec.length) (Connect.lookupBody A now) fuel k (st, none) =
        some ({ st with fPhyVec := st.fPhyVec.set i (some (p.Touch now)) }, some p.addr) := by
    intro d
    induction d with
    | zero =>
      intro k fuel hk hfu
      have : k = i := by omega
      subst this
      obtain ⟨f, rfl⟩ : ∃ f, fuel = f + 1 := ⟨fuel - 1, by omega⟩
      rw [forUShort]
      simp only [hlen, if_true]
      rw [lookupBody_hit A now k (st, none) p hs hr]
    | succ d ih =>
      intro k fuel hk hfu
      obtain ⟨f, rfl⟩ : ∃ f, fuel = f + 1 := ⟨fuel - 1, by omega⟩
      have hkl : k < st.fPhyVec.length := by omega
      rw [forUShort]
      simp only [hkl, if_true]
      rw [lookupBody_skip A now k (st, none) (hno k (by omega))]
      simp only
      rw [Nat.mod_eq_of_lt (by omega)]
      exact ih (k + 1) f (by omega) (by omega)
  exact key i 0 fuel (by simp) hf

/-- The debug log finishes when both vectors have fewer than `65536` slots. -/
theorem debugLog_total (st : XrdConnectionMgr) (hp : st.fPhyVec.length < 65536)
    (hl : st.fLogVec.length < 65536) (fuel : Nat) (hfp : st.fPhyVec.length < fuel)
    (hfl : st.fLogVec.length < fuel) : Connect.debugLog fuel st = some () := by
  obtain ⟨c1, _, h1⟩ := forUShort_total (fun _ => st.fPhyVec.length)
    (fun i (c : Int) => some (if (slot st.fPhyVec i).isSome then c + 1 else c, false))
    st.fPhyVec.length hp (fun _ _ => True) (fun _ _ _ => rfl)
    (fun i c _ _ => ⟨_, rfl, trivial⟩) st.fPhyVec.length 0 0 (by simp) trivial
  obtain ⟨c2, _, h2⟩ := forUShort_total (fun _ => st.fLogVec.length)
    (fun i (c : Int) => some (if (slot st.fLogVec i).isSome then c + 1 else c, false))
    st.fLogVec.length hl (fun _ _ => True) (fun _ _ _ => rfl)
    (fun i c _ _ => ⟨_, rfl, trivial⟩) st.fLogVec.length 0 0 (by simp) trivial
  unfold Connect.debugLog
  rw [h1 fuel hfp, h2 fuel hfl]

theorem toShort_length_succ (n : Nat) : toShort (((n + 1 : Nat) : Int) - 1) = toShort n := by
  congr 1
  push_cast
  ring

theorem push_result (fuel : Nat) (st : XrdConnectionMgr) (a : Nat) (dbg : Bool)
    (r : Int × XrdConnectionMgr) (h : Connect.push fuel st a dbg = some r) :
    r = (toShort st.fLogVec.length, { st with fLogVec := st.fLogVec ++ [some ⟨a⟩] }) := by
  unfold Connect.push at h
  simp only [List.length_append, List.length_singleton, toShort_length_succ] at h
  split at h
  · split at h
    · cases h
    · exact (Option.some.inj h).symm
  · exact (Option.some.inj h).symm

theorem push_total (fuel : Nat) (st : XrdConnectionMgr) (a : Nat) (dbg : Bool)
    (hd : dbg = true → st.fPhyVec.length < 65536 ∧ st.fLogVec.length + 1 < 65536 ∧
      st.fPhyVec.length < fuel ∧ st.fLogVec.length + 1 < fuel) :
    Connect.push fuel st a dbg =
      some (toShort st.fLogVec.length, { st with fLogVec := st.fLogVec ++ [some ⟨a⟩] }) := by
  unfold Connect.push
  simp only [List.length_append, List.length_singleton, toShort_length_succ]
  cases dbg with
  | false => simp
  | true =>
    obtain ⟨h1, h2, h3, h4⟩ := hd rfl
    rw [debugLog_total _ (by simpa using h1) (by simpa using h2) fuel (by simpa using h3)
      (by simpa using h4)]
    simp

/-- A `Connect` that has returned took one of its three paths: it reused the
first reusable physical connection, it created one, or the network connect
failed and it returned `-1`. -/
theorem connect_result (fuel : Nat) (st : XrdConnectionMgr) (A : XrdUrlInfo)
    (env : ConnectEnv) (id : Int) (st' : XrdConnectionMgr)
    (h : Connect fuel st A env = some (id, st')) :
    (∃ i p, i < st.fPhyVec.length ∧ slot st.fPhyVec i = some p ∧ reusable A (some p) = true ∧
      (∀ j, j < i → reusable A (slot st.fPhyVec j) = false) ∧
      id = toShort st.fLogVec.length ∧ st' = afterReuse st i p env.now) ∨
    ((∀ j, j < st.fPhyVec.length → reusable A (slot st.fPhyVec j) = false) ∧
      env.netOk = true ∧ id = toShort st.fLogVec.length ∧ st' = afterNew st A env) ∨
    ((∀ j, j < st.fPhyVec.length → reusable A (slot st.fPhyVec j) = false) ∧
      env.netOk = false ∧ id = -1 ∧ st' = afterFail st) := by
  unfold Connect at h
  simp only at h
  cases hl : Connect.lookup fuel A env.now { st with heapLog := st.heapLog + 1 } with
  | none => rw [hl] at h; cases h
  | some r =>
    rw [hl] at h
    unfold Connect.lookup at hl
    rcases lookup_result A env.now _ fuel 0 r (by norm_num)
      (fun j hj _ => absurd hj (Nat.not_lt_zero j)) hl with ⟨hr, hno⟩ | ⟨i, p, _, hi, hs, hre, hno, hr⟩
    · subst hr
      simp only at h hno
      by_cases hnet : env.netOk = true
      · simp only [hnet, if_true] at h
        have := push_result _ _ _ _ _ h
        simp only [Prod.mk.injEq] at this
        exact Or.inr (Or.inl ⟨hno, hnet, this.1, by rw [this.2]; rfl⟩)
      · simp only [hnet] at h
        simp only [Bool.false_eq_true, if_false, Option.some.injEq, Prod.mk.injEq] at h
        exact Or.inr (Or.inr ⟨hno, by simpa using hnet, h.1.symm, by rw [← h.2]; rfl⟩)
    · subst hr
      simp only at h hno hi hs
      have := push_result _ _ _ _ _ h
      simp only [Prod.mk.injEq] at this
      exact Or.inl ⟨i, p, hi, hs, hre, hno, this.1, by rw [this.2]; rfl⟩

/-- The call `Connect` returns through the reuse path when slot `i` is the first
reusable one. -/
theorem connect_reuse_total (fuel : Nat) (st : XrdConnectionMgr) (A : XrdUrlInfo)
    (env : ConnectEnv) (i : Nat) (p : XrdPhyConnection) (hi : i < 65536)
    (hlen : i < st.fPhyVec.length) (hs : slot st.fPhyVec i = some p)
    (hr : reusable A (some p) = true)
    (hno : ∀ j, j < i → reusable A (slot st.fPhyVec j) = false) (hf : i < fuel)
    (hd : env.hiDebug = true → st.fPhyVec.length < 65536 ∧ st.fLogVec.length + 1 < 65536 ∧
      st.fPhyVec.length < fuel ∧ st.fLogVec.length + 1 < fuel) :
    Connect fuel st A env = some (toShort st.fLogVec.length, afterReuse st i p env.now) := by
  unfold Connect
  simp only
  rw [lookup_total_found A env.now { st with heapLog := st.heapLog + 1 } i p hi hlen hs hr hno
    fuel hf]
  simp only
  rw [push_total]
  · rfl
  · intro h; simpa using hd h

/-- The call `Connect` returns through the creation path when no slot is reusable and
the network connect succeeds. -/
theorem connect_new_total (fuel : Nat) (st : XrdConnectionMgr) (A : XrdUrlInfo)
    (env : ConnectEnv) (hn : st.fPhyVec.length < 65536)
    (hno : ∀ j, j < st.fPhyVec.length → reusable A (slot st.fPhyVec j) = false)
    (hnet : env.netOk = true) (hf : st.fPhyVec.length < fuel)
    (hd : env.hiDebug = true → st.fPhyVec.length + 1 < 65536 ∧
      st.fLogVec.length + 1 < 65536 ∧ st.fPhyVec.length + 1 < fuel ∧
      st.fLogVec.length + 1 < fuel) :
    Connect fuel st A env = some (toShort st.fLogVec.length, afterNew st A env) := by
  unfold Connect
  simp only
  rw [lookup_total_none A env.now { st with heapLog := st.heapLog + 1 } hn hno fuel hf]
  simp only [hnet, if_true]
  rw [push_total]
  · rfl
  · intro h; simpa using hd h

theorem slot_append_left {α : Type} (v : List (Option α)) (x : Option α) (j : Nat)
    (h : j < v.length) : slot (v ++ [x]) j = slot v j := by
  simp [slot, List.getD, List.getElem?_append_left h]

theorem slot_append_length {α : Type} (v : List (Option α)) (x : Option α) :
    slot (v ++ [x]) v.length = x := by
  simp [slot, List.getD]

theorem slot_of_getElem? {α : Type} (v : List (Option α)) (j : Nat) (x : Option α)
    (h : v[j]? = some x) : slot v j = x := by
  rw [slot_eq_join, h]; rfl

theorem reusable_newPhy (st : XrdConnectionMgr) (A : XrdUrlInfo) (env : ConnectEnv) :
    reusable A (some (newPhy st A env)) = true := by
  simp [reusable, newPhy, XrdPhyConnection.IsValid, XrdPhyConnection.IsPort,
    XrdPhyConnection.IsAddress]

theorem toShort_succ_ne (n : Nat) : toShort (n : Int) ≠ toShort ((n + 1 : Nat) : Int) := by
  unfold toShort
  push_cast
  omega

theorem boundCount_append (v w : List (Option XrdLogConnection)) (P : Nat) :
    boundCount (v ++ w) P = boundCount v P + boundCount w P := by
  simp [boundCount, List.countP_append]

theorem boundCount_eq_zero (v : List (Option XrdLogConnection)) (P : Nat)
    (h : ∀ (i : Nat) (lc : XrdLogConnection), v[i]? = some (some lc) → lc.fPhyConnection ≠ P) :
    boundCount v P = 0 := by
  unfold boundCount
  rw [List.countP_eq_zero]
  intro s hs
  obtain ⟨i, hi⟩ := List.getElem?_of_mem hs
  cases s with
  | none => simp [boundTo]
  | some lc => simpa [boundTo] using h i lc hi


/-! ## Lemmas: two calls of Connect for one endpoint -/

theorem vacatedLogs_connects (n : Nat) :
    Connect 1 (vacatedLogs n) serverA (quiet 0 100) =
      some (toShort n, afterNew (vacatedLogs n) serverA (quiet 0 100)) ∧
    Connect 1 (afterNew (vacatedLogs n) serverA (quiet 0 100)) serverA (quiet 0 100) =
      some (toShort ((n + 1 : Nat) : Int),
        afterReuse (afterNew (vacatedLogs n) serverA (quiet 0 100)) 0
          (newPhy (vacatedLogs n) serverA (quiet 0 100)) 0) ∧
    (afterReuse (afterNew (vacatedLogs n) serverA (quiet 0 100)) 0
      (newPhy (vacatedLogs n) serverA (quiet 0 100)) 0).fPhyVec =
        [some (newPhy (vacatedLogs n) serverA (quiet 0 100))] ∧
    (afterReuse (afterNew (vacatedLogs n) serverA (quiet 0 100)) 0
      (newPhy (vacatedLogs n) serverA (quiet 0 100)) 0).fLogVec.length = n + 2 := by
  refine ⟨?_, ?_, ?_, ?_⟩
  · have h := connect_new_total 1 (vacatedLogs n) serverA (quiet 0 100)
      (by simp [vacatedLogs]) (by intro j hj; simp [vacatedLogs] at hj) rfl
      (by simp [vacatedLogs]) (by intro h; cases h)
    simpa [vacatedLogs] using h
  · have h := connect_reuse_total 1 (afterNew (vacatedLogs n) serverA (quiet 0 100))
      serverA (quiet 0 100) 0 (newPhy (vacatedLogs n) serverA (quiet 0 100))
      (by norm_num) (by simp [afterNew, vacatedLogs]) (by simp [afterNew, vacatedLogs, slot])
      (reusable_newPhy _ _ _) (by intro j hj; omega) (by norm_num) (by intro h; cases h)
    have e : (afterNew (vacatedLogs n) serverA (quiet 0 100)).fLogVec.length = n + 1 := by
      simp [afterNew, vacatedLogs]
    rw [e] at h
    exact h
  · simp [afterReuse, afterNew, vacatedLogs, newPhy, XrdPhyConnection.Touch, quiet]
  · simp [afterReuse, afterNew, vacatedLogs]

/-! ## C2: what a sweep purges -/

theorem boundCount_zero_iff (v : List (Option XrdLogConnection)) (P : Nat) :
    boundCount v P = 0 ↔
      ∀ (j : Nat) (lc : XrdLogConnection), v[j]? = some (some lc) → lc.fPhyConnection ≠ P := by
  constructor
  · intro h j lc hj
    unfold boundCount at h
    rw [List.countP_eq_zero] at h
    have := h (some lc) (List.getElem?_mem hj)
    simpa [boundTo] using this
  · exact boundCount_eq_zero v P

theorem toShort_nonpos_iff (c : Nat) (h : c < 32768) : toShort (c : Int) ≤ 0 ↔ c = 0 := by
  unfold toShort
  omega

theorem purgeable_iff (logs : List (Option XrdLogConnection)) (now : Int)
    (p : XrdPhyConnection) (hb : boundCount logs p.addr < 32768) :
    purgeable logs now (some p) = true ↔
      (∀ (j : Nat) (lc : XrdLogConnection), logs[j]? = some (some lc) →
        lc.fPhyConnection ≠ p.addr) ∧ p.ExpiredTTL now = true := by
  simp only [purgeable, Bool.and_eq_true, decide_eq_true_eq, toShort_nonpos_iff _ hb,
    boundCount_zero_iff]

theorem crowded_lengths (n : Nat) :
    (crowded n).fPhyVec.length = 1 ∧ (crowded n).fLogVec.length = n := by
  simp [crowded]

theorem crowded_boundCount (n : Nat) : boundCount (crowded n).fLogVec phyA.addr = n := by
  simp [crowded, boundCount, List.countP_replicate, boundTo, phyA]

theorem crowded_refCount (n : Nat) (h : n < 65536) (fuel : Nat) (hf : n < fuel) :
    GetPhyConnectionRefCount fuel (crowded n) phyA.addr = some (toShort n) := by
  rw [refCount_total _ _ (by rw [(crowded_lengths n).2]; exact h) _
    (by rw [(crowded_lengths n).2]; exact hf), crowded_boundCount]

theorem crowded_sweep (n : Nat) (h1 : 32768 ≤ n) (h2 : n < 65536) :
    sweep 1 (crowded n) = orphaned n := by
  have ht : toShort (n : Int) ≤ 0 := by unfold toShort; omega
  simp [sweep, crowded, orphaned, sweepSlot, purgeable, boundCount, List.countP_replicate,
    boundTo, XrdPhyConnection.ExpiredTTL, phyA, ht]

theorem crowded_collect (n : Nat) (h1 : 32768 ≤ n) (h2 : n < 65536) (fuel : Nat)
    (hf : n < fuel) : GarbageCollect fuel 1 (crowded n) = some (orphaned n) := by
  rw [GarbageCollect_total 1 (crowded n) (by rw [(crowded_lengths n).1]; norm_num)
    (by rw [(crowded_lengths n).2]; exact h2) fuel (by rw [(crowded_lengths n).1]; omega)
    (by rw [(crowded_lengths n).2]; exact hf), crowded_sweep n h1 h2]

theorem crowded_first (n : Nat) (h : 0 < n) :
    (crowded n).fLogVec[0]? = some (some ⟨phyA.addr⟩) := by
  obtain ⟨m, rfl⟩ : ∃ m, n = m + 1 := ⟨n - 1, by omega⟩
  simp [crowded, List.replicate_succ, phyA]

theorem vacatedPhys_collect (n : Nat) (h : 65536 ≤ n) (fuel : Nat) (now : Int) :
    GarbageCollect fuel now (vacatedPhys n) = none := by
  cases hg : GarbageCollect fuel now (vacatedPhys n) with
  | none => rfl
  | some st' =>
    have := (GarbageCollect_result fuel now _ st' hg).1
    simp [vacatedPhys] at this
    omega

/-- C2, as amended: in a registry with fewer than 65536 slots in each sequence
and fewer than 32768 logical connections bound to any one physical connection,
`GarbageCollect()` returns, and a physical slot that was occupied before the
sweep is vacated if and only if no occupied logical slot was bound to it and
its TTL had expired at the time of the sweep; every other physical slot, the
length of the physical sequence and the whole logical sequence are
unchanged. -/
theorem C2_sweep_purges_iff (now : Int) (st : XrdConnectionMgr)
    (hp : st.fPhyVec.length < 65536) (hl : st.fLogVec.length < 65536)
    (hb : ∀ P, boundCount st.fLogVec P < 32768) :
    ∃ st',
      (∀ fuel, st.fPhyVec.length < fuel → st.fLogVec.length < fuel →
        GarbageCollect fuel now st = some st') ∧
      st'.fLogVec = st.fLogVec ∧ st'.fPhyVec.length = st.fPhyVec.length ∧
      ∀ (i : Nat),
        (∀ (p : XrdPhyConnection), st.fPhyVec[i]? = some (some p) →
          (st'.fPhyVec[i]? = some none ↔
            ((∀ (j : Nat) (lc : XrdLogConnection), st.fLogVec[j]? = some (some lc) →
              lc.fPhyConnection ≠ p.addr) ∧ p.ExpiredTTL now = true)) ∧
          (st'.fPhyVec[i]? ≠ some none → st'.fPhyVec[i]? = some (some p))) ∧
        (st.fPhyVec[i]? = some none → st'.fPhyVec[i]? = some none) := by
  refine ⟨sweep now st, fun fuel h1 h2 => GarbageCollect_total now st hp hl fuel h1 h2, rfl,
    by simp [sweep], ?_⟩
  intro i
  refine ⟨?_, ?_⟩
  · intro p hi
    have hpi := purgeable_iff st.fLogVec now p (hb p.addr)
    by_cases hc : purgeable st.fLogVec now (some p) = true
    · have e : (sweep now st).fPhyVec[i]? = some none := by
        simp [sweep, List.getElem?_map, hi, sweepSlot, hc]
      exact ⟨⟨fun _ => hpi.mp hc, fun _ => e⟩, fun h => absurd e h⟩
    · have e : (sweep now st).fPhyVec[i]? = some (some p) := by
        simp [sweep, List.getElem?_map, hi, sweepSlot, hc]
      refine ⟨⟨fun h => ?_, fun h => absurd (hpi.mpr h) hc⟩, fun _ => e⟩
      rw [e] at h
      cases h
  · intro hi
    simp [sweep, List.getElem?_map, hi, sweepSlot, purgeable]

/-- C2 on a manager with one expired and unreferenced physical connection. -/
theorem C2_sweep_purges_iff_witness :
    ∃ st',
      (∀ fuel, (crowded 0).fPhyVec.length < fuel → (crowded 0).fLogVec.length < fuel →
        GarbageCollect fuel 1 (crowded 0) = some st') ∧
      st'.fLogVec = (crowded 0).fLogVec ∧ st'.fPhyVec.length = (crowded 0).fPhyVec.length ∧
      ∀ (i : Nat),
        (∀ (p : XrdPhyConnection), (crowded 0).fPhyVec[i]? = some (some p) →
          (st'.fPhyVec[i]? = some none ↔
            ((∀ (j : Nat) (lc : XrdLogConnection),
              (crowded 0).fLogVec[j]? = some (some lc) →
              lc.fPhyConnection ≠ p.addr) ∧ p.ExpiredTTL 1 = true)) ∧
          (st'.fPhyVec[i]? ≠ some none → st'.fPhyVec[i]? = some (some p))) ∧
        ((crowded 0).fPhyVec[i]? = some none → st'.fPhyVec[i]? = some none) :=
  C2_sweep_purges_iff 1 (crowded 0) (by decide) (by decide)
    (by intro P; simp [crowded, boundCount])

/-- C2 fails as stated, in two ways.  With 32768 logical connections bound to
`phyA` (all with valid ids), `GetPhyConnectionRefCount` returns -32768 and the
sweep vacates the slot of `phyA` although logical slot 0 is bound to it.  And
over 65536 physical slots the sweep never returns. -/
theorem C2_counterexample :
    ((crowded 32768).fPhyVec[0]? = some (some phyA) ∧
      (crowded 32768).fLogVec[0]? = some (some ⟨phyA.addr⟩) ∧
      GetPhyConnectionRefCount 32769 (crowded 32768) phyA.addr = some (-32768) ∧
      ∃ st', GarbageCollect 32769 1 (crowded 32768) = some st' ∧
        st'.fPhyVec[0]? = some none) ∧
    ∀ fuel now, GarbageCollect fuel now (vacatedPhys 65536) = none := by
  have e : toShort ((32768 : Nat) : Int) = -32768 := by decide
  refine ⟨⟨rfl, crowded_first 32768 (by norm_num), ?_, orphaned 32768, ?_, rfl⟩, ?_⟩
  · rw [crowded_refCount 32768 (by norm_num) 32769 (by norm_num), e]
  · exact crowded_collect 32768 (by norm_num) (by norm_num) 32769 (by norm_num)
  · intro fuel now
    exact vacatedPhys_collect 65536 (by norm_num) fuel now

/-! ## Disconnect -/

theorem derefPhy_eq_none_iff (st : XrdConnectionMgr) (a : Nat) :
    derefPhy st a = none ↔
      ∀ (k : Nat) (p : XrdPhyConnection), st.fPhyVec[k]? = some (some p) → p.addr ≠ a := by
  unfold derefPhy
  constructor
  · intro h k p hk hpa
    cases hf : st.fPhyVec.find? (fun s => match s with
        | some p => p.addr == a
        | none => false) with
    | none =>
      rw [List.find?_eq_none] at hf
      have := hf (some p) (List.getElem?_mem hk)
      simp [hpa] at this
    | some x =>
      rw [hf] at h
      have hx := List.find?_some hf
      cases x with
      | none => simp at hx
      | some q => simp at h
  · intro h
    cases hf : st.fPhyVec.find? (fun s => match s with
        | some p => p.addr == a
        | none => false) with
    | none => rfl
    | some x =>
      have hx := List.find?_some hf
      have hm := List.mem_of_find?_eq_some hf
      cases x with
      | none => simp at hx
      | some q =>
        obtain ⟨k, hk⟩ := List.getElem?_of_mem hm
        simp only [beq_iff_eq] at hx
        exact absurd hx (h k q hk)

theorem toShort_small (i : Nat) (h : i < 32768) : toShort (i : Int) = i := by
  unfold toShort
  omega

theorem toInt_length (n : Nat) (h : n < 2147483648) : toInt (n : Int) = n := by
  unfold toInt
  omega

theorem toInt_le (n : Nat) : toInt (n : Int) ≤ n := by
  unfold toInt
  omega

theorem updatePhy_touchSlot (st : XrdConnectionMgr) (a : Nat) (force : Bool) (now : Int) :
    (updatePhy (if force = true then
        updatePhy (updatePhy st a (fun p => p.SetTTL 0)) a (fun p => p.Disconnect)
      else st) a (fun p => p.Touch now)).fPhyVec = st.fPhyVec.map (touchSlot a force now) := by
  cases force with
  | false =>
    simp only [updatePhy, Bool.false_eq_true, if_false]
    apply List.map_congr_left
    intro s _
    cases s with
    | none => rfl
    | some p => simp [touchSlot]
  | true =>
    simp only [updatePhy, if_true, List.map_map]
    apply List.map_congr_left
    intro s _
    cases s with
    | none => rfl
    | some p =>
      by_cases h : p.addr = a
      · simp [touchSlot, h, XrdPhyConnection.SetTTL, XrdPhyConnection.Disconnect]
      · simp [touchSlot, h]

theorem updatePhy_fields (st : XrdConnectionMgr) (a : Nat)
    (f : XrdPhyConnection → XrdPhyConnection) :
    (updatePhy st a f).fLogVec = st.fLogVec ∧ (updatePhy st a f).nextAddr = st.nextAddr ∧
    (updatePhy st a f).heapLog = st.heapLog ∧ (updatePhy st a f).heapPhy = st.heapPhy :=
  ⟨rfl, rfl, rfl, rfl⟩

theorem disconnect_state (st : XrdConnectionMgr) (id : Nat) (lc : XrdLogConnection)
    (force : Bool) (now : Int) :
    ({ updatePhy (if force = true then
          updatePhy (updatePhy st lc.fPhyConnection (fun p => p.SetTTL 0)) lc.fPhyConnection
            (fun p => p.Disconnect)
        else st) lc.fPhyConnection (fun p => p.Touch now) with
        fLogVec := (updatePhy (if force = true then
          updatePhy (updatePhy st lc.fPhyConnection (fun p => p.SetTTL 0)) lc.fPhyConnection
            (fun p => p.Disconnect)
        else st) lc.fPhyConnection (fun p => p.Touch now)).fLogVec.set id none
        heapLog := (updatePhy (if force = true then
          updatePhy (updatePhy st lc.fPhyConnection (fun p => p.SetTTL 0)) lc.fPhyConnection
            (fun p => p.Disconnect)
        else st) lc.fPhyConnection (fun p => p.Touch now)).heapLog - 1 } : XrdConnectionMgr) =
      afterDisconnect st id lc force now := by
  have e := updatePhy_touchSlot st lc.fPhyConnection force now
  unfold afterDisconnect
  rw [← e]
  cases force <;> rfl

/-- A `Disconnect` with an id between 0 and 32767 of an occupied slot whose
physical connection has not been destroyed removes the logical connection. -/
theorem disconnect_total (st : XrdConnectionMgr) (id : Nat) (lc : XrdLogConnection)
    (force : Bool) (now : Int) (hs : id < 32768) (hl : st.fLogVec.length < 2147483648)
    (hid : st.fLogVec[id]? = some (some lc))
    (hlive : derefPhy st lc.fPhyConnection ≠ none) :
    Disconnect st id force now = .ok (.removed, afterDisconnect st id lc force now) := by
  have hlt : id < st.fLogVec.length := by
    by_contra hc
    rw [List.getElem?_eq_none (Nat.le_of_not_lt hc)] at hid
    cases hid
  unfold Disconnect
  rw [toShort_small id hs]
  have h1 : ¬ ((id : Int) < 0) := by omega
  have h2 : ¬ ((id : Int) < 0 ∨ (id : Int) ≥ toInt st.fLogVec.length) := by
    rw [toInt_length _ hl]; omega
  rw [if_neg h1, if_neg h2]
  simp only [Int.toNat_ofNat, slot_of_getElem? _ _ _ hid]
  cases hd : derefPhy st lc.fPhyConnection with
  | none => exact absurd hd hlive
  | some q =>
    simp only
    rw [disconnect_state st id lc force now]

/-- A `Disconnect` that has returned either left the manager as it was or
removed the logical connection of the slot its converted argument names, a
slot below 32768. -/
theorem disconnect_result (st : XrdConnectionMgr) (id : Int) (force : Bool) (now : Int)
    (o : DisconnectOutcome) (st' : XrdConnectionMgr)
    (h : Disconnect st id force now = .ok (o, st')) :
    (o ≠ .removed ∧ st' = st) ∨
    (∃ lc, 0 ≤ toShort id ∧ (toShort id).toNat < 32768 ∧
      st.fLogVec[(toShort id).toNat]? = some (some lc) ∧
      derefPhy st lc.fPhyConnection ≠ none ∧ o = .removed ∧
      st' = afterDisconnect st (toShort id).toNat lc force now) := by
  unfold Disconnect at h
  have hrange : toShort id < 32768 := by unfold toShort; omega
  generalize toShort id = sid at h hrange ⊢
  by_cases h1 : sid < 0
  · rw [if_pos h1] at h
    cases h
    exact Or.inl ⟨by simp, rfl⟩
  · rw [if_neg h1] at h
    by_cases h2 : sid < 0 ∨ sid ≥ toInt st.fLogVec.length
    · rw [if_pos h2] at h
      cases h
      exact Or.inl ⟨by simp, rfl⟩
    · rw [if_neg h2] at h
      have hlt : sid.toNat < st.fLogVec.length := by
        have := toInt_le st.fLogVec.length
        omega
      cases hs : slot st.fLogVec sid.toNat with
      | none =>
        rw [hs] at h
        cases h
        exact Or.inl ⟨by simp, rfl⟩
      | some lc =>
        rw [hs] at h
        simp only at h
        have hget : st.fLogVec[sid.toNat]? = some (some lc) := by
          rw [List.getElem?_eq_getElem hlt, ← slot_eq_getElem _ _ hlt, hs]
        cases hd : derefPhy st lc.fPhyConnection with
        | none => rw [hd] at h; cases h
        | some q =>
          rw [hd] at h
          simp only [disconnect_state st sid.toNat lc force now, Except.ok.injEq,
            Prod.mk.injEq] at h
          exact Or.inr ⟨lc, by omega, by omega, hget, by rw [hd]; simp, h.1.symm, h.2.symm⟩

/-- No call of `Disconnect` changes a logical slot at index 32768 or above:
the parameter cannot hold its index. -/
theorem disconnect_keeps_high (st : XrdConnectionMgr) (id : Int) (force : Bool) (now : Int)
    (o : DisconnectOutcome) (st' : XrdConnectionMgr) (k : Nat) (hk : 32768 ≤ k)
    (h : Disconnect st id force now = .ok (o, st')) : st'.fLogVec[k]? = st.fLogVec[k]? := by
  rcases disconnect_result st id force now o st' h with ⟨_, rfl⟩ | ⟨lc, _, hlt, _, _, _, rfl⟩
  · rfl
  · simp only [afterDisconnect, List.getElem?_set]
    rw [if_neg (by omega)]

/-! ## Lemmas: forced disconnect, then a sweep -/

/-- C4 (the code departs from the claim): with an id that is negative or not
below the length of the logical sequence, `ReadRaw` and `WriteRaw` do not
return `TXSOCK_ERR`: `GetConnection` reads `fLogVec[LogConnectionID]` outside
the sequence.  (With the id of a vacated slot they do return `TXSOCK_ERR`.) -/
theorem C4_raw_out_of_range (st : XrdConnectionMgr) (id : Int)
    (h : id < 0 ∨ (st.fLogVec.length : Int) ≤ id) :
    ReadRaw st id = .error .outOfRange ∧ WriteRaw st id = .error .outOfRange := by
  have hg : GetConnection st id = .error .outOfRange := by
    unfold GetConnection
    rw [if_neg (by omega)]
  simp [ReadRaw, WriteRaw, hg]

/-- C4 at the manager `single` and the id `-1` that a failed `Connect`
returns. -/
theorem C4_raw_out_of_range_witness :
    ((-1 : Int) < 0 ∨ (single.fLogVec.length : Int) ≤ -1) ∧
    ReadRaw single (-1) = .error .outOfRange ∧ WriteRaw single (-1) = .error .outOfRange :=
  ⟨Or.inl (by decide), C4_raw_out_of_range single (-1) (Or.inl (by decide))⟩

/-- C5 (the code departs from the claim): `ReadMsg` with an invalid id never
returns an outcome.  Out of range, `GetConnection` reads outside the logical
sequence; on a vacated slot, `ReadMsg` calls `GetPhyConnection()` through the
null pointer.  This holds in the synchronous and in the asynchronous mode. -/
theorem C5_ReadMsg_invalid (st : XrdConnectionMgr) (id : Int) (goAsync : Bool)
    (h : id < 0 ∨ (st.fLogVec.length : Int) ≤ id ∨ slot st.fLogVec id.toNat = none) :
    ReadMsg st id goAsync =
      .error (if id < 0 ∨ (st.fLogVec.length : Int) ≤ id then Fault.outOfRange
        else Fault.nullPointer) := by
  unfold ReadMsg GetConnection
  by_cases hr : 0 ≤ id ∧ id < st.fLogVec.length
  · rw [if_pos hr, if_neg (by omega)]
    have hs : slot st.fLogVec id.toNat = none := by
      rcases h with h | h | h
      · omega
      · omega
      · exact h
    simp [hs]
  · rw [if_neg hr, if_pos (by omega)]

/-- C5 on the vacated slot 0 of a manager, in the asynchronous mode. -/
theorem C5_ReadMsg_invalid_witness :
    ((0 : Int) < 0 ∨ ((vacatedLogs 1).fLogVec.length : Int) ≤ 0 ∨
      slot (vacatedLogs 1).fLogVec (0 : Int).toNat = none) ∧
    ReadMsg (vacatedLogs 1) 0 true =
      .error (if (0 : Int) < 0 ∨ ((vacatedLogs 1).fLogVec.length : Int) ≤ 0
        then Fault.outOfRange else Fault.nullPointer) :=
  ⟨Or.inr (Or.inr rfl), C5_ReadMsg_invalid (vacatedLogs 1) 0 true (Or.inr (Or.inr rfl))⟩

/-! ## C6: Disconnect with an invalid id -/

/-- C6: for every id that is negative, not below the length of the logical
sequence, or indexing a vacated slot, and for both values of `forcePhysical`,
`Disconnect` removes nothing and returns the manager unchanged (both
sequences and every field of every physical connection).  The id is the value
the `short int` parameter holds, `toShort id`; it is `id` itself for every
`id` between -32768 and 32767. -/
theorem C6_disconnect_invalid (st : XrdConnectionMgr) (id : Int) (force : Bool) (now : Int)
    (h : toShort id < 0 ∨ (st.fLogVec.length : Int) ≤ toShort id ∨
      slot st.fLogVec (toShort id).toNat = none) :
    ∃ o, o ≠ DisconnectOutcome.removed ∧ Disconnect st id force now = .ok (o, st) := by
  unfold Disconnect
  generalize toShort id = sid at h ⊢
  by_cases h1 : sid < 0
  · exact ⟨.ignored, by simp, by rw [if_pos h1]⟩
  · rw [if_neg h1]
    by_cases h2 : sid < 0 ∨ sid ≥ toInt st.fLogVec.length
    · exact ⟨.nonexistent, by simp, by rw [if_pos h2]⟩
    · rw [if_neg h2]
      have hs : slot st.fLogVec sid.toNat = none := by
        rcases h with h | h | h
        · omega
        · have := toInt_le st.fLogVec.length
          omega
        · exact h
      exact ⟨.nonexistent, by simp, by rw [hs]⟩

/-- C6 at the manager `single`, whose only logical slot is slot 0, with id 1
and a forced disconnect. -/
theorem C6_disconnect_invalid_witness :
    (toShort 1 < 0 ∨ (single.fLogVec.length : Int) ≤ toShort 1 ∨
      slot single.fLogVec (toShort 1).toNat = none) ∧
    ∃ o, o ≠ DisconnectOutcome.removed ∧ Disconnect single 1 true 7 = .ok (o, single) :=
  ⟨Or.inr (Or.inl (by decide)), C6_disconnect_invalid single 1 true 7 (Or.inr (Or.inl (by decide)))⟩

/-! ## C7: ProcessUnsolicitedMsg -/

theorem fanOut_succ (logs : List (Option XrdLogConnection)) (P : Nat) (m : XrdMessage)
    (i : Nat) :
    fanOut logs P m (i + 1) =
      if boundTo P (slot logs i) then fanOut logs P m i ++ [⟨i, P, m⟩] else fanOut logs P m i := by
  unfold fanOut
  rw [List.range_succ, List.filter_append]
  by_cases hb : boundTo P (slot logs i) = true <;> simp [hb]

/-- With fewer than `65536` logical slots the fan-out finishes, with the
calls `fanOut` and the manager unchanged. -/
theorem processUnsolicitedMsg_total (st : XrdConnectionMgr) (P : Nat) (m : XrdMessage)
    (hl : st.fLogVec.length < 65536) (fuel : Nat) (hf : st.fLogVec.length < fuel) :
    ProcessUnsolicitedMsg fuel st P m =
      some (true, st, fanOut st.fLogVec P m st.fLogVec.length) := by
  obtain ⟨s', hI, hrun⟩ := forUShort_total
    (fun s : XrdConnectionMgr × List HandlerCall => s.1.fLogVec.length)
    (fun i (s : XrdConnectionMgr × List HandlerCall) =>
        if boundTo P (slot s.1.fLogVec i) then
          some ((s.1, s.2 ++ [⟨i, P, m⟩]), false)
        else some (s, false))
    st.fLogVec.length hl
    (fun i s => s = (st, fanOut st.fLogVec P m i))
    (fun i s hI => by simp only at hI; rw [hI])
    (fun i s hi hI => by
      simp only at hI
      subst hI
      simp only [fanOut_succ]
      by_cases hb : boundTo P (slot st.fLogVec i) = true
      · exact ⟨_, by rw [if_pos hb], by rw [if_pos hb]⟩
      · exact ⟨_, by rw [if_neg hb], by rw [if_neg hb]⟩)
    st.fLogVec.length 0 (st, []) (by simp) (by simp [fanOut])
  unfold ProcessUnsolicitedMsg
  rw [hrun fuel hf, hI]

/-- With `65536` logical slots or more the fan-out never finishes. -/
theorem processUnsolicitedMsg_diverges (st : XrdConnectionMgr) (P : Nat) (m : XrdMessage)
    (hl : 65536 ≤ st.fLogVec.length) (fuel : Nat) :
    ProcessUnsolicitedMsg fuel st P m = none := by
  unfold ProcessUnsolicitedMsg
  rw [forUShort_diverges (fun s : XrdConnectionMgr × List HandlerCall => s.1 = st)
    (fun s hs => by rw [hs]; exact hl)
    (fun i s s' b hs hb => by
      by_cases hc : boundTo P (slot s.1.fLogVec i) = true
      · rw [if_pos hc] at hb
        simp only [Option.some.injEq, Prod.mk.injEq] at hb
        exact ⟨hb.2.symm, by rw [← hb.1]; exact hs⟩
      · rw [if_neg hc] at hb
        simp only [Option.some.injEq, Prod.mk.injEq] at hb
        exact ⟨hb.2.symm, by rw [← hb.1]; exact hs⟩)
    fuel 0 (st, []) (by norm_num) rfl]

theorem boundTo_iff (P : Nat) (logs : List (Option XrdLogConnection)) (i : Nat) :
    boundTo P (slot logs i) = true ↔
      ∃ lc : XrdLogConnection, logs[i]? = some (some lc) ∧ lc.fPhyConnection = P := by
  rw [slot_eq_join]
  cases h : logs[i]? with
  | none => simp [boundTo]
  | some s =>
    cases s with
    | none => simp [boundTo]
    | some lc => simp [boundTo]

/-- C7, as amended: for every registry state with fewer than 65536 logical
slots, sender `P` and message `m`, `ProcessUnsolicitedMsg(P, m)` returns true
and leaves the registry unchanged; it calls the handler exactly once on every
occupied logical slot bound to `P`, and every call it makes is on an occupied
slot bound to `P`, with sender `P` and the message `m`. -/
theorem C7_unsolicited_fan_out (st : XrdConnectionMgr) (P : Nat) (m : XrdMessage)
    (hl : st.fLogVec.length < 65536) :
    ∃ calls : List HandlerCall,
      (∀ fuel, st.fLogVec.length < fuel →
        ProcessUnsolicitedMsg fuel st P m = some (true, st, calls)) ∧
      (∀ (i : Nat) (lc : XrdLogConnection), st.fLogVec[i]? = some (some lc) →
        lc.fPhyConnection = P → (calls.map (fun c => c.index)).count i = 1) ∧
      (∀ c, c ∈ calls → c.sender = P ∧ c.unsolmsg = m ∧
        ∃ lc : XrdLogConnection, st.fLogVec[c.index]? = some (some lc) ∧
          lc.fPhyConnection = P) := by
  refine ⟨fanOut st.fLogVec P m st.fLogVec.length,
    fun fuel hf => processUnsolicitedMsg_total st P m hl fuel hf, ?_, ?_⟩
  · intro i lc hi hb
    have hlt : i < st.fLogVec.length := by
      by_contra hc
      rw [List.getElem?_eq_none (Nat.le_of_not_lt hc)] at hi
      cases hi
    have hmap : (fanOut st.fLogVec P m st.fLogVec.length).map (fun c => c.index) =
        (List.range st.fLogVec.length).filter (fun i => boundTo P (slot st.fLogVec i)) := by
      simp [fanOut, List.map_map, Function.comp_def]
    rw [hmap]
    have hnd : ((List.range st.fLogVec.length).filter
        (fun i => boundTo P (slot st.fLogVec i))).Nodup :=
      (List.nodup_range _).filter _
    rw [List.count_eq_one_of_mem hnd]
    rw [List.mem_filter]
    exact ⟨List.mem_range.mpr hlt, (boundTo_iff P st.fLogVec i).mpr ⟨lc, hi, hb⟩⟩
  · intro c hc
    simp only [fanOut, List.mem_map, List.mem_filter, List.mem_range] at hc
    obtain ⟨i, ⟨_, hb⟩, rfl⟩ := hc
    exact ⟨rfl, rfl, (boundTo_iff P st.fLogVec i).mp hb⟩

/-- C7 on the manager `single` with sender address 0. -/
theorem C7_unsolicited_fan_out_witness :
    ∃ calls : List HandlerCall,
      (∀ fuel, single.fLogVec.length < fuel →
        ProcessUnsolicitedMsg fuel single 0 ⟨42⟩ = some (true, single, calls)) ∧
      (∀ (i : Nat) (lc : XrdLogConnection), single.fLogVec[i]? = some (some lc) →
        lc.fPhyConnection = 0 → (calls.map (fun c => c.index)).count i = 1) ∧
      (∀ c, c ∈ calls → c.sender = 0 ∧ c.unsolmsg = ⟨42⟩ ∧
        ∃ lc : XrdLogConnection, single.fLogVec[c.index]? = some (some lc) ∧
          lc.fPhyConnection = 0) :=
  C7_unsolicited_fan_out single 0 ⟨42⟩ (by decide)

/-- C7 fails as stated: over 65536 logical slots the unsigned short counter of
`ProcessUnsolicitedMsg` wraps around before it reaches the size, and the call
never returns. -/
theorem C7_counterexample :
    ¬ ∃ fuel r, ProcessUnsolicitedMsg fuel (vacatedLogs 65536) 0 ⟨42⟩ = some r := by
  rintro ⟨fuel, r, hr⟩
  have h : ∀ n, 65536 ≤ n → ProcessUnsolicitedMsg fuel (vacatedLogs n) 0 ⟨42⟩ = none :=
    fun n hn => processUnsolicitedMsg_diverges _ _ _ (by simpa [vacatedLogs] using hn) fuel
  rw [h 65536 (le_refl _)] at hr
  cases hr

/-! ## C8: logical connections and destroyed physical connections -/

theorem crowded_connect (n : Nat) :
    Connect 1 (crowded n) serverA (quiet 0 0) = some (toShort n, crowded (n + 1)) := by
  have h := connect_reuse_total 1 (crowded n) serverA (quiet 0 0) 0 phyA (by norm_num)
    (by simp [crowded]) (by simp [crowded, slot]) (by decide) (by intro j hj; omega)
    (by norm_num) (by intro h; cases h)
  rw [h, (crowded_lengths n).2]
  simp [afterReuse, crowded, List.replicate_succ', phyA, XrdPhyConnection.Touch, quiet]

theorem reachable_crowded (n : Nat) : Reachable (crowded (n + 1)) := by
  induction n with
  | zero =>
    have h : Connect 1 empty serverA (quiet 0 0) = some (0, crowded 1) := by decide
    exact Reachable.step Reachable.init (Step.connect 1 serverA (quiet 0 0) 0 h)
  | succ n ih =>
    exact Reachable.step ih (Step.connect 1 serverA (quiet 0 0) _ (crowded_connect (n + 1)))

theorem reachable_orphaned (n : Nat) (h1 : 32768 ≤ n) (h2 : n < 65536) :
    Reachable (orphaned n) := by
  obtain ⟨m, rfl⟩ : ∃ m, n = m + 1 := ⟨n - 1, by omega⟩
  exact Reachable.step (reachable_crowded m)
    (Step.collect (m + 2) 1 (crowded_collect (m + 1) h1 h2 (m + 2) (by omega)))

theorem orphaned_first (n : Nat) (h : 0 < n) :
    (orphaned n).fLogVec[0]? = some (some ⟨0⟩) := by
  obtain ⟨m, rfl⟩ : ∃ m, n = m + 1 := ⟨n - 1, by omega⟩
  simp [orphaned, List.replicate_succ]

/-- C8 (the code departs from the claim): 32768 calls `Connect(serverA:1094)`
on the empty manager, returning the ids 0 to 32767, followed by one
`GarbageCollect()` after the TTL has expired, lead to a state in which logical
slot 0 is occupied and bound to the physical connection at address 0, while
no physical slot is occupied: `GetPhyConnectionRefCount` returned -32768 and
the sweep destroyed the connection. -/
theorem C8_dangling_after_sweep :
    Reachable (orphaned 32768) ∧
    (orphaned 32768).fLogVec[0]? = some (some ⟨0⟩) ∧
    (orphaned 32768).fPhyVec = [none] ∧
    derefPhy (orphaned 32768) 0 = none :=
  ⟨reachable_orphaned 32768 (by norm_num) (by norm_num), orphaned_first 32768 (by norm_num),
    rfl, rfl⟩

/-! ## C9: physical connections per endpoint -/

theorem refines_preserves (w v : List (Option XrdPhyConnection)) (hr : Refines w v)
    (hv : OneValidPerEndpoint v) : OneValidPerEndpoint w := by
  intro i j p' q' hi hj hp hq hhost hport
  obtain ⟨p, hpi, hps, hpv⟩ := hr i p' hi
  obtain ⟨q, hqj, hqs, hqv⟩ := hr j q' hj
  exact hv i j p q hpi hqj (hpv hp) (hqv hq) (by rw [hps, hqs]; exact hhost)
    (by rw [hps, hqs]; exact hport)

theorem refines_set_touch (v : List (Option XrdPhyConnection)) (i : Nat)
    (p : XrdPhyConnection) (now : Int) (hi : v[i]? = some (some p)) :
    Refines (v.set i (some (p.Touch now))) v := by
  intro k p' hk
  rw [List.getElem?_set] at hk
  by_cases hik : i = k
  · subst hik
    rw [if_pos rfl] at hk
    split at hk
    · cases hk
      exact ⟨p, hi, rfl, fun h => h⟩
    · cases hk
  · rw [if_neg hik] at hk
    exact ⟨p', hk, rfl, fun h => h⟩

theorem refines_touchSlot (v : List (Option XrdPhyConnection)) (a : Nat) (force : Bool)
    (now : Int) : Refines (v.map (touchSlot a force now)) v := by
  intro k p' hk
  rw [List.getElem?_map] at hk
  cases hv : v[k]? with
  | none => rw [hv] at hk; cases hk
  | some s =>
    rw [hv] at hk
    cases s with
    | none => simp [touchSlot] at hk
    | some p =>
      simp only [Option.map_some', touchSlot, Option.some.injEq] at hk
      refine ⟨p, rfl, ?_, ?_⟩
      · split at hk
        · cases force <;> simp at hk <;> rw [← hk] <;> rfl
        · cases hk; rfl
      · split at hk
        · cases force
          · simp at hk; rw [← hk]; exact fun h => h
          · simp at hk; rw [← hk]; intro h; cases h
        · cases hk; exact fun h => h

theorem refines_sweepSlot (v : List (Option XrdPhyConnection))
    (logs : List (Option XrdLogConnection)) (now : Int) :
    Refines (v.map (sweepSlot logs now)) v := by
  intro k p' hk
  rw [List.getElem?_map] at hk
  cases hv : v[k]? with
  | none => rw [hv] at hk; cases hk
  | some s =>
    rw [hv] at hk
    simp only [Option.map_some', sweepSlot, Option.some.injEq] at hk
    split at hk
    · cases hk
    · exact ⟨p', by rw [hk], rfl, fun h => h⟩

theorem oneValid_append_new (st : XrdConnectionMgr) (A : XrdUrlInfo) (env : ConnectEnv)
    (hv : OneValidPerEndpoint st.fPhyVec)
    (hno : ∀ j, j < st.fPhyVec.length → reusable A (slot st.fPhyVec j) = false) :
    OneValidPerEndpoint (st.fPhyVec ++ [some (newPhy st A env)]) := by
  have hold : ∀ (k : Nat) (p : XrdPhyConnection),
      (st.fPhyVec ++ [some (newPhy st A env)])[k]? = some (some p) →
      (k < st.fPhyVec.length ∧ st.fPhyVec[k]? = some (some p)) ∨
      (k = st.fPhyVec.length ∧ p = newPhy st A env) := by
    intro k p hk
    by_cases hlt : k < st.fPhyVec.length
    · rw [List.getElem?_append_left hlt] at hk
      exact Or.inl ⟨hlt, hk⟩
    · rw [List.getElem?_append_right (Nat.le_of_not_lt hlt)] at hk
      cases hd : k - st.fPhyVec.length with
      | zero =>
        rw [hd] at hk
        simp only [List.getElem?_cons_zero, Option.some.injEq] at hk
        exact Or.inr ⟨by omega, hk.symm⟩
      | succ d => rw [hd] at hk; simp at hk
  have hclash : ∀ (k : Nat) (p : XrdPhyConnection), k < st.fPhyVec.length →
      st.fPhyVec[k]? = some (some p) → p.IsValid = true → p.fServer.Host = A.Host →
      p.fServer.Port = A.Port → False := by
    intro k p hk hp hval hhost hport
    have := hno k hk
    rw [slot_of_getElem? _ _ _ hp] at this
    simp [reusable, hval, XrdPhyConnection.IsPort, XrdPhyConnection.IsAddress, hhost,
      hport] at this
  intro i j p q hi hj hp hq hhost hport
  rcases hold i p hi with ⟨hil, hi'⟩ | ⟨hil, hpe⟩
  · rcases hold j q hj with ⟨_, hj'⟩ | ⟨_, hqe⟩
    · exact hv i j p q hi' hj' hp hq hhost hport
    · subst hqe
      exact (hclash i p hil hi' hp hhost hport).elim
  · rcases hold j q hj with ⟨hjl, hj'⟩ | ⟨hjl, _⟩
    · subst hpe
      exact (hclash j q hjl hj' hq hhost.symm hport.symm).elim
    · omega

theorem step_oneValid (st st' : XrdConnectionMgr) (hs : Step st st')
    (hv : OneValidPerEndpoint st.fPhyVec) : OneValidPerEndpoint st'.fPhyVec := by
  cases hs with
  | connect fuel A env id h =>
    rcases connect_result fuel st A env id st' h with
      ⟨i, p, hi, hsl, _, _, _, rfl⟩ | ⟨hno, _, _, rfl⟩ | ⟨_, _, _, rfl⟩
    · have hget : st.fPhyVec[i]? = some (some p) := by
        rw [List.getElem?_eq_getElem hi, ← slot_eq_getElem _ _ hi, hsl]
      exact refines_preserves _ _ (refines_set_touch st.fPhyVec i p env.now hget) hv
    · exact oneValid_append_new st A env hv hno
    · exact hv
  | disconnect id force now o h =>
    rcases disconnect_result st id force now o st' h with ⟨_, rfl⟩ | ⟨lc, _, _, _, _, _, rfl⟩
    · exact hv
    · exact refines_preserves _ _ (refines_touchSlot st.fPhyVec _ force now) hv
  | collect fuel now h =>
    obtain ⟨_, rfl⟩ := GarbageCollect_result fuel now st st' h
    exact refines_preserves _ _ (refines_sweepSlot st.fPhyVec st.fLogVec now) hv

theorem reachable_doubled : Reachable doubled := by
  have h1 : Connect 1 empty serverA (quiet 0 100) = some (0, single) := by decide
  have h2 : Disconnect single 0 true 0 =
      .ok (.removed, ⟨[some ⟨0, serverA, false, 0, 0⟩], [none], 1, 0, 1⟩) := rfl
  have h3 : Connect 2 ⟨[some ⟨0, serverA, false, 0, 0⟩], [none], 1, 0, 1⟩ serverA
      (quiet 0 100) = some (1, doubled) := by decide
  exact Reachable.step (Reachable.step (Reachable.step Reachable.init
    (Step.connect 1 serverA (quiet 0 100) 0 h1)) (Step.disconnect 0 true 0 _ h2))
    (Step.connect 2 serverA (quiet 0 100) 1 h3)

/-- C9, as amended: in every state reachable from the empty manager by any
sequence of `Connect`, `Disconnect` (forced or not) and `GarbageCollect`
calls, at most one valid (connected) physical connection occupies a physical
slot for any given (host, port). -/
theorem C9_one_valid_per_endpoint (st : XrdConnectionMgr) (h : Reachable st) :
    ∀ (i j : Nat) (p q : XrdPhyConnection), st.fPhyVec[i]? = some (some p) →
      st.fPhyVec[j]? = some (some q) → p.IsValid = true → q.IsValid = true →
      p.fServer.Host = q.fServer.Host → p.fServer.Port = q.fServer.Port → i = j := by
  induction h with
  | init => intro i j p q hi; simp [empty] at hi
  | step _ hs ih => exact step_oneValid _ _ hs ih

/-- C9 at the reachable state `doubled`. -/
theorem C9_one_valid_per_endpoint_witness :
    Reachable doubled ∧
    ∀ (i j : Nat) (p q : XrdPhyConnection), doubled.fPhyVec[i]? = some (some p) →
      doubled.fPhyVec[j]? = some (some q) → p.IsValid = true → q.IsValid = true →
      p.fServer.Host = q.fServer.Host → p.fServer.Port = q.fServer.Port → i = j :=
  ⟨reachable_doubled, C9_one_valid_per_endpoint doubled reachable_doubled⟩

/-- C9 fails as stated: after `Connect(serverA)`, `Disconnect(0, true)` and
`Connect(serverA)`, with no sweep in between, the physical connection that was
shut down still occupies slot 0 and a second physical connection to
`serverA:1094` occupies slot 1. -/
theorem C9_counterexample :
    Reachable doubled ∧
    doubled.fPhyVec[0]? = some (some ⟨0, serverA, false, 0, 0⟩) ∧
    doubled.fPhyVec[1]? = some (some ⟨1, serverA, true, 0, 100⟩) :=
  ⟨reachable_doubled, rfl, rfl⟩

/-! ## C10: calls of Connect for one endpoint only -/

theorem onlyConnects_shape (A : XrdUrlInfo) (st : XrdConnectionMgr) (h : OnlyConnects A st) :
    st.fPhyVec = [] ∨
    ∃ p : XrdPhyConnection, st.fPhyVec = [some p] ∧ p.fServer = A ∧ p.fConnected = true := by
  induction h with
  | init => exact Or.inl rfl
  | @step st st' fuel env id _ hc ih =>
    rcases connect_result fuel st A env id st' hc with
      ⟨i, p, hi, hsl, _, _, _, rfl⟩ | ⟨hno, _, _, rfl⟩ | ⟨_, _, _, rfl⟩
    · rcases ih with h0 | ⟨q, hq, hqs, hqc⟩
      · rw [h0] at hi; simp at hi
      · rw [hq] at hi hsl
        have hi0 : i = 0 := by simpa using hi
        subst hi0
        simp only [slot, List.getD_cons_zero, Option.some.injEq] at hsl
        subst hsl
        exact Or.inr ⟨q.Touch env.now, by simp [afterReuse, hq], hqs, hqc⟩
    · rcases ih with h0 | ⟨q, hq, hqs, hqc⟩
      · exact Or.inr ⟨newPhy st A env, by simp [afterNew, h0], rfl, rfl⟩
      · exfalso
        have := hno 0 (by simp [hq])
        rw [hq] at this
        simp [slot, reusable, XrdPhyConnection.IsValid, XrdPhyConnection.IsPort,
          XrdPhyConnection.IsAddress, hqs, hqc] at this
    · exact ih

/-- C10: after every call of a sequence that consists only of `Connect` calls
to the same endpoint `A`, run from the empty manager, at most one physical
slot is occupied, and a connection in a slot is the connection to `A`: at most
one `PhysicalConnection` object for `A` is in the registry. -/
theorem C10_connects_share_one_physical (A : XrdUrlInfo) (st : XrdConnectionMgr)
    (h : OnlyConnects A st) :
    st.fPhyVec.countP (fun s => s.isSome) ≤ 1 ∧
    ∀ (i : Nat) (p : XrdPhyConnection), st.fPhyVec[i]? = some (some p) → p.fServer = A := by
  rcases onlyConnects_shape A st h with h0 | ⟨q, hq, hqs, _⟩
  · rw [h0]
    exact ⟨by simp, by intro i p hi; simp at hi⟩
  · rw [hq]
    refine ⟨by simp, ?_⟩
    intro i p hi
    cases i with
    | zero =>
      simp only [List.getElem?_cons_zero, Option.some.injEq] at hi
      rw [← hi]; exact hqs
    | succ i => simp at hi

/-- C10 after two calls `Connect(serverA:1094)`. -/
theorem C10_connects_share_one_physical_witness :
    OnlyConnects serverA (crowded 2) ∧
    (crowded 2).fPhyVec.countP (fun s => s.isSome) ≤ 1 ∧
    ∀ (i : Nat) (p : XrdPhyConnection), (crowded 2).fPhyVec[i]? = some (some p) →
      p.fServer = serverA :=
  have h1 : Connect 1 empty serverA (quiet 0 0) = some (0, crowded 1) := by decide
  have h2 : Connect 1 (crowded 1) serverA (quiet 0 0) = some (1, crowded 2) := by decide
  have h : OnlyConnects serverA (crowded 2) :=
    OnlyConnects.step 1 (quiet 0 0) 1 (OnlyConnects.step 1 (quiet 0 0) 0 OnlyConnects.init h1) h2
  ⟨h, C10_connects_share_one_physical serverA (crowded 2) h⟩

/-! ## C13: the network connect fails -/

theorem phyfound_false (fuel : Nat) (st : XrdConnectionMgr) (A : XrdUrlInfo) (now : Int)
    (h : Connect.phyfound fuel st A now = some false) :
    Connect.lookup fuel A now { st with heapLog := st.heapLog + 1 } =
      some ({ st with heapLog := st.heapLog + 1 }, none) := by
  unfold Connect.phyfound at h
  cases hl : Connect.lookup fuel A now { st with heapLog := st.heapLog + 1 } with
  | none => rw [hl] at h; cases h
  | some r =>
    rw [hl] at h
    unfold Connect.lookup at hl
    rcases lookup_result A now _ fuel 0 r (by norm_num)
      (fun j hj _ => absurd hj (Nat.not_lt_zero j)) hl with ⟨hr, _⟩ | ⟨i, p, _, _, _, _, _, hr⟩
    · rw [hr]
    · rw [hr] at h
      simp at h

/-- The call `Connect` returns `-1` when the lookup has found nothing and the
network connect fails. -/
theorem connect_fail_total (fuel : Nat) (st : XrdConnectionMgr) (A : XrdUrlInfo)
    (env : ConnectEnv) (hfind : Connect.phyfound fuel st A env.now = some false)
    (hnet : env.netOk = false) :
    Connect fuel st A env = some (-1, afterFail st) := by
  unfold Connect
  simp only
  rw [phyfound_false fuel st A env.now hfind]
  simp only [hnet, Bool.false_eq_true, if_false]
  rfl

/-- C13 (the code departs from the claim): `Connect` to an endpoint whose
network connect fails, on the empty manager, returns -1 by the `return -1` of
line 275 without deleting `logconn` (nor `phyconn`): afterwards one
`XrdLogConnection` and one `XrdPhyConnection` object are live, and no slot of
the registry holds them. -/
theorem C13_failed_connect_leaks :
    Connect 1 empty serverA (unreachable 0) = some (-1, ⟨[], [], 1, 1, 1⟩) ∧
    empty.heapLog = 0 ∧ empty.heapPhy = 0 := by
  decide

/-! ## C14: the frame of a successful Connect -/

theorem getElem?_set_touch (v : List (Option XrdPhyConnection)) (i : Nat)
    (p : XrdPhyConnection) (now : Int) (hi : v[i]? = some (some p)) (k : Nat) :
    (v[k]? = some none → (v.set i (some (p.Touch now)))[k]? = some none) ∧
    ∀ q : XrdPhyConnection, v[k]? = some (some q) →
      ∃ q' : XrdPhyConnection, (v.set i (some (p.Touch now)))[k]? = some (some q') ∧
        q'.addr = q.addr := by
  have hlt : i < v.length := by
    by_contra hc
    rw [List.getElem?_eq_none (Nat.le_of_not_lt hc)] at hi
    cases hi
  rw [List.getElem?_set]
  by_cases hik : i = k
  · subst hik
    rw [if_pos rfl, if_pos hlt]
    refine ⟨fun h => ?_, fun q h => ?_⟩
    · rw [hi] at h; cases h
    · rw [hi] at h
      cases h
      exact ⟨p.Touch now, rfl, rfl⟩
  · rw [if_neg hik]
    exact ⟨fun h => h, fun q h => ⟨q, h, rfl⟩⟩

/-- C14: every successful `Connect()` (one that reused a physical connection,
or whose network connect succeeded) appends exactly one logical connection at
the end of the logical sequence and leaves the earlier logical slots as they
were.  It appends exactly one physical connection when no reusable one was
found and none otherwise; a vacated physical slot stays vacated and an occupied
one keeps its connection (the same object).  The new logical connection is
bound to the reused or to the newly appended physical connection. -/
theorem C14_successful_connect_frame (fuel : Nat) (st : XrdConnectionMgr) (A : XrdUrlInfo)
    (env : ConnectEnv) (id : Int) (st' : XrdConnectionMgr)
    (h : Connect fuel st A env = some (id, st'))
    (hs : env.netOk = true ∨
      ∃ j, j < st.fPhyVec.length ∧ reusable A (slot st.fPhyVec j) = true) :
    ∃ lc : XrdLogConnection,
      st'.fLogVec = st.fLogVec ++ [some lc] ∧
      ((∃ (i : Nat) (p : XrdPhyConnection), st.fPhyVec[i]? = some (some p) ∧
          reusable A (some p) = true ∧ lc.fPhyConnection = p.addr ∧
          st'.fPhyVec = st.fPhyVec.set i (some (p.Touch env.now))) ∨
        ((∀ j, j < st.fPhyVec.length → reusable A (slot st.fPhyVec j) = false) ∧
          ∃ P : XrdPhyConnection, st'.fPhyVec = st.fPhyVec ++ [some P] ∧
            lc.fPhyConnection = P.addr)) ∧
      ∀ k : Nat,
        (st.fPhyVec[k]? = some none → st'.fPhyVec[k]? = some none) ∧
        ∀ q : XrdPhyConnection, st.fPhyVec[k]? = some (some q) →
          ∃ q' : XrdPhyConnection, st'.fPhyVec[k]? = some (some q') ∧ q'.addr = q.addr := by
  rcases connect_result fuel st A env id st' h with
    ⟨i, p, hi, hsl, hre, _, _, rfl⟩ | ⟨hno, _, _, rfl⟩ | ⟨hno, hnet, _, rfl⟩
  · have hget : st.fPhyVec[i]? = some (some p) := by
      rw [List.getElem?_eq_getElem hi, ← slot_eq_getElem _ _ hi, hsl]
    exact ⟨⟨p.addr⟩, rfl, Or.inl ⟨i, p, hget, hre, rfl, rfl⟩,
      fun k => getElem?_set_touch st.fPhyVec i p env.now hget k⟩
  · refine ⟨⟨st.nextAddr⟩, rfl, Or.inr ⟨hno, newPhy st A env, rfl, rfl⟩, fun k => ?_⟩
    have hk : ∀ x : Option XrdPhyConnection, st.fPhyVec[k]? = some x →
        (afterNew st A env).fPhyVec[k]? = some x := by
      intro x hx
      have hlt : k < st.fPhyVec.length := by
        by_contra hc
        rw [List.getElem?_eq_none (Nat.le_of_not_lt hc)] at hx
        cases hx
      simp only [afterNew]
      rw [List.getElem?_append_left hlt, hx]
    exact ⟨fun h0 => hk none h0, fun q hq => ⟨q, hk (some q) hq, rfl⟩⟩
  · exfalso
    rcases hs with hs | ⟨j, hj, hr⟩
    · rw [hnet] at hs; cases hs
    · rw [hno j hj] at hr; cases hr

/-- C14 at the second `Connect(serverA:1094)` on a fresh manager. -/
theorem C14_successful_connect_frame_witness :
    ∃ lc : XrdLogConnection,
      (crowded 2).fLogVec = (crowded 1).fLogVec ++ [some lc] ∧
      ((∃ (i : Nat) (p : XrdPhyConnection), (crowded 1).fPhyVec[i]? = some (some p) ∧
          reusable serverA (some p) = true ∧ lc.fPhyConnection = p.addr ∧
          (crowded 2).fPhyVec = (crowded 1).fPhyVec.set i (some (p.Touch (quiet 0 0).now))) ∨
        ((∀ j, j < (crowded 1).fPhyVec.length →
            reusable serverA (slot (crowded 1).fPhyVec j) = false) ∧
          ∃ P : XrdPhyConnection, (crowded 2).fPhyVec = (crowded 1).fPhyVec ++ [some P] ∧
            lc.fPhyConnection = P.addr)) ∧
      ∀ k : Nat,
        ((crowded 1).fPhyVec[k]? = some none → (crowded 2).fPhyVec[k]? = some none) ∧
        ∀ q : XrdPhyConnection, (crowded 1).fPhyVec[k]? = some (some q) →
          ∃ q' : XrdPhyConnection, (crowded 2).fPhyVec[k]? = some (some q') ∧
            q'.addr = q.addr :=
  C14_successful_connect_frame 1 (crowded 1) serverA (quiet 0 0) 1 (crowded 2) (by decide)
    (Or.inl rfl)

/-! ## Lemmas: Disconnect with a valid id -/

theorem disconnect_negative (st : XrdConnectionMgr) (id : Int) (force : Bool) (now : Int)
    (h : toShort id < 0) : Disconnect st id force now = .ok (.ignored, st) := by
  unfold Disconnect
  rw [if_pos h]

theorem crowded_disconnect_rejected (n : Nat) (h1 : 2147483648 ≤ n) (h2 : n < 4294967296)
    (force : Bool) (now : Int) :
    Disconnect (crowded n) 0 force now = .ok (.nonexistent, crowded n) := by
  unfold Disconnect
  have e0 : toShort 0 = 0 := by decide
  rw [e0]
  have ht : (0 : Int) < 0 ∨ (0 : Int) ≥ toInt ((crowded n).fLogVec.length : Int) := by
    rw [(crowded_lengths n).2]
    unfold toInt
    omega
  rw [if_neg (by decide), if_pos ht]

theorem orphaned_disconnect_faults (n : Nat) (h1 : 0 < n) (h2 : n < 2147483648)
    (force : Bool) (now : Int) :
    Disconnect (orphaned n) 0 force now = .error .danglingPointer := by
  obtain ⟨m, rfl⟩ : ∃ m, n = m + 1 := ⟨n - 1, by omega⟩
  unfold Disconnect
  have e0 : toShort 0 = 0 := by decide
  rw [e0]
  have hlen : (orphaned (m + 1)).fLogVec.length = m + 1 := by simp [orphaned]
  have ht : ¬ ((0 : Int) < 0 ∨ (0 : Int) ≥ toInt ((orphaned (m + 1)).fLogVec.length : Int)) := by
    rw [hlen, toInt_length _ h2]
    omega
  rw [if_neg (by decide), if_neg ht]
  have hs : slot (orphaned (m + 1)).fLogVec (0 : Int).toNat = some ⟨0⟩ := by
    simp [orphaned, slot, List.replicate_succ]
  rw [hs]
  rfl

theorem afterDisconnect_phy (st : XrdConnectionMgr) (id : Nat) (lc : XrdLogConnection)
    (force : Bool) (now : Int) (k : Nat) :
    (afterDisconnect st id lc force now).fPhyVec[k]? =
      (st.fPhyVec[k]?).map (touchSlot lc.fPhyConnection force now) := by
  simp [afterDisconnect, List.getElem?_map]

/-! ## Lemmas: vacated logical slots -/

theorem getElem?_append_none {α : Type} (v : List (Option α)) (x : Option α) (i : Nat)
    (h : v[i]? = some none) : (v ++ [x])[i]? = some none := by
  have hlt : i < v.length := by
    by_contra hc
    rw [List.getElem?_eq_none (Nat.le_of_not_lt hc)] at h
    cases h
  rw [List.getElem?_append_left hlt, h]

theorem getElem?_set_none {α : Type} (v : List (Option α)) (id i : Nat)
    (h : v[i]? = some none) : (v.set id none)[i]? = some none := by
  rw [List.getElem?_set]
  by_cases hi : id = i
  · subst hi
    have hlt : id < v.length := by
      by_contra hc
      rw [List.getElem?_eq_none (Nat.le_of_not_lt hc)] at h
      cases h
    rw [if_pos rfl, if_pos hlt]
  · rw [if_neg hi, h]

/-- What a `Connect` that has returned did to the logical sequence. -/
theorem connect_logs (fuel : Nat) (st : XrdConnectionMgr) (A : XrdUrlInfo) (env : ConnectEnv)
    (id : Int) (st' : XrdConnectionMgr) (h : Connect fuel st A env = some (id, st')) :
    st'.fLogVec = st.fLogVec ∨ ∃ lc : XrdLogConnection, st'.fLogVec = st.fLogVec ++ [some lc] := by
  rcases connect_result fuel st A env id st' h with
    ⟨i, p, _, _, _, _, _, rfl⟩ | ⟨_, _, _, rfl⟩ | ⟨_, _, _, rfl⟩
  · exact Or.inr ⟨⟨p.addr⟩, rfl⟩
  · exact Or.inr ⟨⟨st.nextAddr⟩, rfl⟩
  · exact Or.inl rfl

theorem step_vacated (st st' : XrdConnectionMgr) (i : Nat) (hs : Step st st')
    (hv : st.fLogVec[i]? = some none) : st'.fLogVec[i]? = some none := by
  cases hs with
  | connect fuel A env id h =>
    rcases connect_logs fuel st A env id st' h with he | ⟨lc, he⟩
    · rw [he]; exact hv
    · rw [he]; exact getElem?_append_none _ _ _ hv
  | disconnect id force now o h =>
    rcases disconnect_result st id force now o st' h with ⟨_, rfl⟩ | ⟨lc, _, _, _, _, _, rfl⟩
    · exact hv
    · exact getElem?_set_none _ _ _ hv
  | collect fuel now h =>
    obtain ⟨_, rfl⟩ := GarbageCollect_result fuel now st st' h
    exact hv

theorem steps_vacated (st st' : XrdConnectionMgr) (i : Nat) (hs : Steps st st')
    (hv : st.fLogVec[i]? = some none) : st'.fLogVec[i]? = some none := by
  induction hs with
  | refl => exact hv
  | tail _ hstep ih => exact step_vacated _ _ i hstep ih

/-! ## C18: the end-to-end scenario -/

/-- C18: on a fresh manager, with a network connect that succeeds,
`Connect(A)` returns 0 and `Connect(A)` again returns 1, bound to the same
physical connection, whose reference count is 2.  After `Disconnect(0, false)`
a `GarbageCollect()` leaves the physical connection in place, with reference
count 1.  After `Disconnect(1, false)` at time `t4`, a `GarbageCollect()` at a
time `t5` by which the TTL has elapsed (`t5 - t4 > ttl`) purges it. -/
theorem C18_end_to_end (A : XrdUrlInfo) (ttl t0 t1 t2 t3 t4 t5 : Int)
    (hexp : ttl < t5 - t4) :
    ∃ st1 st2 st3 st4 st5 st6 : XrdConnectionMgr, ∃ P : XrdPhyConnection,
      Connect 3 empty A (quiet t0 ttl) = some (0, st1) ∧
      Connect 3 st1 A (quiet t1 ttl) = some (1, st2) ∧
      st2.fPhyVec = [some P] ∧
      st2.fLogVec = [some ⟨P.addr⟩, some ⟨P.addr⟩] ∧
      GetPhyConnectionRefCount 3 st2 P.addr = some 2 ∧
      Disconnect st2 0 false t2 = .ok (.removed, st3) ∧
      GarbageCollect 3 t3 st3 = some st4 ∧
      derefPhy st4 P.addr ≠ none ∧
      GetPhyConnectionRefCount 3 st4 P.addr = some 1 ∧
      Disconnect st4 1 false t4 = .ok (.removed, st5) ∧
      GarbageCollect 3 t5 st5 = some st6 ∧
      st6.fPhyVec = [none] ∧ derefPhy st6 P.addr = none := by
  have hr : reusable A (some ⟨0, A, true, t0, ttl⟩) = true := by
    simp [reusable, XrdPhyConnection.IsValid, XrdPhyConnection.IsPort,
      XrdPhyConnection.IsAddress]
  have c1 : Connect 3 empty A (quiet t0 ttl) =
      some (0, ⟨[some ⟨0, A, true, t0, ttl⟩], [some ⟨0⟩], 1, 1, 1⟩) := by
    have h := connect_new_total 3 empty A (quiet t0 ttl) (by decide)
      (by intro j hj; simp [empty] at hj) rfl (by decide) (by intro h; cases h)
    rw [h]
    simp [afterNew, newPhy, empty, toShort, quiet]
  have c2 : Connect 3 ⟨[some ⟨0, A, true, t0, ttl⟩], [some ⟨0⟩], 1, 1, 1⟩ A (quiet t1 ttl) =
      some (1, ⟨[some ⟨0, A, true, t1, ttl⟩], [some ⟨0⟩, some ⟨0⟩], 1, 2, 1⟩) := by
    have h := connect_reuse_total 3 ⟨[some ⟨0, A, true, t0, ttl⟩], [some ⟨0⟩], 1, 1, 1⟩ A
      (quiet t1 ttl) 0 ⟨0, A, true, t0, ttl⟩ (by norm_num) (by simp) rfl hr
      (by intro j hj; omega) (by norm_num) (by intro h; cases h)
    rw [h]
    simp [afterReuse, toShort, XrdPhyConnection.Touch, quiet]
  have r2 : GetPhyConnectionRefCount 3
      ⟨[some ⟨0, A, true, t1, ttl⟩], [some ⟨0⟩, some ⟨0⟩], 1, 2, 1⟩ 0 = some 2 := by
    rw [refCount_total _ _ (by simp) 3 (by simp)]
    simp [boundCount, boundTo, toShort]
  have d3 : Disconnect ⟨[some ⟨0, A, true, t1, ttl⟩], [some ⟨0⟩, some ⟨0⟩], 1, 2, 1⟩ 0 false t2 =
      .ok (.removed, ⟨[some ⟨0, A, true, t2, ttl⟩], [none, some ⟨0⟩], 1, 1, 1⟩) := by
    have h := disconnect_total ⟨[some ⟨0, A, true, t1, ttl⟩], [some ⟨0⟩, some ⟨0⟩], 1, 2, 1⟩ 0
      ⟨0⟩ false t2 (by norm_num) (by simp) rfl (by simp [derefPhy])
    simp only [Nat.cast_zero] at h
    rw [h]
    simp [afterDisconnect, touchSlot, XrdPhyConnection.Touch]
  have g4 : GarbageCollect 3 t3 ⟨[some ⟨0, A, true, t2, ttl⟩], [none, some ⟨0⟩], 1, 1, 1⟩ =
      some ⟨[some ⟨0, A, true, t2, ttl⟩], [none, some ⟨0⟩], 1, 1, 1⟩ := by
    rw [GarbageCollect_total t3 _ (by simp) (by simp) 3 (by simp) (by simp)]
    simp [sweep, sweepSlot, purgeable, boundCount, boundTo, toShort]
  have r4 : GetPhyConnectionRefCount 3
      ⟨[some ⟨0, A, true, t2, ttl⟩], [none, some ⟨0⟩], 1, 1, 1⟩ 0 = some 1 := by
    rw [refCount_total _ _ (by simp) 3 (by simp)]
    simp [boundCount, boundTo, toShort]
  have d5 : Disconnect ⟨[some ⟨0, A, true, t2, ttl⟩], [none, some ⟨0⟩], 1, 1, 1⟩ 1 false t4 =
      .ok (.removed, ⟨[some ⟨0, A, true, t4, ttl⟩], [none, none], 1, 0, 1⟩) := by
    have h := disconnect_total ⟨[some ⟨0, A, true, t2, ttl⟩], [none, some ⟨0⟩], 1, 1, 1⟩ 1
      ⟨0⟩ false t4 (by norm_num) (by simp) rfl (by simp [derefPhy])
    simp only [Nat.cast_one] at h
    rw [h]
    simp [afterDisconnect, touchSlot, XrdPhyConnection.Touch]
  have g6 : GarbageCollect 3 t5 ⟨[some ⟨0, A, true, t4, ttl⟩], [none, none], 1, 0, 1⟩ =
      some ⟨[none], [none, none], 1, 0, 0⟩ := by
    rw [GarbageCollect_total t5 _ (by simp) (by simp) 3 (by simp) (by simp)]
    simp [sweep, sweepSlot, purgeable, boundCount, boundTo, toShort,
      XrdPhyConnection.ExpiredTTL, hexp]
  exact ⟨_, _, _, _, _, _, ⟨0, A, true, t1, ttl⟩, c1, c2, rfl, rfl, r2, d3, g4,
    by simp [derefPhy], r4, d5, g6, rfl, rfl⟩

/-- C18 for `serverA:1094` with TTL 100: connects at times 0 and 1,
disconnect at 2, sweep at 3, disconnect at 4, sweep at 105. -/
theorem C18_end_to_end_witness :
    ∃ st1 st2 st3 st4 st5 st6 : XrdConnectionMgr, ∃ P : XrdPhyConnection,
      Connect 3 empty serverA (quiet 0 100) = some (0, st1) ∧
      Connect 3 st1 serverA (quiet 1 100) = some (1, st2) ∧
      st2.fPhyVec = [some P] ∧
      st2.fLogVec = [some ⟨P.addr⟩, some ⟨P.addr⟩] ∧
      GetPhyConnectionRefCount 3 st2 P.addr = some 2 ∧
      Disconnect st2 0 false 2 = .ok (.removed, st3) ∧
      GarbageCollect 3 3 st3 = some st4 ∧
      derefPhy st4 P.addr ≠ none ∧
      GetPhyConnectionRefCount 3 st4 P.addr = some 1 ∧
      Disconnect st4 1 false 4 = .ok (.removed, st5) ∧
      GarbageCollect 3 105 st5 = some st6 ∧
      st6.fPhyVec = [none] ∧ derefPhy st6 P.addr = none :=
  C18_end_to_end serverA 100 0 1 2 3 4 105 (by decide)

/-! ## Lemmas: which physical connection Connect reuses -/

theorem reusable_iff (A : XrdUrlInfo) (p : XrdPhyConnection) :
    reusable A (some p) = true ↔
      p.IsValid = true ∧ p.IsPort A.Port = true ∧
        (p.IsAddress A.Host = true ∨ p.IsAddress A.HostAddr = true) := by
  simp [reusable, and_assoc]

theorem not_reusable_of_slots (A : XrdUrlInfo) (v : List (Option XrdPhyConnection)) (i : Nat)
    (h : ∀ (j : Nat) (q : XrdPhyConnection), j < i → v[j]? = some (some q) →
      ¬ (q.IsValid = true ∧ q.IsPort A.Port = true ∧
        (q.IsAddress A.Host = true ∨ q.IsAddress A.HostAddr = true))) :
    ∀ j, j < i → reusable A (slot v j) = false := by
  intro j hj
  cases hs : slot v j with
  | none => rfl
  | some q =>
    have hq : v[j]? = some (some q) := by
      rw [slot_eq_join] at hs
      cases hv : v[j]? with
      | none => rw [hv] at hs; cases hs
      | some x => rw [hv] at hs; simp at hs; rw [hs]
    have := h j q hj hq
    rw [← reusable_iff] at this
    simpa using this

theorem hidden_lookup (n : Nat) (hn : 65536 ≤ n) (fuel : Nat) (A : XrdUrlInfo) (now : Int)
    (hl : Nat) :
    Connect.lookup fuel A now { hidden n with heapLog := hl } = none := by
  cases h : Connect.lookup fuel A now { hidden n with heapLog := hl } with
  | none => rfl
  | some r =>
    exfalso
    unfold Connect.lookup at h
    have hslot : ∀ j, j < n →
        slot ({ hidden n with heapLog := hl } : XrdConnectionMgr).fPhyVec j = none := by
      intro j hj
      simp [hidden, slot, List.getD, List.getElem?_append_left, hj]
    rcases lookup_result A now _ fuel 0 r (by norm_num)
      (fun j hj _ => absurd hj (Nat.not_lt_zero j)) h with ⟨_, _⟩ | ⟨i, p, hi, _, hs, _, _, _⟩
    · -- the loop cannot have ended normally: every slot the counter reaches is
      -- vacated and the size is above every value of the counter
      have hlen : ({ hidden n with heapLog := hl } : XrdConnectionMgr).fPhyVec.length = n + 1 := by
        simp [hidden]
      have key : ∀ f k (s : XrdConnectionMgr × Option Nat), k < 65536 →
          s = ({ hidden n with heapLog := hl }, none) →
          forUShort (fun s : XrdConnectionMgr × Option Nat => s.1.fPhyVec.length)
            (Connect.lookupBody A now) f k s = none := by
        intro f
        induction f with
        | zero => intro k s _ _; rfl
        | succ f ih =>
          intro k s hk hs
          subst hs
          rw [forUShort, if_pos (by rw [hlen]; omega),
            lookupBody_skip A now k _ (by rw [hslot k (by omega)]; rfl)]
          exact ih _ _ (Nat.mod_lt _ (by norm_num)) rfl
      rw [key fuel 0 _ (by norm_num) rfl] at h
      cases h
    · rw [hslot i (by omega)] at hs
      cases hs

theorem hidden_connect (n : Nat) (hn : 65536 ≤ n) (fuel : Nat) (A : XrdUrlInfo)
    (env : ConnectEnv) : Connect fuel (hidden n) A env = none := by
  unfold Connect
  simp only
  rw [hidden_lookup n hn fuel A env.now]

theorem hidden_slot (n : Nat) : (hidden n).fPhyVec[n]? = some (some phyA) := by
  simp [hidden, List.getElem?_append_right]

/-! ## C20: a sweep between the two locked blocks of Connect -/

theorem reachable_idle : Reachable idle := by
  have h1 : Connect 1 empty serverA (quiet 0 100) = some (0, single) := by decide
  have h2 : Disconnect single 0 false 0 = .ok (.removed, idle) := rfl
  exact Reachable.step (Reachable.step Reachable.init
    (Step.connect 1 serverA (quiet 0 100) 0 h1)) (Step.disconnect 0 false 0 _ h2)

/-- C20 (the code departs from the claim): on the reachable manager `idle`, the
lookup of `Connect(serverA:1094)` at time 10 finds the physical connection,
touches it and binds `logconn` to it; a sweep at time 111, after the TTL of
100 has elapsed and while `logconn` is not yet in `fLogVec`, counts no
reference and destroys the connection; the second locked block then appends
`logconn`, bound to the destroyed connection. -/
theorem C20_sweep_between_lookup_and_append :
    Reachable idle ∧
    Connect.lookup 3 serverA 10 { idle with heapLog := idle.heapLog + 1 } =
      some (⟨[some ⟨0, serverA, true, 10, 100⟩], [none], 1, 1, 1⟩, some 0) ∧
    GarbageCollect 3 111 ⟨[some ⟨0, serverA, true, 10, 100⟩], [none], 1, 1, 1⟩ =
      some ⟨[none], [none], 1, 1, 0⟩ ∧
    Connect.interleaved 3 idle serverA (quiet 10 100) 111 =
      some (1, ⟨[none], [none, some ⟨0⟩], 1, 1, 0⟩) ∧
    derefPhy ⟨[none], [none, some ⟨0⟩], 1, 1, 0⟩ 0 = none := by
  refine ⟨reachable_idle, ?_, ?_, ?_, rfl⟩ <;> decide

/-! ## Lemmas: the destructor -/

/-- The 32-bit counterpart of `forUShort_total`. -/
theorem forUInt_total {σ : Type} (size : σ → Nat) (body : Nat → σ → Option (σ × Bool))
    (n : Nat) (hn : n < 4294967296) (Inv : Nat → σ → Prop)
    (hsize : ∀ i s, Inv i s → size s = n)
    (hstep : ∀ i s, i < n → Inv i s → ∃ s', body i s = some (s', false) ∧ Inv (i + 1) s') :
    ∀ k i s, i + k = n → Inv i s →
      ∃ s', Inv n s' ∧ ∀ fuel, k < fuel → forUInt size body fuel i s = some s' := by
  intro k
  induction k with
  | zero =>
    intro i s hik hI
    have hin : i = n := by omega
    subst hin
    refine ⟨s, hI, ?_⟩
    intro fuel hf
    obtain ⟨f, rfl⟩ : ∃ f, fuel = f + 1 := ⟨fuel - 1, by omega⟩
    simp [forUInt, hsize i s hI]
  | succ k ih =>
    intro i s hik hI
    have hin : i < n := by omega
    obtain ⟨s1, hb, hI1⟩ := hstep i s hin hI
    obtain ⟨s', hI', hrun⟩ := ih (i + 1) s1 (by omega) hI1
    refine ⟨s', hI', ?_⟩
    intro fuel hf
    obtain ⟨f, rfl⟩ : ∃ f, fuel = f + 1 := ⟨fuel - 1, by omega⟩
    have hmod : (i + 1) % 4294967296 = i + 1 := Nat.mod_eq_of_lt (by omega)
    simp [forUInt, hsize i s hI, hin, hb, hmod, hrun f (by omega)]

theorem derefPhy_ne_none_of_slot (st : XrdConnectionMgr) (a k : Nat) (p : XrdPhyConnection)
    (hk : st.fPhyVec[k]? = some (some p)) (ha : p.addr = a) : derefPhy st a ≠ none := by
  intro h
  exact (derefPhy_eq_none_iff st a).mp h k p hk ha

theorem exists_slot_of_derefPhy (st : XrdConnectionMgr) (a : Nat) (h : derefPhy st a ≠ none) :
    ∃ (k : Nat) (p : XrdPhyConnection), st.fPhyVec[k]? = some (some p) ∧ p.addr = a := by
  by_contra hc
  apply h
  rw [derefPhy_eq_none_iff]
  intro k p hk ha
  exact hc ⟨k, p, hk, ha⟩

theorem closeInv_zero (clock : Nat → Int) (st : XrdConnectionMgr) :
    closeInv clock st 0 (.ok st) := by
  refine ⟨st, rfl, rfl, fun j => by simp, rfl, fun k => ⟨fun h => h, fun p hp => ?_⟩⟩
  refine ⟨p.fLastUseTimestamp, hp, fun _ => rfl, ?_⟩
  rintro ⟨j, lc, hj, _⟩
  exact absurd hj (Nat.not_lt_zero j)

theorem closeInv_step (clock : Nat → Int) (st : XrdConnectionMgr)
    (hl : st.fLogVec.length ≤ 32768)
    (hlive : ∀ (i : Nat) (lc : XrdLogConnection), st.fLogVec[i]? = some (some lc) →
      derefPhy st lc.fPhyConnection ≠ none)
    (i : Nat) (s : Except Fault XrdConnectionMgr) (hi : i < st.fLogVec.length)
    (hI : closeInv clock st i s) :
    ∃ s', Destroy.body clock i s = some (s', false) ∧ closeInv clock st (i + 1) s' := by
  obtain ⟨m, rfl, hlen, hlogs, hplen, hphys⟩ := hI
  have hmi : m.fLogVec[i]? = st.fLogVec[i]? := by
    rw [hlogs i, if_neg (Nat.lt_irrefl i)]
  cases hx : st.fLogVec[i] with
  | none =>
    have hsti : st.fLogVec[i]? = some none := by rw [List.getElem?_eq_getElem hi, hx]
    have hslot : slot m.fLogVec i = none := slot_of_getElem? _ _ _ (hmi.trans hsti)
    refine ⟨.ok m, by simp [Destroy.body, hslot], m, rfl, hlen, ?_, hplen, ?_⟩
    · intro j
      by_cases hji : j = i
      · subst hji
        rw [hmi, hsti]
        simp
      · rw [hlogs j]
        by_cases hlt : j < i
        · rw [if_pos hlt, if_pos (by omega)]
        · rw [if_neg hlt, if_neg (by omega)]
    · intro k
      refine ⟨(hphys k).1, fun p hp => ?_⟩
      obtain ⟨t, ht, h1, h2⟩ := (hphys k).2 p hp
      refine ⟨t, ht, fun hno => h1 (fun j lc hj => hno j lc (by omega)), ?_⟩
      rintro ⟨j, lc, hj, hjl, hb⟩
      have hji : j ≠ i := by
        intro e
        subst e
        rw [hsti] at hjl
        cases hjl
      obtain ⟨j', lc', hj', hjl', hb', ht'⟩ := h2 ⟨j, lc, by omega, hjl, hb⟩
      exact ⟨j', lc', by omega, hjl', hb', ht'⟩
  | some lc =>
    have hsti : st.fLogVec[i]? = some (some lc) := by rw [List.getElem?_eq_getElem hi, hx]
    have hslot : slot m.fLogVec i = some lc := slot_of_getElem? _ _ _ (hmi.trans hsti)
    have hlivem : derefPhy m lc.fPhyConnection ≠ none := by
      obtain ⟨k, p, hk, ha⟩ := exists_slot_of_derefPhy st _ (hlive i lc hsti)
      obtain ⟨t, ht, _, _⟩ := (hphys k).2 p hk
      exact derefPhy_ne_none_of_slot m _ k _ ht ha
    have hd := disconnect_total m i lc false (clock i) (by omega) (by omega)
      (hmi.trans hsti) hlivem
    refine ⟨.ok (afterDisconnect m i lc false (clock i)), ?_,
      afterDisconnect m i lc false (clock i), rfl, by simp [afterDisconnect, hlen], ?_,
      by simp [afterDisconnect, hplen], ?_⟩
    · simp only [Destroy.body, hslot, hd]
    · intro j
      simp only [afterDisconnect, List.getElem?_set]
      by_cases hji : i = j
      · subst hji
        rw [if_pos rfl, if_pos (by omega), if_pos (by omega), hsti]
        rfl
      · rw [if_neg hji, hlogs j]
        by_cases hlt : j < i
        · rw [if_pos hlt, if_pos (by omega)]
        · rw [if_neg hlt, if_neg (by omega)]
    · intro k
      rw [afterDisconnect_phy]
      refine ⟨fun h0 => by rw [(hphys k).1 h0]; rfl, fun p hp => ?_⟩
      obtain ⟨t, ht, h1, h2⟩ := (hphys k).2 p hp
      rw [ht]
      simp only [Option.map_some', touchSlot]
      by_cases ha : p.addr = lc.fPhyConnection
      · refine ⟨clock i, by simp [ha, XrdPhyConnection.Touch], fun hno => ?_, fun _ => ?_⟩
        · exact absurd ha.symm (hno i lc (by omega) hsti)
        · exact ⟨i, lc, by omega, hsti, ha.symm, rfl⟩
      · refine ⟨t, by simp [ha], fun hno => h1 (fun j lc' hj => hno j lc' (by omega)), ?_⟩
        rintro ⟨j, lc', hj, hjl, hb⟩
        have hji : j ≠ i := by
          intro e
          subst e
          rw [hsti] at hjl
          cases hjl
          exact ha hb.symm
        obtain ⟨j', lc'', hj', hjl', hb', ht'⟩ := h2 ⟨j, lc', by omega, hjl, hb⟩
        exact ⟨j', lc'', by omega, hjl', hb', ht'⟩

/-! ## Lemmas: the reference count -/

theorem boundCount_singleton (lc : XrdLogConnection) (P : Nat) :
    boundCount [some lc] P = if lc.fPhyConnection = P then 1 else 0 := by
  by_cases h : lc.fPhyConnection = P <;> simp [boundCount, boundTo, h]

theorem boundCount_le_length (v : List (Option XrdLogConnection)) (P : Nat) :
    boundCount v P ≤ v.length :=
  List.countP_le_length _

theorem boundCount_vacate (v : List (Option XrdLogConnection)) (id : Nat)
    (lc : XrdLogConnection) (P : Nat) (h : v[id]? = some (some lc)) :
    boundCount (v.set id none) P + (if lc.fPhyConnection = P then 1 else 0) =
      boundCount v P := by
  have hlt : id < v.length := by
    by_contra hc
    rw [List.getElem?_eq_none (Nat.le_of_not_lt hc)] at h
    cases h
  have hget : v[id] = some lc := by
    rw [List.getElem?_eq_getElem hlt] at h
    exact Option.some.inj h
  have hle := List.boole_getElem_le_countP (boundTo P) v id hlt
  unfold boundCount
  rw [List.countP_set _ _ _ _ hlt, hget]
  rw [hget] at hle
  have hnone : boundTo P (none : Option XrdLogConnection) = false := rfl
  rw [hnone]
  by_cases hb : lc.fPhyConnection = P
  · have hs : boundTo P (some lc) = true := by simp [boundTo, hb]
    rw [hs] at hle ⊢
    simp only [if_true, if_pos hb] at hle ⊢
    simp only [Bool.false_eq_true, if_false]
    omega
  · have hs : boundTo P (some lc) = false := by simp [boundTo, hb]
    rw [hs]
    simp [hb]

theorem refCount_small (st : XrdConnectionMgr) (P : Nat) (hl : st.fLogVec.length < 65536)
    (hb : boundCount st.fLogVec P < 32768) (fuel : Nat) (hf : 65536 ≤ fuel) :
    GetPhyConnectionRefCount fuel st P = some ((boundCount st.fLogVec P : Nat) : Int) := by
  rw [refCount_total st P hl fuel (by omega), toShort_small _ hb]

/-! ## C22, C23: the id a Connect returns -/

theorem step_length_mono (st st' : XrdConnectionMgr) (hs : Step st st') :
    st.fLogVec.length ≤ st'.fLogVec.length := by
  cases hs with
  | connect fuel A env id h =>
    rcases connect_logs fuel st A env id st' h with he | ⟨lc, he⟩
    · rw [he]
    · rw [he]; simp
  | disconnect id force now o h =>
    rcases disconnect_result st id force now o st' h with ⟨_, rfl⟩ | ⟨lc, _, _, _, _, _, rfl⟩
    · exact le_refl _
    · simp [afterDisconnect]
  | collect fuel now h =>
    obtain ⟨_, rfl⟩ := GarbageCollect_result fuel now st st' h
    exact le_refl _

theorem steps_length_mono (st st' : XrdConnectionMgr) (hs : Steps st st') :
    st.fLogVec.length ≤ st'.fLogVec.length := by
  induction hs with
  | refl => exact le_refl _
  | tail _ hstep ih => exact le_trans ih (step_length_mono _ _ hstep)

/-- A successful `Connect` on a manager with fewer than 32768 logical slots
appends one logical connection and returns the position it was stored at. -/
theorem connect_success_id (fuel : Nat) (st : XrdConnectionMgr) (A : XrdUrlInfo)
    (env : ConnectEnv) (id : Int) (st' : XrdConnectionMgr)
    (h : Connect fuel st A env = some (id, st'))
    (hs : env.netOk = true ∨
      ∃ j, j < st.fPhyVec.length ∧ reusable A (slot st.fPhyVec j) = true)
    (hl : st.fLogVec.length < 32768) :
    id = st.fLogVec.length ∧ ∃ lc : XrdLogConnection, st'.fLogVec = st.fLogVec ++ [some lc] := by
  rcases connect_result fuel st A env id st' h with
    ⟨i, p, _, _, _, _, hid, rfl⟩ | ⟨_, _, hid, rfl⟩ | ⟨hno, hnet, _, rfl⟩
  · exact ⟨by rw [hid, toShort_small _ hl], ⟨p.addr⟩, rfl⟩
  · exact ⟨by rw [hid, toShort_small _ hl], ⟨st.nextAddr⟩, rfl⟩
  · exfalso
    rcases hs with hs | ⟨j, hj, hr⟩
    · rw [hnet] at hs; cases hs
    · rw [hno j hj] at hr; cases hr

/-- C22: for every successful `Connect` on a manager whose logical sequence has
fewer than 32768 slots, the returned id is the length the logical sequence had
before the call, slot `id` holds the newly created logical connection and
`GetConnection(id)` returns it; a successful `Connect` made after any further
calls (on a manager that still has fewer than 32768 logical slots) returns a
strictly larger id, so no id is handed out twice. -/
theorem C22_id_is_position (fuel : Nat) (st : XrdConnectionMgr) (A : XrdUrlInfo)
    (env : ConnectEnv) (id : Int) (st' : XrdConnectionMgr)
    (h : Connect fuel st A env = some (id, st'))
    (hs : env.netOk = true ∨
      ∃ j, j < st.fPhyVec.length ∧ reusable A (slot st.fPhyVec j) = true)
    (hl : st.fLogVec.length < 32768) :
    id = st.fLogVec.length ∧
    (∃ lc : XrdLogConnection, st'.fLogVec = st.fLogVec ++ [some lc] ∧
      st'.fLogVec[st.fLogVec.length]? = some (some lc) ∧
      GetConnection st' id = .ok (some lc)) ∧
    ∀ (st2 st3 : XrdConnectionMgr) (fuel2 : Nat) (A2 : XrdUrlInfo) (env2 : ConnectEnv)
      (id2 : Int), Steps st' st2 → st2.fLogVec.length < 32768 →
      Connect fuel2 st2 A2 env2 = some (id2, st3) →
      (env2.netOk = true ∨
        ∃ j, j < st2.fPhyVec.length ∧ reusable A2 (slot st2.fPhyVec j) = true) →
      id < id2 := by
  obtain ⟨hid, lc, hlog⟩ := connect_success_id fuel st A env id st' h hs hl
  refine ⟨hid, ⟨lc, hlog, ?_, ?_⟩, ?_⟩
  · rw [hlog]; simp
  · unfold GetConnection
    have hc : 0 ≤ id ∧ id < (st'.fLogVec.length : Int) := by
      rw [hid, hlog]
      simp
    rw [if_pos hc, hid, hlog]
    simp [slot]
  · intro st2 st3 fuel2 A2 env2 id2 hsteps hl2 h2 hs2
    obtain ⟨hid2, _⟩ := connect_success_id fuel2 st2 A2 env2 id2 st3 h2 hs2 hl2
    have hmono := steps_length_mono st' st2 hsteps
    rw [hlog] at hmono
    simp only [List.length_append, List.length_singleton] at hmono
    rw [hid, hid2]
    exact_mod_cast hmono

/-- C22 at the second `Connect(serverA:1094)` on a fresh manager. -/
theorem C22_id_is_position_witness :
    (1 : Int) = (crowded 1).fLogVec.length ∧
    (∃ lc : XrdLogConnection, (crowded 2).fLogVec = (crowded 1).fLogVec ++ [some lc] ∧
      (crowded 2).fLogVec[(crowded 1).fLogVec.length]? = some (some lc) ∧
      GetConnection (crowded 2) 1 = .ok (some lc)) ∧
    ∀ (st2 st3 : XrdConnectionMgr) (fuel2 : Nat) (A2 : XrdUrlInfo) (env2 : ConnectEnv)
      (id2 : Int), Steps (crowded 2) st2 → st2.fLogVec.length < 32768 →
      Connect fuel2 st2 A2 env2 = some (id2, st3) →
      (env2.netOk = true ∨
        ∃ j, j < st2.fPhyVec.length ∧ reusable A2 (slot st2.fPhyVec j) = true) →
      (1 : Int) < id2 :=
  C22_id_is_position 1 (crowded 1) serverA (quiet 0 0) 1 (crowded 2) (by decide)
    (Or.inl rfl) (by decide)

/-- C23, as amended: in a registry with fewer than 32768 logical slots, a
`Connect` returns a negative value if and only if no reusable physical
connection was found and the network connect failed, and that value is -1;
every successful `Connect` returns a non-negative id, the length the logical
sequence had before the call. -/
theorem C23_negative_iff_failed (fuel : Nat) (st : XrdConnectionMgr) (A : XrdUrlInfo)
    (env : ConnectEnv) (id : Int) (st' : XrdConnectionMgr)
    (h : Connect fuel st A env = some (id, st'))
    (hl : st.fLogVec.length < 32768) :
    (id < 0 ↔ ((∀ j, j < st.fPhyVec.length → reusable A (slot st.fPhyVec j) = false) ∧
      env.netOk = false)) ∧
    (id < 0 → id = -1) ∧
    ((env.netOk = true ∨
        ∃ j, j < st.fPhyVec.length ∧ reusable A (slot st.fPhyVec j) = true) →
      0 ≤ id ∧ id = st.fLogVec.length) := by
  rcases connect_result fuel st A env id st' h with
    ⟨i, p, hi, hsl, hre, _, hid, _⟩ | ⟨_, hnet, hid, _⟩ | ⟨hno, hnet, hid, _⟩
  · rw [toShort_small _ hl] at hid
    have hpos : (0 : Int) ≤ id := by rw [hid]; exact Int.ofNat_nonneg _
    refine ⟨⟨fun hneg => absurd hneg (not_lt.mpr hpos), fun hf => ?_⟩,
      fun hneg => absurd hneg (not_lt.mpr hpos), fun _ => ⟨hpos, hid⟩⟩
    have := hf.1 i hi
    rw [hsl, hre] at this
    cases this
  · rw [toShort_small _ hl] at hid
    have hpos : (0 : Int) ≤ id := by rw [hid]; exact Int.ofNat_nonneg _
    refine ⟨⟨fun hneg => absurd hneg (not_lt.mpr hpos), fun hf => ?_⟩,
      fun hneg => absurd hneg (not_lt.mpr hpos), fun _ => ⟨hpos, hid⟩⟩
    rw [hnet] at hf
    cases hf.2
  · refine ⟨⟨fun _ => ⟨hno, hnet⟩, fun _ => by rw [hid]; decide⟩, fun _ => hid, fun hs => ?_⟩
    exfalso
    rcases hs with hs | ⟨j, hj, hr⟩
    · rw [hnet] at hs; cases hs
    · rw [hno j hj] at hr; cases hr

/-- C23 at the first `Connect(serverA:1094)` on a fresh manager. -/
theorem C23_negative_iff_failed_witness :
    ((0 : Int) < 0 ↔ ((∀ j, j < empty.fPhyVec.length →
        reusable serverA (slot empty.fPhyVec j) = false) ∧ (quiet 0 0).netOk = false)) ∧
    ((0 : Int) < 0 → (0 : Int) = -1) ∧
    (((quiet 0 0).netOk = true ∨
        ∃ j, j < empty.fPhyVec.length ∧ reusable serverA (slot empty.fPhyVec j) = true) →
      (0 : Int) ≤ 0 ∧ (0 : Int) = empty.fLogVec.length) :=
  C23_negative_iff_failed 1 empty serverA (quiet 0 0) 0 (crowded 1) (by decide) (by decide)

/-- C23 fails as stated: with 32768 logical slots in the registry a `Connect`
that reuses the physical connection `phyA` succeeds (it appends the logical
connection) and returns -32768, and with 65535 logical slots it succeeds and
returns -1, the value of a failed connect. -/
theorem C23_counterexample :
    (crowded 32768).fLogVec.length = 32768 ∧
    reusable serverA (slot (crowded 32768).fPhyVec 0) = true ∧
    Connect 1 (crowded 32768) serverA (quiet 0 0) = some (-32768, crowded 32769) ∧
    (crowded 32769).fLogVec.length = 32769 ∧
    (crowded 65535).fLogVec.length = 65535 ∧
    Connect 1 (crowded 65535) serverA (quiet 0 0) = some (-1, crowded 65536) ∧
    (crowded 65536).fLogVec.length = 65536 := by
  have e1 : toShort ((32768 : Nat) : Int) = -32768 := by decide
  have e2 : toShort ((65535 : Nat) : Int) = -1 := by decide
  have h1 := crowded_connect 32768
  have h2 := crowded_connect 65535
  rw [e1] at h1
  rw [e2] at h2
  exact ⟨(crowded_lengths _).2, rfl, h1, (crowded_lengths _).2, (crowded_lengths _).2, h2,
    (crowded_lengths _).2⟩

/-! ## C24: termination of the loops with a 16-bit counter -/

/-- C24, as amended: on a registry with fewer than 65536 slots in each
sequence, `GarbageCollect`, `GetPhyConnectionRefCount` and
`ProcessUnsolicitedMsg` return. -/
theorem C24_loops_terminate (st : XrdConnectionMgr) (hp : st.fPhyVec.length < 65536)
    (hl : st.fLogVec.length < 65536) (fuel : Nat) (hf : 65536 ≤ fuel) :
    (∀ now, ∃ st', GarbageCollect fuel now st = some st') ∧
    (∀ P, ∃ r, GetPhyConnectionRefCount fuel st P = some r) ∧
    (∀ P m, ∃ r, ProcessUnsolicitedMsg fuel st P m = some r) :=
  ⟨fun now => ⟨_, GarbageCollect_total now st hp hl fuel (by omega) (by omega)⟩,
    fun P => ⟨_, refCount_total st P hl fuel (by omega)⟩,
    fun P m => ⟨_, processUnsolicitedMsg_total st P m hl fuel (by omega)⟩⟩

/-- C24 on the manager with one logical and one physical connection. -/
theorem C24_loops_terminate_witness :
    (∀ now, ∃ st', GarbageCollect 65536 now single = some st') ∧
    (∀ P, ∃ r, GetPhyConnectionRefCount 65536 single P = some r) ∧
    (∀ P m, ∃ r, ProcessUnsolicitedMsg 65536 single P m = some r) :=
  C24_loops_terminate single (by decide) (by decide) 65536 (le_refl _)

/-- C24 fails as stated: over 65536 physical slots `GarbageCollect` never
returns, and over 65536 logical slots neither `GetPhyConnectionRefCount` nor
`ProcessUnsolicitedMsg` returns, whatever the number of steps allowed: the
16-bit counter wraps to 0 before it reaches the size. -/
theorem C24_counterexample :
    (∀ fuel now, GarbageCollect fuel now (vacatedPhys 65536) = none) ∧
    (∀ fuel P, GetPhyConnectionRefCount fuel (vacatedLogs 65536) P = none) ∧
    (∀ fuel P m, ProcessUnsolicitedMsg fuel (vacatedLogs 65536) P m = none) := by
  refine ⟨fun fuel now => vacatedPhys_collect 65536 (by norm_num) fuel now, ?_, ?_⟩
  · intro fuel P
    have h : ∀ n, 65536 ≤ n → GetPhyConnectionRefCount fuel (vacatedLogs n) P = none :=
      fun n hn => refCount_diverges _ _ (by simpa [vacatedLogs] using hn) fuel
    exact h 65536 (le_refl _)
  · intro fuel P m
    have h : ∀ n, 65536 ≤ n → ProcessUnsolicitedMsg fuel (vacatedLogs n) P m = none :=
      fun n hn => processUnsolicitedMsg_diverges _ _ _ (by simpa [vacatedLogs] using hn) fuel
    exact h 65536 (le_refl _)

/-! ## States reached by many calls -/

theorem slot_beyond {α : Type} (v : List (Option α)) (j : Nat) (h : v.length ≤ j) :
    slot v j = none := by
  rw [slot_eq_join, List.getElem?_eq_none h]
  rfl

/-- With 65536 or more physical slots, none of them reusable, the lookup loop
of `Connect` never ends: the call does not return. -/
theorem connect_diverges (fuel : Nat) (st : XrdConnectionMgr) (A : XrdUrlInfo)
    (env : ConnectEnv)
    (hno : ∀ j, j < st.fPhyVec.length → reusable A (slot st.fPhyVec j) = false)
    (hlen : 65536 ≤ st.fPhyVec.length) : Connect fuel st A env = none := by
  have hall : ∀ j, reusable A (slot st.fPhyVec j) = false := by
    intro j
    by_cases hj : j < st.fPhyVec.length
    · exact hno j hj
    · rw [slot_beyond _ _ (Nat.le_of_not_lt hj)]
      rfl
  have hl : Connect.lookup fuel A env.now { st with heapLog := st.heapLog + 1 } = none := by
    unfold Connect.lookup
    exact forUShort_diverges
      (fun s : XrdConnectionMgr × Option Nat => s = ({ st with heapLog := st.heapLog + 1 }, none))
      (fun s hs => by rw [hs]; exact hlen)
      (fun i s s' b hs hb => by
        subst hs
        rw [lookupBody_skip A env.now i _ (hall i)] at hb
        simp only [Option.some.injEq, Prod.mk.injEq] at hb
        exact ⟨hb.2.symm, hb.1.symm⟩)
      fuel 0 _ (by norm_num) rfl
  unfold Connect
  simp only
  rw [hl]

theorem step_addr_lt (st st' : XrdConnectionMgr) (hs : Step st st')
    (ih : ∀ (k : Nat) (p : XrdPhyConnection), st.fPhyVec[k]? = some (some p) →
      p.addr < st.nextAddr) :
    ∀ (k : Nat) (p : XrdPhyConnection), st'.fPhyVec[k]? = some (some p) →
      p.addr < st'.nextAddr := by
  cases hs with
  | connect fuel A env id hc =>
    rcases connect_result fuel st A env id _ hc with
      ⟨i, p, hi, hp, _, _, _, rfl⟩ | ⟨_, _, _, rfl⟩ | ⟨_, _, _, rfl⟩
    · intro k q hk
      simp only [afterReuse] at hk ⊢
      by_cases hki : i = k
      · subst hki
        rw [List.getElem?_set_self hi] at hk
        have hq : q = p.Touch env.now := by simpa using hk.symm
        have hpi : st.fPhyVec[i]? = some (some p) := by
          rw [List.getElem?_eq_getElem hi, ← slot_eq_getElem _ _ hi, hp]
        rw [hq]
        exact ih i p hpi
      · rw [List.getElem?_set_ne hki] at hk
        exact ih k q hk
    · intro k q hk
      simp only [afterNew] at hk ⊢
      rcases Nat.lt_or_ge k st.fPhyVec.length with hlt | hge
      · rw [List.getElem?_append_left hlt] at hk
        exact Nat.lt_succ_of_lt (ih k q hk)
      · rw [List.getElem?_append_right hge] at hk
        cases hk0 : k - st.fPhyVec.length with
        | zero =>
          rw [hk0] at hk
          have hq : q = newPhy st A env := by simpa using hk.symm
          rw [hq]
          simp [newPhy]
        | succ j =>
          rw [hk0] at hk
          simp at hk
    · intro k q hk
      simp only [afterFail] at hk ⊢
      exact Nat.lt_succ_of_lt (ih k q hk)
  | disconnect id force now o hd =>
    rcases disconnect_result st id force now o _ hd with ⟨_, rfl⟩ | ⟨lc, _, _, _, _, _, rfl⟩
    · exact ih
    · intro k q hk
      simp only [afterDisconnect, List.getElem?_map] at hk ⊢
      cases hv : st.fPhyVec[k]? with
      | none => rw [hv] at hk; simp at hk
      | some s =>
        rw [hv] at hk
        cases s with
        | none => simp [touchSlot] at hk
        | some p =>
          have hlt := ih k p hv
          simp only [Option.map_some', touchSlot, Option.some.injEq] at hk
          split at hk
          · have hq : q.addr = p.addr := by
              rw [← Option.some.inj hk]
              cases force <;> rfl
            rw [hq]
            exact hlt
          · have hq : q = p := by simpa using hk.symm
            rw [hq]
            exact hlt
  | collect fuel now hg =>
    obtain ⟨_, rfl⟩ := GarbageCollect_result fuel now st _ hg
    intro k q hk
    simp only [sweep, List.getElem?_map] at hk ⊢
    cases hv : st.fPhyVec[k]? with
    | none => rw [hv] at hk; simp at hk
    | some s =>
      rw [hv] at hk
      simp only [Option.map_some', sweepSlot, Option.some.injEq] at hk
      split at hk
      · cases hk
      · rw [hk] at hv
        exact ih k q hv

/-- In every manager a sequence of calls can produce, the physical connections
held are at addresses below the next one the allocator hands out. -/
theorem reachable_addr_lt (st : XrdConnectionMgr) (h : Reachable st) :
    ∀ (k : Nat) (p : XrdPhyConnection), st.fPhyVec[k]? = some (some p) →
      p.addr < st.nextAddr := by
  induction h with
  | init =>
    intro k p hk
    simp [empty] at hk
  | step _ hs ih => exact step_addr_lt _ _ hs ih

/-- In every manager a sequence of calls can produce, the address `new` hands
out next is not the address of a physical connection the manager holds. -/
theorem reachable_new_fresh (st : XrdConnectionMgr) (h : Reachable st) :
    derefPhy st st.nextAddr = none := by
  rw [derefPhy_eq_none_iff]
  intro k p hk e
  have := reachable_addr_lt st h k p hk
  omega

theorem reachable_single : Reachable single := by
  have h1 : Connect 1 empty serverA (quiet 0 100) = some (0, single) := by decide
  exact Reachable.step Reachable.init (Step.connect 1 serverA (quiet 0 100) 0 h1)

theorem twin_lengths (a b : Nat) :
    (twin a b).fPhyVec.length = 2 ∧ (twin a b).fLogVec.length = a + b := by
  simp [twin]

theorem twin_boundCount (a b : Nat) :
    boundCount (twin a b).fLogVec phyA.addr = a ∧ boundCount (twin a b).fLogVec phyB.addr = b := by
  simp [twin, boundCount, List.countP_append, List.countP_replicate, boundTo, phyA, phyB]

theorem twin_last (a b : Nat) : (twin a (b + 1)).fLogVec[a + b]? = some (some ⟨phyB.addr⟩) := by
  simp only [twin]
  rw [List.getElem?_append_right (by simp)]
  simp [List.getElem?_replicate, phyB]

theorem crowded_connectB (n : Nat) :
    Connect 2 (crowded n) serverB (quiet 0 0) = some (toShort n, twin n 1) := by
  have h := connect_new_total 2 (crowded n) serverB (quiet 0 0) (by simp [crowded])
    (by
      intro j hj
      have hj0 : j = 0 := by simpa [crowded] using hj
      subst hj0
      simp only [crowded, slot, List.getD_cons_zero]
      decide)
    rfl (by simp [crowded]) (by intro h; cases h)
  rw [h, (crowded_lengths n).2]
  simp [afterNew, crowded, twin, newPhy, phyB, quiet]

theorem twin_connect (a b : Nat) :
    Connect 2 (twin a b) serverB (quiet 0 0) =
      some (toShort ((a + b : Nat) : Int), twin a (b + 1)) := by
  have h := connect_reuse_total 2 (twin a b) serverB (quiet 0 0) 1 phyB (by norm_num)
    (by simp [twin]) (by simp [twin, slot]) (by decide)
    (by
      intro j hj
      have hj0 : j = 0 := by omega
      subst hj0
      simp only [twin, slot, List.getD_cons_zero]
      decide)
    (by norm_num) (by intro h; cases h)
  rw [h, (twin_lengths a b).2]
  simp [afterReuse, twin, List.replicate_succ', phyB, XrdPhyConnection.Touch, quiet,
    Nat.add_assoc]

theorem reachable_twin (a b : Nat) : Reachable (twin (a + 1) (b + 1)) := by
  induction b with
  | zero =>
    exact Reachable.step (reachable_crowded a)
      (Step.connect 2 serverB (quiet 0 0) _ (crowded_connectB (a + 1)))
  | succ b ih =>
    exact Reachable.step ih (Step.connect 2 serverB (quiet 0 0) _ (twin_connect (a + 1) (b + 1)))

theorem farm_lengths (n : Nat) :
    (farm n).fPhyVec.length = n ∧ (farm n).fLogVec.length = n := by
  simp [farm]

theorem farm_slot (n j : Nat) (hj : j < n) :
    slot (farm n).fPhyVec j = some ⟨j, farmServer j, true, 0, 0⟩ := by
  apply slot_of_getElem?
  simp [farm, List.getElem?_map, List.getElem?_range hj]

theorem farm_connect (n : Nat) (hn : n < 65536) (fuel : Nat) (hf : n < fuel) :
    Connect fuel (farm n) (farmServer n) (quiet 0 0) = some (toShort n, farm (n + 1)) := by
  have h := connect_new_total fuel (farm n) (farmServer n) (quiet 0 0)
    (by rw [(farm_lengths n).1]; exact hn)
    (by
      intro j hj
      rw [(farm_lengths n).1] at hj
      rw [farm_slot n j hj]
      have hne : (j : Int) ≠ (n : Int) := by omega
      simp [reusable, XrdPhyConnection.IsPort, farmServer, hne])
    rfl (by rw [(farm_lengths n).1]; exact hf) (by intro h; cases h)
  rw [h, (farm_lengths n).2]
  simp [afterNew, farm, newPhy, List.range_succ, quiet]

theorem reachable_farm (n : Nat) (hn : n ≤ 65536) : Reachable (farm n) := by
  induction n with
  | zero => exact Reachable.init
  | succ n ih =>
    exact Reachable.step (ih (by omega))
      (Step.connect (n + 1) (farmServer n) (quiet 0 0) _ (farm_connect n (by omega) (n + 1)
        (by omega)))

theorem farm_not_serverA (n j : Nat) (hj : j < (farm n).fPhyVec.length) :
    reusable serverA (slot (farm n).fPhyVec j) = false := by
  rw [(farm_lengths n).1] at hj
  rw [farm_slot n j hj]
  simp [reusable, XrdPhyConnection.IsAddress, farmServer, serverA]

theorem reopened_lengths (n : Nat) :
    (reopened n).fPhyVec.length = 1 ∧ (reopened n).fLogVec.length = n + 1 := by
  simp [reopened]

theorem reopened_connect (n : Nat) :
    Connect 1 (reopened n) serverA (quiet 0 0) =
      some (toShort ((n + 1 : Nat) : Int), reopened (n + 1)) := by
  have h := connect_reuse_total 1 (reopened n) serverA (quiet 0 0) 0 phyA (by norm_num)
    (by simp [reopened]) (by simp [reopened, slot]) (by decide) (by intro j hj; omega)
    (by norm_num) (by intro h; cases h)
  rw [h, (reopened_lengths n).2]
  simp [afterReuse, reopened, List.replicate_succ', phyA, XrdPhyConnection.Touch, quiet]

theorem steps_reopened (n : Nat) : Steps (reopened 0) (reopened n) := by
  induction n with
  | zero => exact Steps.refl _
  | succ n ih => exact Steps.tail ih (Step.connect 1 serverA (quiet 0 0) _ (reopened_connect n))

/-! ## C1: two calls of Connect for one endpoint -/

/-- C1, as amended: on a manager with fewer than 65535 physical and fewer than
65534 logical slots, none of whose logical connections is bound to a destroyed
physical connection, that holds no physical connection for endpoint `A`, when
the network connect succeeds, `Connect(A)` followed by `Connect(A)` returns two
distinct ids; both new logical connections are bound to the same physical
connection `P`, the only one appended, and `GetPhyConnectionRefCount` of `P`
is 2.  (`hnew`: the address `new` returns for `P` is not the address of a
physical connection the manager holds, which is so in every manager a sequence
of calls can produce, `reachable_new_fresh`, and with any allocator.) -/
theorem C1_connect_twice (st : XrdConnectionMgr) (A : XrdUrlInfo) (env1 env2 : ConnectEnv)
    (hlive : ∀ (i : Nat) (lc : XrdLogConnection), st.fLogVec[i]? = some (some lc) →
      derefPhy st lc.fPhyConnection ≠ none)
    (hnew : derefPhy st st.nextAddr = none)
    (hnone : ∀ (i : Nat) (p : XrdPhyConnection), st.fPhyVec[i]? = some (some p) →
      ¬ (p.IsPort A.Port = true ∧
        (p.IsAddress A.Host = true ∨ p.IsAddress A.HostAddr = true)))
    (hp : st.fPhyVec.length < 65535) (hl : st.fLogVec.length < 65534)
    (hnet : env1.netOk = true) :
    ∃ id0 id1 st1 st2 P,
      (∀ fuel, 65536 ≤ fuel →
        Connect fuel st A env1 = some (id0, st1) ∧
        Connect fuel st1 A env2 = some (id1, st2) ∧
        GetPhyConnectionRefCount fuel st2 P.addr = some 2) ∧
      id0 ≠ id1 ∧
      st2.fLogVec = st.fLogVec ++ [some ⟨P.addr⟩, some ⟨P.addr⟩] ∧
      st2.fPhyVec = st.fPhyVec ++ [some P] ∧
      P.fServer = A := by
  have hfresh : ∀ (i : Nat) (lc : XrdLogConnection), st.fLogVec[i]? = some (some lc) →
      lc.fPhyConnection ≠ st.nextAddr := by
    intro i lc h e
    apply hlive i lc h
    rw [e]
    exact hnew
  have hno : ∀ j, j < st.fPhyVec.length → reusable A (slot st.fPhyVec j) = false := by
    intro j hj
    rw [slot_eq_getElem _ _ hj]
    cases hv : st.fPhyVec[j] with
    | none => rfl
    | some p =>
      have := hnone j p (by rw [List.getElem?_eq_getElem hj, hv])
      simp only [reusable]
      by_contra hc
      simp only [Bool.not_eq_false, Bool.and_eq_true, Bool.or_eq_true] at hc
      exact this ⟨hc.1.2, hc.2⟩
  refine ⟨toShort st.fLogVec.length, toShort ((st.fLogVec.length + 1 : Nat) : Int),
    afterNew st A env1, afterReuse (afterNew st A env1) st.fPhyVec.length (newPhy st A env1) env2.now,
    (newPhy st A env1).Touch env2.now, ?_, toShort_succ_ne _, ?_, ?_, rfl⟩
  · intro fuel hf
    refine ⟨?_, ?_, ?_⟩
    · exact connect_new_total fuel st A env1 (by omega) hno hnet (by omega)
        (fun _ => ⟨by omega, by omega, by omega, by omega⟩)
    · have := connect_reuse_total fuel (afterNew st A env1) A env2 st.fPhyVec.length
        (newPhy st A env1) (by omega) (by simp [afterNew])
        (by simp [afterNew, slot_append_length]) (reusable_newPhy st A env1)
        (fun j hj => by
          simp only [afterNew]
          rw [slot_append_left _ _ _ hj]
          exact hno j hj)
        (by omega)
        (fun _ => by simp [afterNew]; omega)
      simpa [afterNew] using this
    · rw [refCount_total _ _ (by simp [afterReuse, afterNew]; omega) fuel
        (by simp [afterReuse, afterNew]; omega)]
      simp only [afterReuse, afterNew, newPhy, XrdPhyConnection.Touch, List.append_assoc,
        boundCount_append]
      rw [boundCount_eq_zero st.fLogVec st.nextAddr hfresh]
      simp [boundCount, boundTo, toShort]
  · simp [afterReuse, afterNew, newPhy, XrdPhyConnection.Touch]
  · simp [afterReuse, afterNew, newPhy, XrdPhyConnection.Touch]

/-- C1 at the empty manager and `serverA:1094`. -/
theorem C1_connect_twice_witness :
    ∃ id0 id1 st1 st2 P,
      (∀ fuel, 65536 ≤ fuel →
        Connect fuel empty serverA (quiet 0 100) = some (id0, st1) ∧
        Connect fuel st1 serverA (quiet 1 100) = some (id1, st2) ∧
        GetPhyConnectionRefCount fuel st2 P.addr = some 2) ∧
      id0 ≠ id1 ∧
      st2.fLogVec = empty.fLogVec ++ [some ⟨P.addr⟩, some ⟨P.addr⟩] ∧
      st2.fPhyVec = empty.fPhyVec ++ [some P] ∧
      P.fServer = serverA :=
  C1_connect_twice empty serverA (quiet 0 100) (quiet 1 100)
    (by intro i lc h; simp [empty] at h) rfl (by intro i p h; simp [empty] at h)
    (by decide) (by decide) rfl

theorem recycled_connects (n : Nat) (h : n + 2 < 65536) :
    ∃ st1 st2 : XrdConnectionMgr,
      Connect 3 (recycled n) serverA (quiet 0 100) = some (toShort n, st1) ∧
      Connect 3 st1 serverA (quiet 0 100) = some (toShort ((n + 1 : Nat) : Int), st2) ∧
      st2.fPhyVec = [none, some ⟨0, serverA, true, 0, 100⟩] ∧
      boundCount st2.fLogVec 0 = n + 2 ∧
      ∀ fuel, 65536 ≤ fuel →
        GetPhyConnectionRefCount fuel st2 0 = some (toShort ((n + 2 : Nat) : Int)) := by
  have hlen : (recycled n).fLogVec.length = n := by simp [recycled]
  have hno : ∀ j, j < (recycled n).fPhyVec.length →
      reusable serverA (slot (recycled n).fPhyVec j) = false := by
    intro j hj
    have : j = 0 := by simpa [recycled] using hj
    subst this
    rfl
  have h1 := connect_new_total 3 (recycled n) serverA (quiet 0 100) (by simp [recycled]) hno rfl
    (by simp [recycled]) (by intro hd; cases hd)
  have h2 := connect_reuse_total 3 (afterNew (recycled n) serverA (quiet 0 100)) serverA
    (quiet 0 100) 1 (newPhy (recycled n) serverA (quiet 0 100)) (by norm_num)
    (by simp [afterNew, recycled]) (by simp [afterNew, recycled, slot])
    (reusable_newPhy _ _ _)
    (fun j hj => by
      have : j = 0 := by omega
      subst this
      rfl)
    (by norm_num) (by intro hd; cases hd)
  rw [hlen] at h1
  have hlen1 : (afterNew (recycled n) serverA (quiet 0 100)).fLogVec.length = n + 1 := by
    simp [afterNew, recycled]
  rw [hlen1] at h2
  have hb : boundCount (afterReuse (afterNew (recycled n) serverA (quiet 0 100)) 1
      (newPhy (recycled n) serverA (quiet 0 100)) (quiet 0 100).now).fLogVec 0 = n + 2 := by
    simp [afterReuse, afterNew, newPhy, recycled, boundCount, boundTo, List.countP_append,
      List.countP_replicate]
  refine ⟨_, _, h1, h2, ?_, hb, fun fuel hf => ?_⟩
  · simp [afterReuse, afterNew, newPhy, recycled, XrdPhyConnection.Touch, quiet]
  · rw [refCount_total _ _ (by simp [afterReuse, afterNew, recycled]; omega) fuel
      (by simp [afterReuse, afterNew, recycled]; omega), hb]

/-- C1 fails as stated, in two ways.  On the manager reached by 65534 calls
`Connect(serverA:1094)`, which holds no physical connection for
`serverB:1095`, the two calls `Connect(serverB:1095)` return (with the ids -2
and -1) and leave 65536 logical slots, over which `GetPhyConnectionRefCount`
of the new physical connection never returns.  And on the manager
`recycled 32768`, which is the reachable manager `orphaned 32768` (32768 calls
of `Connect`, then a sweep; see C8) at the moment `new` hands out the address
of the destroyed physical connection again, the two calls return, 32770
logical connections are bound to the new physical connection and its count is
-32766. -/
theorem C1_counterexample :
    (Reachable (crowded 65534) ∧ (crowded 65534).fPhyVec = [some phyA] ∧
      reusable serverB (some phyA) = false ∧
      Connect 2 (crowded 65534) serverB (quiet 0 0) = some (-2, twin 65534 1) ∧
      Connect 2 (twin 65534 1) serverB (quiet 0 0) = some (-1, twin 65534 2) ∧
      (twin 65534 2).fPhyVec = [some phyA, some phyB] ∧
      ∀ fuel, GetPhyConnectionRefCount fuel (twin 65534 2) phyB.addr = none) ∧
    (Reachable (orphaned 32768) ∧
      recycled 32768 = { orphaned 32768 with nextAddr := 0 } ∧
      (recycled 32768).fPhyVec = [none] ∧
      ∃ st1 st2 : XrdConnectionMgr,
        Connect 3 (recycled 32768) serverA (quiet 0 100) = some (-32768, st1) ∧
        Connect 3 st1 serverA (quiet 0 100) = some (-32767, st2) ∧
        st2.fPhyVec = [none, some ⟨0, serverA, true, 0, 100⟩] ∧
        boundCount st2.fLogVec 0 = 32770 ∧
        ∀ fuel, 65536 ≤ fuel → GetPhyConnectionRefCount fuel st2 0 = some (-32766)) := by
  have e1 : toShort ((65534 : Nat) : Int) = -2 := by decide
  have e2 : toShort ((65534 + 1 : Nat) : Int) = -1 := by decide
  have h1 := crowded_connectB 65534
  have h2 := twin_connect 65534 1
  rw [e1] at h1
  rw [e2] at h2
  have e3 : toShort ((32768 : Nat) : Int) = -32768 := by decide
  have e4 : toShort ((32768 + 1 : Nat) : Int) = -32767 := by decide
  have e5 : toShort ((32768 + 2 : Nat) : Int) = -32766 := by decide
  obtain ⟨st1, st2, c1, c2, hphy, hb, hcount⟩ := recycled_connects 32768 (by norm_num)
  rw [e3] at c1
  rw [e4] at c2
  rw [e5] at hcount
  refine ⟨⟨reachable_crowded 65533, rfl, by decide, h1, h2, rfl, fun fuel => ?_⟩,
    reachable_orphaned 32768 (by norm_num) (by norm_num), rfl, rfl,
    st1, st2, c1, c2, hphy, hb, hcount⟩
  exact refCount_diverges _ _ (by rw [(twin_lengths 65534 2).2]) fuel

/-! ## C3: forced disconnect, then a sweep -/

/-- C12, as amended: in a registry with fewer than 65536 physical slots, when
no physical slot holds a connection `Connect(endpoint)` can reuse and the
network connect fails, `Connect` returns -1 and leaves both registry sequences
as they were: nothing is appended and no slot is altered. -/
theorem C12_connect_failed_frame (st : XrdConnectionMgr) (A : XrdUrlInfo) (env : ConnectEnv)
    (hp : st.fPhyVec.length < 65536)
    (hnone : ∀ (j : Nat) (q : XrdPhyConnection), st.fPhyVec[j]? = some (some q) →
      ¬ (q.IsValid = true ∧ q.IsPort A.Port = true ∧
        (q.IsAddress A.Host = true ∨ q.IsAddress A.HostAddr = true)))
    (hnet : env.netOk = false) :
    ∃ st', (∀ fuel, 65536 ≤ fuel → Connect fuel st A env = some (-1, st')) ∧
      st'.fPhyVec = st.fPhyVec ∧ st'.fLogVec = st.fLogVec := by
  refine ⟨afterFail st, fun fuel hf => ?_, rfl, rfl⟩
  have hno : ∀ j, j < st.fPhyVec.length → reusable A (slot st.fPhyVec j) = false :=
    not_reusable_of_slots A st.fPhyVec st.fPhyVec.length (fun j q _ hq => hnone j q hq)
  have hfind : Connect.phyfound fuel st A env.now = some false := by
    unfold Connect.phyfound
    rw [lookup_total_none A env.now { st with heapLog := st.heapLog + 1 } (by simpa using hp)
      hno fuel (by simpa using (by omega : st.fPhyVec.length < fuel))]
    rfl
  exact connect_fail_total fuel st A env hfind hnet

/-- C12 at the manager `single`, whose only physical connection is to
`serverA`, with the endpoint `serverB:1095`. -/
theorem C12_connect_failed_frame_witness :
    ∃ st', (∀ fuel, 65536 ≤ fuel → Connect fuel single serverB (unreachable 3) = some (-1, st')) ∧
      st'.fPhyVec = single.fPhyVec ∧ st'.fLogVec = single.fLogVec :=
  C12_connect_failed_frame single serverB (unreachable 3) (by decide)
    (by
      intro j q hq
      cases j with
      | zero =>
        simp only [single, List.getElem?_cons_zero, Option.some.injEq] at hq
        subst hq
        decide
      | succ j => simp [single] at hq)
    rfl

/-- C12 fails as stated: on the manager reached by the 65536 calls
`Connect(farm:0)`, ..., `Connect(farm:65535)`, no physical connection can be
reused for `serverA:1094`, and a `Connect(serverA:1094)` whose network connect
would fail does not return -1: its lookup loop, counting in an unsigned short,
never ends. -/
theorem C12_counterexample :
    Reachable (farm 65536) ∧ (farm 65536).fPhyVec.length = 65536 ∧
    (∀ j, j < (farm 65536).fPhyVec.length →
      reusable serverA (slot (farm 65536).fPhyVec j) = false) ∧
    ∀ fuel, Connect fuel (farm 65536) serverA (unreachable 0) = none :=
  ⟨reachable_farm 65536 (le_refl _), (farm_lengths 65536).1, farm_not_serverA 65536,
    fun fuel => connect_diverges fuel (farm 65536) serverA (unreachable 0)
      (farm_not_serverA 65536) (by rw [(farm_lengths 65536).1])⟩

/-! ## C15: which physical connection Connect reuses -/

theorem crowded_last (n : Nat) : (crowded (n + 1)).fLogVec[n]? = some (some ⟨phyA.addr⟩) := by
  simp [crowded, List.getElem?_replicate, phyA]

theorem crowded_live (n : Nat) : derefPhy (crowded n) phyA.addr ≠ none := by
  intro h
  cases h

/-- C16, as amended: in a registry with fewer than 2^31 logical slots, for
every id between 0 and 32767 of an occupied slot whose physical connection has
not been destroyed and for both values of `forcePhysical`,
`Disconnect(id, forcePhysical)` vacates exactly logical slot `id`: every other
logical slot and the length of the logical sequence are unchanged, and no
physical slot is vacated or removed (a vacated one stays vacated, an occupied
one keeps its connection), also when `forcePhysical` is true. -/
theorem C16_disconnect_frame (st : XrdConnectionMgr) (id : Nat) (lc : XrdLogConnection)
    (force : Bool) (now : Int) (hs : id < 32768) (hl : st.fLogVec.length < 2147483648)
    (hid : st.fLogVec[id]? = some (some lc))
    (hlive : derefPhy st lc.fPhyConnection ≠ none) :
    ∃ st', Disconnect st id force now = .ok (.removed, st') ∧
      st'.fLogVec.length = st.fLogVec.length ∧
      st'.fLogVec[id]? = some none ∧
      (∀ j, j ≠ id → st'.fLogVec[j]? = st.fLogVec[j]?) ∧
      st'.fPhyVec.length = st.fPhyVec.length ∧
      ∀ k : Nat,
        (st.fPhyVec[k]? = some none → st'.fPhyVec[k]? = some none) ∧
        ∀ q : XrdPhyConnection, st.fPhyVec[k]? = some (some q) →
          ∃ q' : XrdPhyConnection, st'.fPhyVec[k]? = some (some q') ∧ q'.addr = q.addr := by
  have hlt : id < st.fLogVec.length := by
    by_contra hc
    rw [List.getElem?_eq_none (Nat.le_of_not_lt hc)] at hid
    cases hid
  refine ⟨afterDisconnect st id lc force now,
    disconnect_total st id lc force now hs hl hid hlive,
    by simp [afterDisconnect], by simp [afterDisconnect, List.getElem?_set, hlt], ?_,
    by simp [afterDisconnect], ?_⟩
  · intro j hj
    simp only [afterDisconnect, List.getElem?_set]
    rw [if_neg (fun h => hj h.symm)]
  · intro k
    rw [afterDisconnect_phy]
    refine ⟨fun h => by rw [h]; rfl, fun q hq => ?_⟩
    rw [hq]
    simp only [Option.map_some', touchSlot]
    by_cases ha : q.addr = lc.fPhyConnection
    · rw [if_pos ha]
      cases force <;> exact ⟨_, rfl, rfl⟩
    · rw [if_neg ha]
      exact ⟨q, rfl, rfl⟩

/-- C16 at the manager `single`, id 0, forced. -/
theorem C16_disconnect_frame_witness :
    ∃ st', Disconnect single (0 : Nat) true 7 = .ok (.removed, st') ∧
      st'.fLogVec.length = single.fLogVec.length ∧
      st'.fLogVec[0]? = some none ∧
      (∀ j, j ≠ 0 → st'.fLogVec[j]? = single.fLogVec[j]?) ∧
      st'.fPhyVec.length = single.fPhyVec.length ∧
      ∀ k : Nat,
        (single.fPhyVec[k]? = some none → st'.fPhyVec[k]? = some none) ∧
        ∀ q : XrdPhyConnection, single.fPhyVec[k]? = some (some q) →
          ∃ q' : XrdPhyConnection, st'.fPhyVec[k]? = some (some q') ∧ q'.addr = q.addr :=
  C16_disconnect_frame single 0 ⟨0⟩ true 7 (by decide) (by decide) rfl (by decide)

/-- C16 fails as stated, in three ways.  On the manager reached by 32769 calls
`Connect(serverA:1094)` the logical connection of slot 32768 is live and
`Connect` returned the id -32768 for it: `Disconnect(-32768, f)` returns at
once and no value of the `short int` parameter vacates that slot.  On the
manager reached by 2^31 such calls the size converted to `int` is negative, the
range test of line 330 rejects the id 0 and nothing is vacated.  And in the
reachable state `orphaned 32768` (32768 calls of `Connect`, then a sweep; see
C8) the connection of the id 0 is bound to a destroyed physical connection,
which `Disconnect` dereferences. -/
theorem C16_counterexample :
    (Reachable (crowded 32769) ∧
      Connect 1 (crowded 32768) serverA (quiet 0 0) = some (-32768, crowded 32769) ∧
      (crowded 32769).fLogVec[32768]? = some (some ⟨phyA.addr⟩) ∧
      derefPhy (crowded 32769) phyA.addr ≠ none ∧
      Disconnect (crowded 32769) (-32768) false 0 = .ok (.ignored, crowded 32769) ∧
      ∀ (id : Int) (force : Bool) (now : Int) (o : DisconnectOutcome)
        (st' : XrdConnectionMgr), Disconnect (crowded 32769) id force now = .ok (o, st') →
        st'.fLogVec[32768]? = some (some ⟨phyA.addr⟩)) ∧
    (Reachable (crowded 2147483648) ∧
      (crowded 2147483648).fLogVec[0]? = some (some ⟨phyA.addr⟩) ∧
      Disconnect (crowded 2147483648) 0 false 0 =
        .ok (.nonexistent, crowded 2147483648)) ∧
    (Reachable (orphaned 32768) ∧
      (orphaned 32768).fLogVec[0]? = some (some ⟨0⟩) ∧
      Disconnect (orphaned 32768) 0 false 0 = .error .danglingPointer) := by
  have e : toShort ((32768 : Nat) : Int) = -32768 := by decide
  have hc := crowded_connect 32768
  rw [e] at hc
  refine ⟨⟨reachable_crowded 32768, hc, crowded_last 32768, crowded_live 32769,
      disconnect_negative _ _ _ _ (by decide), ?_⟩,
    ⟨reachable_crowded 2147483647, crowded_first 2147483648 (by norm_num),
      crowded_disconnect_rejected 2147483648 (by norm_num) (by norm_num) false 0⟩,
    reachable_orphaned 32768 (by norm_num) (by norm_num), orphaned_first 32768 (by norm_num),
    orphaned_disconnect_faults 32768 (by norm_num) (by norm_num) false 0⟩
  intro id force now o st' h
  rw [disconnect_keeps_high _ id force now o st' 32768 (le_refl _) h]
  exact crowded_last 32768

/-- Once slot `i` of the logical sequence is vacated it stays vacated under
every sequence of `Connect`, `Disconnect` and `GarbageCollect` calls: a
`Connect` stores the new logical connection in a new slot at the end of the
sequence. -/
theorem vacated_slot_stays (st st' : XrdConnectionMgr) (i : Nat)
    (hs : Steps st st') (hv : st.fLogVec[i]? = some none) :
    st'.fLogVec[i]? = some none ∧
    ∀ (fuel : Nat) (A : XrdUrlInfo) (env : ConnectEnv) (id : Int) (st'' : XrdConnectionMgr),
      Connect fuel st' A env = some (id, st'') →
      st''.fLogVec[i]? = some none ∧
      (st''.fLogVec = st'.fLogVec ∨
        ∃ lc : XrdLogConnection, st''.fLogVec = st'.fLogVec ++ [some lc]) := by
  have h1 := steps_vacated st st' i hs hv
  refine ⟨h1, fun fuel A env id st'' hc => ⟨?_, connect_logs fuel st' A env id st'' hc⟩⟩
  exact step_vacated st' st'' i (Step.connect fuel A env id hc) h1

/-- C19: there is a sequence of operations in which a `Connect()` made after
`Disconnect(id)` has vacated slot `id` returns that same id for the new
logical connection.  `Connect` returns the id 0, `Disconnect(0)` vacates slot
0, 65535 further calls of `Connect` follow, and the next `Connect` returns 0
again: the id is the position of the new logical connection, 65536, converted
to `short int`.  (The new logical connection is stored in slot 65536; slot 0
stays vacated.) -/
theorem C19_vacated_id_returned_again :
    ∃ (st1 st2 st3 st4 : XrdConnectionMgr) (lc : XrdLogConnection),
      Connect 1 empty serverA (quiet 0 0) = some (0, st1) ∧
      Disconnect st1 0 false 0 = .ok (.removed, st2) ∧
      st2.fLogVec[0]? = some none ∧
      Steps st2 st3 ∧
      Connect 1 st3 serverA (quiet 0 0) = some (0, st4) ∧
      st4.fLogVec = st3.fLogVec ++ [some lc] ∧
      st3.fLogVec.length = 65536 ∧
      st4.fLogVec[0]? = some none := by
  have e : toShort ((65535 + 1 : Nat) : Int) = 0 := by decide
  have h4 := reopened_connect 65535
  rw [e] at h4
  have happ : ∀ n, (reopened (n + 1)).fLogVec = (reopened n).fLogVec ++ [some ⟨0⟩] := by
    intro n
    simp [reopened, List.replicate_succ']
  have hfirst : ∀ n, (reopened n).fLogVec[0]? = some none := by
    intro n
    simp [reopened]
  exact ⟨crowded 1, reopened 0, reopened 65535, reopened (65535 + 1), ⟨0⟩, by decide, rfl,
    hfirst 0, steps_reopened 65535, h4, happ 65535, (reopened_lengths 65535).2,
    hfirst (65535 + 1)⟩

/-! ## C21: the reference count -/

/-- C21, as amended: in a registry with fewer than 65535 logical slots and
fewer than 32767 of them bound to any one physical connection,
`GetPhyConnectionRefCount(P)` returns the number of occupied logical slots
bound to `P`; after a successful `Connect` it returns one more for the physical
connection the new logical connection is bound to and the same for every other
one; after a `Disconnect` with an id between 0 and 32767 of an occupied slot
(bound to a physical connection that has not been destroyed) it returns one
less for the physical connection of that logical connection and the same for
every other one; after a `GarbageCollect` it returns the same for every
physical connection. -/
theorem C21_refcount_counts_bound_slots (st : XrdConnectionMgr)
    (hl : st.fLogVec.length < 65535) (hb : ∀ P, boundCount st.fLogVec P < 32767) :
    (∀ (P fuel : Nat), 65536 ≤ fuel →
      GetPhyConnectionRefCount fuel st P = some ((boundCount st.fLogVec P : Nat) : Int)) ∧
    (∀ (fuel : Nat) (A : XrdUrlInfo) (env : ConnectEnv) (id : Int) (st' : XrdConnectionMgr),
      Connect fuel st A env = some (id, st') →
      (env.netOk = true ∨
        ∃ j, j < st.fPhyVec.length ∧ reusable A (slot st.fPhyVec j) = true) →
      ∃ lc : XrdLogConnection, st'.fLogVec = st.fLogVec ++ [some lc] ∧
        ∀ (P fuel' : Nat), 65536 ≤ fuel' →
          GetPhyConnectionRefCount fuel' st' P =
            some (((boundCount st.fLogVec P : Nat) : Int) +
              (if lc.fPhyConnection = P then 1 else 0))) ∧
    (∀ (id : Nat) (lc : XrdLogConnection) (force : Bool) (now : Int), id < 32768 →
      st.fLogVec[id]? = some (some lc) → derefPhy st lc.fPhyConnection ≠ none →
      ∃ st', Disconnect st id force now = .ok (.removed, st') ∧
        ∀ (P fuel' : Nat), 65536 ≤ fuel' →
          GetPhyConnectionRefCount fuel' st' P =
            some (((boundCount st.fLogVec P : Nat) : Int) -
              (if lc.fPhyConnection = P then 1 else 0))) ∧
    (∀ (fuel : Nat) (now : Int) (st' : XrdConnectionMgr),
      GarbageCollect fuel now st = some st' →
      ∀ (P fuel' : Nat), 65536 ≤ fuel' →
        GetPhyConnectionRefCount fuel' st' P =
          some ((boundCount st.fLogVec P : Nat) : Int)) := by
  have hb' : ∀ P, boundCount st.fLogVec P < 32768 := fun P => Nat.lt_succ_of_lt (hb P)
  refine ⟨fun P fuel hf => refCount_small st P (by omega) (hb' P) fuel hf, ?_, ?_, ?_⟩
  · intro fuel A env id st' h hs
    have key : ∀ (s : XrdConnectionMgr) (lc : XrdLogConnection),
        s.fLogVec = st.fLogVec ++ [some lc] →
        ∀ (P fuel' : Nat), 65536 ≤ fuel' →
          GetPhyConnectionRefCount fuel' s P =
            some (((boundCount st.fLogVec P : Nat) : Int) +
              (if lc.fPhyConnection = P then 1 else 0)) := by
      intro s lc hs' P fuel' hf
      have hcnt : boundCount s.fLogVec P =
          boundCount st.fLogVec P + (if lc.fPhyConnection = P then 1 else 0) := by
        rw [hs', boundCount_append, boundCount_singleton]
      have hb1 := hb P
      rw [refCount_small s P (by rw [hs']; simp; omega)
        (by rw [hcnt]; split <;> omega) fuel' hf, hcnt]
      split <;> simp
    rcases connect_result fuel st A env id st' h with
      ⟨i, p, _, _, _, _, _, rfl⟩ | ⟨_, _, _, rfl⟩ | ⟨hno, hnet, _, rfl⟩
    · exact ⟨⟨p.addr⟩, rfl, key _ _ rfl⟩
    · exact ⟨⟨st.nextAddr⟩, rfl, key _ _ rfl⟩
    · exfalso
      rcases hs with hs | ⟨j, hj, hr⟩
      · rw [hnet] at hs; cases hs
      · rw [hno j hj] at hr; cases hr
  · intro id lc force now hshort hid hlive
    refine ⟨afterDisconnect st id lc force now,
      disconnect_total st id lc force now hshort (by omega) hid hlive, ?_⟩
    intro P fuel' hf
    have hcnt := boundCount_vacate st.fLogVec id lc P hid
    have hb1 := hb P
    have hlen : (afterDisconnect st id lc force now).fLogVec.length = st.fLogVec.length := by
      simp [afterDisconnect]
    have hlog : (afterDisconnect st id lc force now).fLogVec = st.fLogVec.set id none := rfl
    rw [refCount_small _ P (by rw [hlen]; omega) (by rw [hlog]; omega) fuel' hf, hlog]
    congr 1
    rw [← hcnt]
    split <;> simp
  · intro fuel now st' h P fuel' hf
    obtain ⟨_, rfl⟩ := GarbageCollect_result fuel now st st' h
    exact refCount_small _ P (by simp [sweep]; omega) (by simpa [sweep] using hb' P) fuel' hf

/-- C21 at the manager with one logical connection bound to one physical
connection. -/
theorem C21_refcount_counts_bound_slots_witness :
    (∀ (P fuel : Nat), 65536 ≤ fuel →
      GetPhyConnectionRefCount fuel single P =
        some ((boundCount single.fLogVec P : Nat) : Int)) ∧
    (∀ (fuel : Nat) (A : XrdUrlInfo) (env : ConnectEnv) (id : Int) (st' : XrdConnectionMgr),
      Connect fuel single A env = some (id, st') →
      (env.netOk = true ∨
        ∃ j, j < single.fPhyVec.length ∧ reusable A (slot single.fPhyVec j) = true) →
      ∃ lc : XrdLogConnection, st'.fLogVec = single.fLogVec ++ [some lc] ∧
        ∀ (P fuel' : Nat), 65536 ≤ fuel' →
          GetPhyConnectionRefCount fuel' st' P =
            some (((boundCount single.fLogVec P : Nat) : Int) +
              (if lc.fPhyConnection = P then 1 else 0))) ∧
    (∀ (id : Nat) (lc : XrdLogConnection) (force : Bool) (now : Int), id < 32768 →
      single.fLogVec[id]? = some (some lc) → derefPhy single lc.fPhyConnection ≠ none →
      ∃ st', Disconnect single id force now = .ok (.removed, st') ∧
        ∀ (P fuel' : Nat), 65536 ≤ fuel' →
          GetPhyConnectionRefCount fuel' st' P =
            some (((boundCount single.fLogVec P : Nat) : Int) -
              (if lc.fPhyConnection = P then 1 else 0))) ∧
    (∀ (fuel : Nat) (now : Int) (st' : XrdConnectionMgr),
      GarbageCollect fuel now single = some st' →
      ∀ (P fuel' : Nat), 65536 ≤ fuel' →
        GetPhyConnectionRefCount fuel' st' P =
          some ((boundCount single.fLogVec P : Nat) : Int)) :=
  C21_refcount_counts_bound_slots single (by decide)
    (fun P => lt_of_le_of_lt (boundCount_le_length _ P) (by decide))

/-- C21 fails as stated, in three ways.  With 32767 logical connections bound
to `phyA` the count is 32767; the next `Connect` succeeds and binds one more,
and the count returned is then -32768, neither 32768 bound slots nor one more
than before.  Over the 65536 logical slots of the manager reached by 65536
calls `Connect(serverA:1094)` the count never returns.  And on the manager
reached by 16384 calls `Connect(serverA:1094)` and 16385 calls
`Connect(serverB:1095)`, `Connect` returned the id -32768 for the logical
connection of slot 32768: `Disconnect(-32768, f)` returns at once and the count
of `phyB` stays 16385. -/
theorem C21_counterexample :
    (GetPhyConnectionRefCount 65536 (crowded 32767) phyA.addr = some 32767 ∧
      Connect 1 (crowded 32767) serverA (quiet 0 0) = some (32767, crowded 32768) ∧
      boundCount (crowded 32768).fLogVec phyA.addr = 32768 ∧
      GetPhyConnectionRefCount 65536 (crowded 32768) phyA.addr = some (-32768)) ∧
    (Reachable (crowded 65536) ∧
      ∀ fuel P, GetPhyConnectionRefCount fuel (crowded 65536) P = none) ∧
    (Reachable (twin 16384 16385) ∧
      Connect 2 (twin 16384 16384) serverB (quiet 0 0) = some (-32768, twin 16384 16385) ∧
      (twin 16384 16385).fLogVec[32768]? = some (some ⟨phyB.addr⟩) ∧
      (twin 16384 16385).fLogVec.length = 32769 ∧
      boundCount (twin 16384 16385).fLogVec phyA.addr = 16384 ∧
      boundCount (twin 16384 16385).fLogVec phyB.addr = 16385 ∧
      Disconnect (twin 16384 16385) (-32768) false 0 = .ok (.ignored, twin 16384 16385) ∧
      GetPhyConnectionRefCount 65536 (twin 16384 16385) phyB.addr = some 16385) := by
  have e1 : toShort ((32767 : Nat) : Int) = 32767 := by decide
  have e2 : toShort ((32768 : Nat) : Int) = -32768 := by decide
  have e3 : toShort ((16384 + 16384 : Nat) : Int) = -32768 := by decide
  have e4 : toShort ((16385 : Nat) : Int) = 16385 := by decide
  have hc := twin_connect 16384 16384
  rw [e3] at hc
  refine ⟨⟨?_, ?_, crowded_boundCount 32768, ?_⟩, ?_, reachable_twin 16383 16384, hc,
    twin_last 16384 16384, (twin_lengths 16384 16385).2, (twin_boundCount 16384 16385).1,
    (twin_boundCount 16384 16385).2, disconnect_negative _ _ _ _ (by decide), ?_⟩
  · rw [crowded_refCount 32767 (by norm_num) 65536 (by norm_num), e1]
  · have h := crowded_connect 32767
    rw [e1] at h
    exact h
  · rw [crowded_refCount 32768 (by norm_num) 65536 (by norm_num), e2]
  · exact ⟨reachable_crowded 65535, fun fuel P =>
      refCount_diverges _ _ (by rw [(crowded_lengths 65536).2]) fuel⟩
  · rw [refCount_total _ _ (by rw [(twin_lengths 16384 16385).2]; norm_num) 65536
      (by rw [(twin_lengths 16384 16385).2]; norm_num), (twin_boundCount 16384 16385).2, e4]

/-! ## C11: the destructor -/

/-- What the destructor does to a manager `fgInstance` does not point to, in a
registry with at most 32768 logical and fewer than 65536 physical slots whose
logical connections are bound to physical connections that have not been
destroyed: every logical slot is vacated, and a physical slot is vacated
exactly when the TTL of its connection has expired at the final sweep, counted
from its last touch `t`, which is the time of the closing of a logical
connection bound to it when there was one. -/
theorem destroy_closes_then_sweeps (st : XrdConnectionMgr) (clock : Nat → Int)
    (now : Int) (hl : st.fLogVec.length ≤ 32768) (hp : st.fPhyVec.length < 65536)
    (hlive : ∀ (i : Nat) (lc : XrdLogConnection), st.fLogVec[i]? = some (some lc) →
      derefPhy st lc.fPhyConnection ≠ none) :
    ∃ st2 : XrdConnectionMgr,
      (∀ fuel, 65536 ≤ fuel → Destroy fuel st clock now false = some (.ok st2)) ∧
      st2.fLogVec.length = st.fLogVec.length ∧
      (∀ j, j < st.fLogVec.length → st2.fLogVec[j]? = some none) ∧
      st2.fPhyVec.length = st.fPhyVec.length ∧
      ∀ k : Nat,
        (st.fPhyVec[k]? = some none → st2.fPhyVec[k]? = some none) ∧
        ∀ p : XrdPhyConnection, st.fPhyVec[k]? = some (some p) →
          ∃ t : Int,
            ((∀ (j : Nat) (lc : XrdLogConnection), st.fLogVec[j]? = some (some lc) →
                lc.fPhyConnection ≠ p.addr) → t = p.fLastUseTimestamp) ∧
            ((∃ (j : Nat) (lc : XrdLogConnection), st.fLogVec[j]? = some (some lc) ∧
                lc.fPhyConnection = p.addr) →
              ∃ (j : Nat) (lc : XrdLogConnection), st.fLogVec[j]? = some (some lc) ∧
                lc.fPhyConnection = p.addr ∧ t = clock j) ∧
            (now - t > p.fTTLsec → st2.fPhyVec[k]? = some none) ∧
            (¬ now - t > p.fTTLsec → st2.fPhyVec[k]? =
              some (some (XrdPhyConnection.mk p.addr p.fServer p.fConnected t p.fTTLsec))) := by
  obtain ⟨s1, hI, hrun⟩ := forUInt_total Destroy.size (Destroy.body clock) st.fLogVec.length
    (by omega) (closeInv clock st)
    (fun i s hI => by
      obtain ⟨m, rfl, hlen, _⟩ := hI
      exact hlen)
    (fun i s hi hI => closeInv_step clock st hl hlive i s hi hI)
    st.fLogVec.length 0 (.ok st) (by simp) (closeInv_zero clock st)
  obtain ⟨m, rfl, hlen, hlogs, hplen, hphys⟩ := hI
  have hvac : ∀ j, j < st.fLogVec.length → m.fLogVec[j]? = some none := by
    intro j hj
    rw [hlogs j, if_pos hj, List.getElem?_eq_getElem hj]
    rfl
  have hcount : ∀ a, boundCount m.fLogVec a = 0 := by
    intro a
    apply boundCount_eq_zero
    intro j lc hj
    by_cases hlt : j < st.fLogVec.length
    · rw [hvac j hlt] at hj
      cases hj
    · rw [List.getElem?_eq_none (by omega)] at hj
      cases hj
  refine ⟨sweep now m, ?_, by simp [sweep, hlen], ?_, by simp [sweep, hplen], ?_⟩
  · intro fuel hf
    obtain ⟨f, rfl⟩ : ∃ f, fuel = f + 1 := ⟨fuel - 1, by omega⟩
    simp only [Destroy]
    rw [hrun (f + 1) (by omega)]
    simp only
    rw [GarbageCollect_total now m (by omega) (by omega) (f + 1) (by omega) (by omega)]
    simp
  · intro j hj
    simp only [sweep]
    exact hvac j hj
  · intro k
    have hk : (sweep now m).fPhyVec[k]? = (m.fPhyVec[k]?).map (sweepSlot m.fLogVec now) := by
      simp [sweep, List.getElem?_map]
    rw [hk]
    refine ⟨fun h0 => by rw [(hphys k).1 h0]; rfl, fun p hpk => ?_⟩
    obtain ⟨t, ht, h1, h2⟩ := (hphys k).2 p hpk
    refine ⟨t, fun hno => h1 (fun j lc _ hj => hno j lc hj), ?_, ?_, ?_⟩
    · rintro ⟨j, lc, hjl, hb⟩
      have hj : j < st.fLogVec.length := by
        by_contra hc
        rw [List.getElem?_eq_none (Nat.le_of_not_lt hc)] at hjl
        cases hjl
      obtain ⟨j', lc', _, hjl', hb', ht'⟩ := h2 ⟨j, lc, hj, hjl, hb⟩
      exact ⟨j', lc', hjl', hb', ht'⟩
    · intro hexp
      rw [ht]
      simp [sweepSlot, purgeable, hcount, toShort, XrdPhyConnection.ExpiredTTL, hexp]
    · intro hexp
      rw [ht]
      simp [sweepSlot, purgeable, hcount, toShort, XrdPhyConnection.ExpiredTTL, hexp]

/-- The destructor of the manager `fgInstance` points to never completes:
`delete(fgInstance)` at its end runs it again on the same object, every
time. -/
theorem destroy_instance_never (fuel : Nat) :
    ∀ (st : XrdConnectionMgr) (clock : Nat → Int) (now : Int) (st2 : XrdConnectionMgr),
      Destroy fuel st clock now true ≠ some (.ok st2) := by
  induction fuel with
  | zero =>
    intro st clock now st2 h
    simp [Destroy] at h
  | succ f ih =>
    intro st clock now st2 h
    simp only [Destroy] at h
    cases hl : forUInt Destroy.size (Destroy.body clock) (f + 1) 0 (.ok st) with
    | none => rw [hl] at h; cases h
    | some r =>
      rw [hl] at h
      cases r with
      | error e => cases h
      | ok st1 =>
        simp only at h
        cases hg : GarbageCollect (f + 1) now st1 with
        | none => rw [hg] at h; cases h
        | some st3 =>
          rw [hg] at h
          simp only [if_true] at h
          exact ih st3 clock now st2 h

/-- C11 (the code departs from the claim): shutting down the reachable
manager `single` (one logical connection on a physical connection with TTL
100) at time 5, with the final sweep at time 50, closes the logical connection
with `Disconnect(0, FALSE)`, which touches the physical connection, and the
final `GarbageCollect()` leaves that connection in its slot: its TTL has not
expired.  That is the destructor of a manager `fgInstance` does not point to;
the destructor of the manager `Instance()` created never completes, whatever
the registry, because its last statement `delete(fgInstance)` runs it again. -/
theorem C11_shutdown_leaks :
    Reachable single ∧
    Destroy 3 single (fun _ => 5) 50 false =
      some (.ok ⟨[some ⟨0, serverA, true, 5, 100⟩], [none], 1, 0, 1⟩) ∧
    ∀ (fuel : Nat) (st : XrdConnectionMgr) (clock : Nat → Int) (now : Int)
      (st2 : XrdConnectionMgr), Destroy fuel st clock now true ≠ some (.ok st2) :=
  ⟨reachable_single, rfl, destroy_instance_never⟩

end XrdConnMgr

/-! # The monitoring packet decoder -/

namespace XrdMonDec

/-! ## The loops of `decodeTracePacket` -/

theorem recordOffsets_succ (T o n : Nat) :
    recordOffsets T o (n + 1) = o :: recordOffsets T (o + T) n := by
  unfold recordOffsets
  rw [List.range_succ_eq_map]
  simp only [List.map_cons, List.map_map, Nat.zero_mul, Nat.add_zero]
  congr 1
  apply List.map_congr_left
  intro i _
  simp only [Function.comp, Nat.succ_eq_add_one, Nat.succ_mul]
  omega

theorem bodyEnd_ge (T : Nat) (gs : List Nat) : ∀ o, o ≤ bodyEnd T o gs := by
  induction gs with
  | nil => intro o; exact le_refl _
  | cons n gs ih =>
    intro o
    exact le_trans (Nat.le_add_right _ _) (ih (o + (n + 1) * T))

theorem recordPlan_succ (tick : Int → Nat → Nat → Int) (T o : Nat) (begTime span : Int)
    (noElems elemNo n : Nat) :
    recordPlan tick T o begTime span noElems elemNo (n + 1) =
      (o, toInt32 (begTime + tick span noElems elemNo)) ::
        recordPlan tick T (o + T) begTime span noElems (elemNo + 1) n := by
  unfold recordPlan
  rw [List.range_succ_eq_map]
  simp only [List.map_cons, List.map_map, Nat.zero_mul, Nat.add_zero]
  congr 1
  apply List.map_congr_left
  intro i _
  simp only [Function.comp, Nat.succ_eq_add_one, Nat.succ_mul]
  have e1 : o + (i * T + T) = o + T + i * T := by omega
  have e2 : elemNo + (i + 1) = elemNo + 1 + i := by omega
  rw [e1, e2]

theorem passed_append (c : MonConst) (m : Mem) (os1 os2 : List (Nat × Int))
    (calls1 calls2 : List SinkCall) (e1 e : Option ErrCode) (h1 : Passed c m os1 calls1 e1)
    (hn : e1 = none) (h2 : Passed c m os2 calls2 e) :
    Passed c m (os1 ++ os2) (calls1 ++ calls2) e := by
  induction h1 with
  | done => exact h2
  | next hd _ ih => exact Passed.next hd (ih hn)
  | raised hd => cases hn

theorem passed_raised_append (c : MonConst) (m : Mem) (os1 os2 : List (Nat × Int))
    (calls1 : List SinkCall) (e1 : Option ErrCode) (err : ErrCode)
    (h1 : Passed c m os1 calls1 e1) (hn : e1 = some err) :
    Passed c m (os1 ++ os2) calls1 (some err) := by
  induction h1 with
  | done => cases hn
  | next hd _ ih => exact Passed.next hd (ih hn)
  | raised hd =>
    cases hn
    exact Passed.raised hd

/-- The loop of `prepareTimestamp` steps over `n` records that are no window
records and stops at the window record that follows them, when that record
starts below `len`. -/
theorem scan_total (c : MonConst) (m : Mem) (len : Int) (n : Nat) :
    ∀ (fuel x k : Nat) (d : XrdMonDecPacketDecoder), n + 1 ≤ fuel →
      (recordOffsets c.TRACELEN x n).all
        (fun y => decide (byte m y ≠ c.XROOTD_MON_WINDOW)) = true →
      byte m (x + n * c.TRACELEN) = c.XROOTD_MON_WINDOW →
      ((x + n * c.TRACELEN : Nat) : Int) < len →
      ∃ d', prepareTimestamp.scan c m len fuel x k d =
          some (d', .ok (x + n * c.TRACELEN, k + n)) ∧ d'.sink = d.sink := by
  induction n with
  | zero =>
    intro fuel x k d hf _ hw _
    obtain ⟨f, rfl⟩ : ∃ f, fuel = f + 1 := ⟨fuel - 1, by omega⟩
    simp only [Nat.zero_mul, Nat.add_zero] at hw ⊢
    refine ⟨d.read x 1, ?_, rfl⟩
    unfold prepareTimestamp.scan
    rw [if_neg (by simpa using hw)]
  | succ n ih =>
    intro fuel x k d hf hall hw hlt
    obtain ⟨f, rfl⟩ : ∃ f, fuel = f + 1 := ⟨fuel - 1, by omega⟩
    rw [recordOffsets_succ, List.all_cons, Bool.and_eq_true] at hall
    have hx : byte m x ≠ c.XROOTD_MON_WINDOW := by simpa using hall.1
    have e : x + c.TRACELEN + n * c.TRACELEN = x + (n + 1) * c.TRACELEN := by
      rw [Nat.succ_mul]; omega
    obtain ⟨d', hd', hs⟩ := ih f (x + c.TRACELEN) (k + 1) (d.read x 1) (by omega) hall.2
      (by rw [e]; exact hw) (by rw [e]; exact hlt)
    refine ⟨d', ?_, hs⟩
    unfold prepareTimestamp.scan
    have hxl : ¬ ((x : Int) ≥ len) := by
      have : x ≤ x + (n + 1) * c.TRACELEN := Nat.le_add_right _ _
      omega
    rw [if_pos hx, if_neg hxl, hd', e]
    have e2 : k + 1 + n = k + (n + 1) := by omega
    rw [e2]

/-- The function `prepareTimestamp` in the same situation returns the
`CalcTime` of the window record that closes the group: the span from the begin
time (moved back to the end time of that record when it is earlier) to the end
time, over the `n` records stepped over. -/
theorem prepareTimestamp_total (c : MonConst) (m : Mem) (len : Int) (n fuel x : Nat)
    (begTime : Int) (d : XrdMonDecPacketDecoder) (hf : n + 1 ≤ fuel)
    (hall : (recordOffsets c.TRACELEN x n).all
      (fun y => decide (byte m y ≠ c.XROOTD_MON_WINDOW)) = true)
    (hw : byte m (x + n * c.TRACELEN) = c.XROOTD_MON_WINDOW)
    (hlt : ((x + n * c.TRACELEN : Nat) : Int) < len) :
    ∃ d', prepareTimestamp c fuel d m x len begTime =
        some (d', .ok (⟨toInt32 ((decodeTime m (x + n * c.TRACELEN)).first -
            (if begTime > (decodeTime m (x + n * c.TRACELEN)).first
              then (decodeTime m (x + n * c.TRACELEN)).first else begTime)), n,
          (decodeTime m (x + n * c.TRACELEN)).second, x + n * c.TRACELEN⟩,
          if begTime > (decodeTime m (x + n * c.TRACELEN)).first
            then (decodeTime m (x + n * c.TRACELEN)).first else begTime)) ∧
      d'.sink = d.sink := by
  obtain ⟨d1, h1, hs⟩ := scan_total c m len n fuel x 0 d hf hall hw hlt
  rw [Nat.zero_add] at h1
  unfold prepareTimestamp
  rw [h1]
  exact ⟨_, rfl, hs⟩

/-- The inner loop of `decodeTracePacket` dispatches the `n` records before the
end offset one after the other, each once and with its timestamp, until one
raises. -/
theorem records_total (c : MonConst) (tick : Int → Nat → Nat → Int) (m : Mem) (ct : CalcTime)
    (begTime : Int) (hT : 0 < c.TRACELEN) (n : Nat) :
    ∀ (fuel offset elemNo : Nat) (d : XrdMonDecPacketDecoder), n + 1 ≤ fuel →
      ct.endOffset = offset + n * c.TRACELEN →
      ∃ d' calls e r,
        decodeTracePacket.records c tick m ct begTime fuel offset elemNo d = some (d', r) ∧
        d'.sink = d.sink ++ calls ∧
        Passed c m
          (recordPlan tick c.TRACELEN offset begTime ct.span ct.noElems elemNo n) calls e ∧
        ((e = none ∧ r = .ok ct.endOffset) ∨ ∃ err, e = some err ∧ r = .error err) := by
  induction n with
  | zero =>
    intro fuel offset elemNo d hf hend
    obtain ⟨f, rfl⟩ : ∃ f, fuel = f + 1 := ⟨fuel - 1, by omega⟩
    simp only [Nat.zero_mul, Nat.add_zero] at hend
    refine ⟨d, [], none, .ok offset, ?_, by simp, Passed.done, Or.inl ⟨rfl, by rw [hend]⟩⟩
    unfold decodeTracePacket.records
    rw [if_neg (by omega)]
  | succ n ih =>
    intro fuel offset elemNo d hf hend
    obtain ⟨f, rfl⟩ : ∃ f, fuel = f + 1 := ⟨fuel - 1, by omega⟩
    have hlt : offset < ct.endOffset := by
      rw [hend, Nat.succ_mul]; omega
    have e : offset + c.TRACELEN + n * c.TRACELEN = offset + (n + 1) * c.TRACELEN := by
      rw [Nat.succ_mul]; omega
    unfold decodeTracePacket.records
    rw [if_pos hlt, recordPlan_succ]
    simp only
    cases hd : decodeTracePacket.dispatch c m offset
        (toInt32 (begTime + tick ct.span ct.noElems elemNo)) with
    | error err =>
      exact ⟨_, [], some err, .error err, rfl, by simp, Passed.raised hd,
        Or.inr ⟨err, rfl, rfl⟩⟩
    | ok s =>
      obtain ⟨d', calls, e', r, hrun, hsink, hp, hr⟩ := ih f (offset + c.TRACELEN) (elemNo + 1)
        (XrdMonDecPacketDecoder.call
          { d with reads := d.reads ++ decodeTracePacket.dispatchReads c m offset } s)
        (by omega) (by rw [e]; exact hend)
      refine ⟨d', s :: calls, e', r, hrun, ?_, Passed.next hd hp, hr⟩
      rw [hsink]
      simp [XrdMonDecPacketDecoder.call]

/-- The outer loop of `decodeTracePacket` on a body made of groups of trace
records, each followed by a window record. -/
theorem windows_total (c : MonConst) (tick : Int → Nat → Nat → Int) (m : Mem)
    (hT : 0 < c.TRACELEN) (gs : List Nat) :
    ∀ (fuel o : Nat) (begTime : Int) (d : XrdMonDecPacketDecoder),
      gs.sum + 2 * gs.length + 1 ≤ fuel → grouped c m o gs = true →
      ∃ d' calls e,
        decodeTracePacket.windows c tick m (bodyEnd c.TRACELEN o gs) fuel o begTime d =
          some (d', e) ∧
        d'.sink = d.sink ++ calls ∧ Passed c m (tracePlan c tick m o begTime gs) calls e := by
  induction gs with
  | nil =>
    intro fuel o begTime d hf _
    obtain ⟨f, rfl⟩ : ∃ f, fuel = f + 1 := ⟨fuel - 1, by simp at hf; omega⟩
    refine ⟨d, [], none, ?_, by simp, Passed.done⟩
    unfold decodeTracePacket.windows
    simp [bodyEnd]
  | cons n gs ih =>
    intro fuel o begTime d hf hg
    simp only [List.sum_cons, List.length_cons] at hf
    obtain ⟨f, rfl⟩ : ∃ f, fuel = f + 1 := ⟨fuel - 1, by omega⟩
    simp only [grouped, Bool.and_eq_true, decide_eq_true_eq] at hg
    obtain ⟨⟨hall, hw⟩, hrest⟩ := hg
    have hge := bodyEnd_ge c.TRACELEN gs (o + (n + 1) * c.TRACELEN)
    have hsm : (n + 1) * c.TRACELEN = n * c.TRACELEN + c.TRACELEN := Nat.succ_mul _ _
    have hwlt : ((o + n * c.TRACELEN : Nat) : Int) <
        ((bodyEnd c.TRACELEN (o + (n + 1) * c.TRACELEN) gs : Nat) : Int) := by
      have : o + n * c.TRACELEN < bodyEnd c.TRACELEN (o + (n + 1) * c.TRACELEN) gs := by omega
      exact_mod_cast this
    have holt : ((o : Nat) : Int) <
        ((bodyEnd c.TRACELEN (o + (n + 1) * c.TRACELEN) gs : Nat) : Int) := by
      have : o < bodyEnd c.TRACELEN (o + (n + 1) * c.TRACELEN) gs := by omega
      exact_mod_cast this
    obtain ⟨d1, hprep, hs1⟩ := prepareTimestamp_total c m
      (bodyEnd c.TRACELEN (o + (n + 1) * c.TRACELEN) gs) n f o begTime d (by omega) hall hw hwlt
    obtain ⟨d2, calls1, e1, r, hrec, hs2, hp1, hr⟩ := records_total c tick m
      ⟨toInt32 ((decodeTime m (o + n * c.TRACELEN)).first -
          (if begTime > (decodeTime m (o + n * c.TRACELEN)).first
            then (decodeTime m (o + n * c.TRACELEN)).first else begTime)), n,
        (decodeTime m (o + n * c.TRACELEN)).second, o + n * c.TRACELEN⟩
      (if begTime > (decodeTime m (o + n * c.TRACELEN)).first
        then (decodeTime m (o + n * c.TRACELEN)).first else begTime) hT n f o 0 d1 (by omega) rfl
    unfold decodeTracePacket.windows
    simp only [bodyEnd, tracePlan]
    rw [if_pos holt, hprep]
    simp only
    rw [hrec]
    rcases hr with ⟨he, hr⟩ | ⟨err, he, hr⟩
    · rw [hr]
      simp only
      have eo : o + n * c.TRACELEN + c.TRACELEN = o + (n + 1) * c.TRACELEN := by
        rw [hsm]; omega
      rw [eo]
      obtain ⟨d3, calls2, e2, hwin, hs3, hp2⟩ := ih f (o + (n + 1) * c.TRACELEN)
        (decodeTime m (o + n * c.TRACELEN)).second d2 (by omega) hrest
      refine ⟨d3, calls1 ++ calls2, e2, hwin, ?_, passed_append c m _ _ _ _ _ _ hp1 he hp2⟩
      rw [hs3, hs2, hs1, List.append_assoc]
    · rw [hr]
      simp only
      refine ⟨d2, calls1, some err, rfl, ?_, passed_raised_append c m _ _ _ _ err hp1 he⟩
      rw [hs2, hs1]

/-! ## C25: the first record of a trace packet -/

/-- C25: when the first byte of the body is not `XROOTD_MON_WINDOW`,
`decodeTracePacket` raises `ERR_NOTATIMEWINDOW` and makes no call on the sink;
when it is, and the up-to-time is non-zero and at most the end time of that
window, it sets the stop flag, makes no call on the sink and returns. -/
theorem C25_first_record_gate (c : MonConst) (tick : Int → Nat → Nat → Int) (fuel : Nat)
    (d : XrdMonDecPacketDecoder) (m : Mem) (len : Int) :
    (byte m 0 ≠ c.XROOTD_MON_WINDOW →
      ∃ d', decodeTracePacket c tick fuel d m len = some (d', some .ERR_NOTATIMEWINDOW) ∧
        d'.sink = d.sink ∧ d'.stopNow = d.stopNow) ∧
    (byte m 0 = c.XROOTD_MON_WINDOW → d.upToTime ≠ 0 →
      d.upToTime ≤ (decodeTime m 0).first →
      ∃ d', decodeTracePacket c tick fuel d m len = some (d', none) ∧
        d'.stopNow = true ∧ d'.sink = d.sink) := by
  refine ⟨fun h => ?_, fun h h0 hle => ?_⟩
  · refine ⟨d.read 0 1, ?_, rfl, rfl⟩
    unfold decodeTracePacket
    rw [if_pos h]
  · refine ⟨{ (d.read 0 1).read 8 8 with stopNow := true }, ?_, rfl, rfl⟩
    unfold decodeTracePacket
    rw [if_neg (by simpa using h)]
    simp only
    rw [if_pos ⟨h0, hle⟩]

/-- C25 on a body that starts with a read record, and on a body that starts
with a window that ends at time 200 when the up-to-time is 150. -/
theorem C25_first_record_gate_witness :
    (∃ d', decodeTracePacket xrootd still 0 (fresh 0) (bytesOf readRecord) 16 =
        some (d', some .ERR_NOTATIMEWINDOW) ∧
      d'.sink = (fresh 0).sink ∧ d'.stopNow = (fresh 0).stopNow) ∧
    (∃ d', decodeTracePacket xrootd still 0 (fresh 150)
        (bytesOf (windowRecord ++ readRecord ++ windowRecord)) 48 = some (d', none) ∧
      d'.stopNow = true ∧ d'.sink = (fresh 150).sink) :=
  ⟨(C25_first_record_gate xrootd still 0 (fresh 0) (bytesOf readRecord) 16).1 (by decide),
    (C25_first_record_gate xrootd still 0 (fresh 150)
      (bytesOf (windowRecord ++ readRecord ++ windowRecord)) 48).2 (by decide) (by decide)
      (by decide)⟩

/-! ## C26: the trace records between two windows -/

/-- The body of a window record from time 100 to time 200, a read record, an
open record and a closing window record: the read record is passed with
timestamp 100 and the open record with timestamp 150. -/
theorem trace_body_two_records :
    decodeTracePacket xrootd evenly 5 (fresh 0)
        (bytesOf (windowRecord ++ readRecord ++ openRecord ++ windowRecord)) 64 =
      some (⟨[.add 7 5 9 'r' 100, .openFile 7 150], false, 0,
        [(0, 1), (8, 8), (16, 1), (32, 1), (48, 1), (56, 8), (16, 1), (16, 16), (32, 1),
          (32, 16)]⟩, none) ∧
    tracePlan xrootd evenly (bytesOf (windowRecord ++ readRecord ++ openRecord ++ windowRecord))
        16 100 [2] = [(16, 100), (32, 150)] := by
  refine ⟨by decide, by decide⟩

/-- C26: a trace record at offset `o` whose first byte is `t` is decoded as a
read/write request when `t & XROOTD_MON_RWREQUESTMASK` is 0 (which raises
`ERR_NEGATIVEOFFSET` or passes the offset, the length, the kind and the
dictionary id of the record to the sink), otherwise as an open, a close or a
disconnect when `t` is `XROOTD_MON_OPEN`, `XROOTD_MON_CLOSE` or
`XROOTD_MON_DISC` (which passes the fields of the record to the sink), and for
any other `t` the decoding raises `ERR_INVALIDINFOTYPE`.  On a body that starts
with a window record and holds groups of trace records, each followed by a
window record, `decodeTracePacket` returns, and the trace records have been
dispatched in the order of their offsets, one every `TRACELEN` bytes, each
passed to the sink once and with the timestamp of its place in its window, up
to the end of the body or to the first record that raises. -/
theorem C26_records_dispatched_in_order (c : MonConst) (tick : Int → Nat → Nat → Int)
    (d : XrdMonDecPacketDecoder) (m : Mem) (groups : List Nat)
    (hT : 0 < c.TRACELEN) (hw : byte m 0 = c.XROOTD_MON_WINDOW)
    (hup : ¬ (d.upToTime ≠ 0 ∧ d.upToTime ≤ (decodeTime m 0).first))
    (hg : grouped c m c.TRACELEN groups = true) :
    (∀ (o : Nat) (ts : Int),
      (byte m o &&& c.XROOTD_MON_RWREQUESTMASK = 0 →
        decodeTracePacket.dispatch c m o ts =
          if toInt64 (be64 m (o + c.arg0)) < 0 then .error .ERR_NEGATIVEOFFSET
          else if toInt32 (be32 m (o + c.arg1)) < 0 then
            .ok (.add (be32 m (o + c.arg2)) (toInt64 (be64 m (o + c.arg0)))
              (toInt32 (toInt32 (be32 m (o + c.arg1)) * -1)) 'w' ts)
          else
            .ok (.add (be32 m (o + c.arg2)) (toInt64 (be64 m (o + c.arg0)))
              (toInt32 (be32 m (o + c.arg1))) 'r' ts)) ∧
      (byte m o &&& c.XROOTD_MON_RWREQUESTMASK ≠ 0 →
        (byte m o = c.XROOTD_MON_OPEN →
          decodeTracePacket.dispatch c m o ts = .ok (.openFile (be32 m (o + c.arg2)) ts)) ∧
        (byte m o ≠ c.XROOTD_MON_OPEN → byte m o = c.XROOTD_MON_CLOSE →
          decodeTracePacket.dispatch c m o ts =
            .ok (.closeFile (be32 m (o + c.arg2))
              (toInt64 (be32 m (o + c.arg0 + 4) * 2 ^ (byte m (o + c.arg0 + 1) % 64)))
              (toInt64 (be32 m (o + c.arg1) * 2 ^ (byte m (o + c.arg0 + 2) % 64))) ts)) ∧
        (byte m o ≠ c.XROOTD_MON_OPEN → byte m o ≠ c.XROOTD_MON_CLOSE →
          byte m o = c.XROOTD_MON_DISC →
          decodeTracePacket.dispatch c m o ts =
            .ok (.addUserDisconnect (be32 m (o + c.arg2)) (toInt32 (be32 m (o + c.arg1)))
              ts)) ∧
        (byte m o ≠ c.XROOTD_MON_OPEN → byte m o ≠ c.XROOTD_MON_CLOSE →
          byte m o ≠ c.XROOTD_MON_DISC →
          decodeTracePacket.dispatch c m o ts = .error .ERR_INVALIDINFOTYPE))) ∧
    ∀ fuel, groups.sum + 2 * groups.length + 1 ≤ fuel →
      ∃ d' calls e,
        decodeTracePacket c tick fuel d m (bodyEnd c.TRACELEN c.TRACELEN groups) =
          some (d', e) ∧
        d'.sink = d.sink ++ calls ∧
        Passed c m (tracePlan c tick m c.TRACELEN (decodeTime m 0).second groups) calls e := by
  refine ⟨fun o ts => ⟨fun h0 => ?_, fun h1 => ⟨fun ho => ?_, fun ho hc => ?_,
    fun ho hc hd => ?_, fun ho hc hd => ?_⟩⟩, ?_⟩
  · unfold decodeTracePacket.dispatch
    simp only
    rw [if_pos h0]
    rfl
  · unfold decodeTracePacket.dispatch
    simp only
    rw [if_neg h1, if_pos ho]
    rfl
  · unfold decodeTracePacket.dispatch
    simp only
    rw [if_neg h1, if_neg ho, if_pos hc]
    rfl
  · unfold decodeTracePacket.dispatch
    simp only
    rw [if_neg h1, if_neg ho, if_neg hc, if_pos hd]
    rfl
  · unfold decodeTracePacket.dispatch
    simp only
    rw [if_neg h1, if_neg ho, if_neg hc, if_neg hd]
  · intro fuel hf
    obtain ⟨d', calls, e, hrun, hs, hp⟩ := windows_total c tick m hT groups fuel c.TRACELEN
      (decodeTime m 0).second ((d.read 0 1).read 8 8) hf hg
    refine ⟨d', calls, e, ?_, hs, hp⟩
    unfold decodeTracePacket
    rw [if_neg (by simpa using hw)]
    simp only
    rw [if_neg hup]
    exact hrun

/-- C26 on the body of a window record from time 100 to time 200, a read
record, an open record and a closing window record, with the timestamps of
line 125: the decoding returns without an exception, and the two records have
been passed to the sink in the order of their offsets 16 and 32, each once, the
read record with the timestamp 100 and the open record with the timestamp
150. -/
theorem C26_records_dispatched_in_order_witness :
    decodeTracePacket xrootd evenly 5 (fresh 0)
        (bytesOf (windowRecord ++ readRecord ++ openRecord ++ windowRecord)) 64 =
      some (⟨[.add 7 5 9 'r' 100, .openFile 7 150], false, 0,
        [(0, 1), (8, 8), (16, 1), (32, 1), (48, 1), (56, 8), (16, 1), (16, 16), (32, 1),
          (32, 16)]⟩, none) ∧
    Passed xrootd (bytesOf (windowRecord ++ readRecord ++ openRecord ++ windowRecord))
      [(16, 100), (32, 150)] [.add 7 5 9 'r' 100, .openFile 7 150] none := by
  obtain ⟨d', calls, e, hrun, hs, hp⟩ :=
    (C26_records_dispatched_in_order xrootd evenly (fresh 0)
      (bytesOf (windowRecord ++ readRecord ++ openRecord ++ windowRecord)) [2]
      (by decide) (by decide) (by decide) (by decide)).2 5 (by decide)
  have hlen : ((bodyEnd xrootd.TRACELEN xrootd.TRACELEN [2] : Nat) : Int) = 64 := by decide
  have hplan : tracePlan xrootd evenly
      (bytesOf (windowRecord ++ readRecord ++ openRecord ++ windowRecord)) xrootd.TRACELEN
      (decodeTime (bytesOf (windowRecord ++ readRecord ++ openRecord ++ windowRecord)) 0).second
      [2] = [(16, 100), (32, 150)] := by decide
  rw [hlen, trace_body_two_records.1] at hrun
  rw [hplan] at hp
  cases hrun
  have hc : calls = [.add 7 5 9 'r' 100, .openFile 7 150] := by
    simpa [fresh] using hs.symm
  rw [hc] at hp
  exact ⟨trace_body_two_records.1, hp⟩

/-! ## C27: the bytes `prepareTimestamp` reads -/

theorem dispatch_error_ne (c : MonConst) (m : Mem) (o : Nat) (ts : Int) (e : ErrCode)
    (h : decodeTracePacket.dispatch c m o ts = .error e) : e ≠ .ERR_NOTATIMEWINDOW := by
  unfold decodeTracePacket.dispatch decodeRWRequest at h
  simp only at h
  intro he
  rw [he] at h
  repeat' split at h
  all_goals cases h

/-- The body of a window record and a read record, with no closing window
record: in a memory with zeros after the body the byte at offset 32 is read
and the body rejected; in a memory with a window record after the body that
record is read and the body accepted. -/
theorem trace_body_without_closing_window :
    (∀ i, i < 32 → bytesOf (windowRecord ++ readRecord) i =
      bytesOf (windowRecord ++ readRecord ++ windowRecord) i) ∧
    decodeTracePacket xrootd still 4 (fresh 0) (bytesOf (windowRecord ++ readRecord)) 32 =
      some (⟨[], false, 0, [(0, 1), (8, 8), (16, 1), (32, 1)]⟩, some .ERR_NOTATIMEWINDOW) ∧
    decodeTracePacket xrootd still 4 (fresh 0)
        (bytesOf (windowRecord ++ readRecord ++ windowRecord)) 32 =
      some (⟨[.add 7 5 9 'r' 100], false, 0,
        [(0, 1), (8, 8), (16, 1), (32, 1), (40, 8), (16, 1), (16, 16)]⟩, none) := by
  refine ⟨by decide, by decide, by decide⟩

/-- C27 fails.  On a body of two records, a window record and a record that is
no window record, `decodeTracePacket` returns and `prepareTimestamp` has read
the byte at offset `len`, beyond the body.  When that byte is not
`XROOTD_MON_WINDOW` the body is rejected with `ERR_NOTATIMEWINDOW`; when it is,
the eight bytes at offset `len + 8` are read as the times of a window and the
body is not rejected with `ERR_NOTATIMEWINDOW`, although no window record
closes it below `len`. -/
theorem C27_reads_beyond_len (c : MonConst) (tick : Int → Nat → Nat → Int)
    (d : XrdMonDecPacketDecoder) (m : Mem) (fuel : Nat)
    (hT : 0 < c.TRACELEN) (hw : byte m 0 = c.XROOTD_MON_WINDOW)
    (hup : ¬ (d.upToTime ≠ 0 ∧ d.upToTime ≤ (decodeTime m 0).first))
    (h1 : byte m c.TRACELEN ≠ c.XROOTD_MON_WINDOW) (hf : 3 ≤ fuel) :
    ∃ d' e,
      decodeTracePacket c tick fuel d m ((c.TRACELEN + c.TRACELEN : Nat) : Int) = some (d', e) ∧
      (c.TRACELEN + c.TRACELEN, 1) ∈ d'.reads ∧
      (byte m (c.TRACELEN + c.TRACELEN) ≠ c.XROOTD_MON_WINDOW →
        e = some .ERR_NOTATIMEWINDOW ∧ d'.sink = d.sink) ∧
      (byte m (c.TRACELEN + c.TRACELEN) = c.XROOTD_MON_WINDOW →
        (c.TRACELEN + c.TRACELEN + 8, 8) ∈ d'.reads ∧ e ≠ some .ERR_NOTATIMEWINDOW) := by
  obtain ⟨g, rfl⟩ : ∃ g, fuel = g + 3 := ⟨fuel - 3, by omega⟩
  have hlt : ((c.TRACELEN : Nat) : Int) < ((c.TRACELEN + c.TRACELEN : Nat) : Int) := by
    exact_mod_cast Nat.lt_add_of_pos_right hT
  have hnge : ¬ (((c.TRACELEN : Nat) : Int) ≥ ((c.TRACELEN + c.TRACELEN : Nat) : Int)) :=
    not_le.mpr hlt
  unfold decodeTracePacket
  rw [if_neg (by simpa using hw)]
  simp only
  rw [if_neg hup]
  unfold decodeTracePacket.windows
  rw [if_pos hlt]
  unfold prepareTimestamp
  unfold prepareTimestamp.scan
  rw [if_pos h1, if_neg hnge]
  unfold prepareTimestamp.scan
  by_cases h2 : byte m (c.TRACELEN + c.TRACELEN) = c.XROOTD_MON_WINDOW
  · rw [if_neg (by simpa using h2)]
    simp only
    unfold decodeTracePacket.records
    simp only
    rw [if_pos (Nat.lt_add_of_pos_right hT)]
    cases hd : decodeTracePacket.dispatch c m c.TRACELEN
        (toInt32 ((if (decodeTime m 0).second > (decodeTime m (c.TRACELEN + c.TRACELEN)).first
            then (decodeTime m (c.TRACELEN + c.TRACELEN)).first
            else (decodeTime m 0).second) +
          tick (toInt32 ((decodeTime m (c.TRACELEN + c.TRACELEN)).first -
              (if (decodeTime m 0).second > (decodeTime m (c.TRACELEN + c.TRACELEN)).first
                then (decodeTime m (c.TRACELEN + c.TRACELEN)).first
                else (decodeTime m 0).second))) (0 + 1) 0)) with
    | error err =>
      simp only
      refine ⟨_, _, rfl, ?_, fun h => absurd h2 h, fun _ => ⟨?_, ?_⟩⟩
      · simp [XrdMonDecPacketDecoder.read]
      · simp [XrdMonDecPacketDecoder.read]
      · intro he
        exact dispatch_error_ne c m _ _ err hd (Option.some.inj he)
    | ok s =>
      simp only
      unfold decodeTracePacket.records
      simp only
      rw [if_neg (lt_irrefl _)]
      simp only
      unfold decodeTracePacket.windows
      rw [if_neg (by push_cast; omega)]
      refine ⟨_, _, rfl, ?_, fun h => absurd h2 h, fun _ => ⟨?_, by simp⟩⟩
      · simp [XrdMonDecPacketDecoder.read, XrdMonDecPacketDecoder.call]
      · simp [XrdMonDecPacketDecoder.read, XrdMonDecPacketDecoder.call]
  · rw [if_pos h2, if_pos (le_refl _)]
    simp only
    refine ⟨_, _, rfl, ?_, fun _ => ⟨rfl, rfl⟩, fun h => absurd h h2⟩
    simp [XrdMonDecPacketDecoder.read]

/-- C27 on the body of a window record and a read record, in a memory that
holds a window record after the body. -/
theorem C27_reads_beyond_len_witness :
    ∃ d' e,
      decodeTracePacket xrootd still 4 (fresh 0)
        (bytesOf (windowRecord ++ readRecord ++ windowRecord))
        ((xrootd.TRACELEN + xrootd.TRACELEN : Nat) : Int) = some (d', e) ∧
      (xrootd.TRACELEN + xrootd.TRACELEN, 1) ∈ d'.reads ∧
      (byte (bytesOf (windowRecord ++ readRecord ++ windowRecord))
          (xrootd.TRACELEN + xrootd.TRACELEN) ≠ xrootd.XROOTD_MON_WINDOW →
        e = some .ERR_NOTATIMEWINDOW ∧ d'.sink = (fresh 0).sink) ∧
      (byte (bytesOf (windowRecord ++ readRecord ++ windowRecord))
          (xrootd.TRACELEN + xrootd.TRACELEN) = xrootd.XROOTD_MON_WINDOW →
        (xrootd.TRACELEN + xrootd.TRACELEN + 8, 8) ∈ d'.reads ∧
          e ≠ some .ERR_NOTATIMEWINDOW) :=
  C27_reads_beyond_len xrootd still (fresh 0)
    (bytesOf (windowRecord ++ readRecord ++ windowRecord)) 4 (by decide) (by decide)
    (by decide) (by decide) (by decide)

/-! ## C28: read and write requests -/

/-- C28 fails at the length -2^31.  For a request record whose decoded offset
is not negative and whose decoded length is -2147483648, `decodeRWRequest`
passes a write to the sink whose length is -2147483648: a negative length, and
not the negated decoded length. -/
theorem C28_negative_length_recorded (c : MonConst) (m : Mem) (packet : Nat) (ts : Int)
    (hoff : 0 ≤ toInt64 (be64 m (packet + c.arg0)))
    (hlen : toInt32 (be32 m (packet + c.arg1)) = -2147483648) :
    decodeRWRequest c m packet ts =
      .ok (.add (be32 m (packet + c.arg2)) (toInt64 (be64 m (packet + c.arg0)))
        (-2147483648) 'w' ts) := by
  unfold decodeRWRequest
  simp only
  rw [if_neg (not_lt.mpr hoff), hlen, if_pos (by decide)]
  rfl

/-- C28 on the request record with offset 5, the length bytes `80 00 00 00`
and dictionary id 7. -/
theorem C28_negative_length_recorded_witness :
    decodeRWRequest xrootd (bytesOf overflowRecord) 0 0 =
      .ok (.add (be32 (bytesOf overflowRecord) (0 + xrootd.arg2))
        (toInt64 (be64 (bytesOf overflowRecord) (0 + xrootd.arg0))) (-2147483648) 'w' 0) :=
  C28_negative_length_recorded xrootd (bytesOf overflowRecord) 0 0 (by decide) (by decide)

/-! ## C29: dictionary and user packets -/

/-- The dictionary packet and the user packet with `packetLen = HDRLEN + 2`:
the four bytes at offsets 0 to 3 of the body are read and the payload length
-2 is passed to the sink. -/
theorem two_byte_bodies :
    operatorCall xrootd still 0 (fresh 0) ⟨10, xrootd.PACKET_TYPE_DICT, 3⟩
        (bytesOf [0, 0, 0, 0, 0, 0, 0, 0, 0, 1, 2, 3, 4]) xrootd.INV_SENDERID =
      some (⟨[.addDictId 66051 4 (-2), .setLastSeq 3], false, 0, [(0, 4)]⟩, none) ∧
    operatorCall xrootd still 0 (fresh 0) ⟨10, xrootd.PACKET_TYPE_USER, 3⟩
        (bytesOf [0, 0, 0, 0, 0, 0, 0, 0, 0, 1, 2, 3, 4]) xrootd.INV_SENDERID =
      some (⟨[.addUserId 66051 4 (-2), .setLastSeq 3], false, 0, [(0, 4)]⟩, none) := by
  refine ⟨by decide, by decide⟩

/-- C29 fails for bodies of 1, 2 or 3 bytes.  A dictionary or user packet
with `1 <= packetLen - HDRLEN = len < 4` is accepted: the decoder reads four
bytes of the body, which has fewer, and the payload length it passes to the
sink is `len - 4`, a negative number; the last sequence number is updated. -/
theorem C29_short_body_negative_length (c : MonConst) (tick : Int → Nat → Nat → Int)
    (fuel : Nat) (d : XrdMonDecPacketDecoder) (header : XrdMonHeader) (packet : Mem)
    (hne : header.packetType ≠ c.PACKET_TYPE_TRACE)
    (h1 : 1 ≤ header.packetLen - c.HDRLEN) (h4 : header.packetLen - c.HDRLEN < 4) :
    (header.packetType = c.PACKET_TYPE_DICT →
      operatorCall c tick fuel d header packet c.INV_SENDERID =
        some (⟨d.sink ++ [.addDictId (toInt32 (be32 (fun i => packet (c.HDRLEN + i)) 0)) 4
            (header.packetLen - c.HDRLEN - 4),
          .setLastSeq header.seqNo], d.stopNow, d.upToTime, d.reads ++ [(0, 4)]⟩, none)) ∧
    (header.packetType ≠ c.PACKET_TYPE_DICT → header.packetType = c.PACKET_TYPE_USER →
      operatorCall c tick fuel d header packet c.INV_SENDERID =
        some (⟨d.sink ++ [.addUserId (toInt32 (be32 (fun i => packet (c.HDRLEN + i)) 0)) 4
            (header.packetLen - c.HDRLEN - 4),
          .setLastSeq header.seqNo], d.stopNow, d.upToTime, d.reads ++ [(0, 4)]⟩, none)) ∧
    header.packetLen - c.HDRLEN - 4 < 0 := by
  have hl : toInt32 (header.packetLen - c.HDRLEN) = header.packetLen - c.HDRLEN := by
    unfold toInt32; omega
  have hp : toInt32 ((header.packetLen - c.HDRLEN - 4) % 18446744073709551616) =
      header.packetLen - c.HDRLEN - 4 := by
    unfold toInt32; omega
  refine ⟨fun hd => ?_, fun hnd hu => ?_, by omega⟩
  · unfold operatorCall
    simp only [ne_eq, not_true_eq_false, if_false]
    rw [hl, if_neg (by omega), if_neg hne, if_pos hd]
    simp [decodeDictPacket, XrdMonDecPacketDecoder.read, XrdMonDecPacketDecoder.call, hp]
  · unfold operatorCall
    simp only [ne_eq, not_true_eq_false, if_false]
    rw [hl, if_neg (by omega), if_neg hne, if_neg hnd, if_pos hu]
    simp [decodeUserPacket, XrdMonDecPacketDecoder.read, XrdMonDecPacketDecoder.call, hp]

/-- C29 on the dictionary packet with `packetLen = HDRLEN + 2` whose two body
bytes `00 01` are followed in memory by the bytes `02 03`: the id passed is
`0x00010203` and the payload length is -2. -/
theorem C29_short_body_negative_length_witness :
    operatorCall xrootd still 0 (fresh 0) ⟨10, xrootd.PACKET_TYPE_DICT, 3⟩
        (bytesOf [0, 0, 0, 0, 0, 0, 0, 0, 0, 1, 2, 3, 4]) xrootd.INV_SENDERID =
      some (⟨(fresh 0).sink ++
        [.addDictId (toInt32 (be32
            (fun i => bytesOf [0, 0, 0, 0, 0, 0, 0, 0, 0, 1, 2, 3, 4] (xrootd.HDRLEN + i)) 0)) 4
          ((⟨10, xrootd.PACKET_TYPE_DICT, 3⟩ : XrdMonHeader).packetLen - xrootd.HDRLEN - 4),
        .setLastSeq (⟨10, xrootd.PACKET_TYPE_DICT, 3⟩ : XrdMonHeader).seqNo],
        (fresh 0).stopNow, (fresh 0).upToTime, (fresh 0).reads ++ [(0, 4)]⟩, none) :=
  (C29_short_body_negative_length xrootd still 0 (fresh 0) ⟨10, xrootd.PACKET_TYPE_DICT, 3⟩
    (bytesOf [0, 0, 0, 0, 0, 0, 0, 0, 0, 1, 2, 3, 4]) (by decide) (by decide) (by decide)).1 rfl

end XrdMonDec
